import Mathlib

/-!
# goplaid/multipartestutils: the multipart request builder

A shallow embedding of `builder.go` together with the parts of the Go standard
library it drives (`io.Pipe`, `mime/multipart.Writer`, `path/filepath.Base`,
`encoding/json.Marshal` on the event body, `net/http/httptest.NewRequest`), and
a reference decoder for `multipart/form-data` bodies against which the
builder's output is checked.

Conventions of the embedding:

* a Go `string` or `[]byte` is a list of bytes (`Bytes`);
* a Go `error` is represented by its message (`err.Error()`), `none` is `nil`;
* a method with a pointer receiver takes the receiver's state and returns the
  new state; the builder methods that return the receiver for chaining return
  the updated builder;
* the goroutine started by `Build` and the reader draining the pipe are
  collapsed: the result of `Build` is what a reader of the returned stream
  observes.
-/

namespace Multipartestutils

/-! ## Bytes, strings and errors -/

/-- A Go `string` or `[]byte`. -/
abbrev Bytes := List UInt8

/-- The bytes (UTF-8) of a string literal of the source. -/
def str (s : String) : Bytes := s.data.flatMap String.utf8EncodeChar

/-- A Go `error`, represented by its message. -/
abbrev GoError := Bytes

/-! ## io.Pipe -/

/-- The write end of an `io.Pipe` together with the behaviour of the reader on
the other end. `out` are the bytes the reader has received so far. `room` says
how the reader behaves: `none` is a reader that reads to exhaustion, `some n` a
reader that closes its end after taking `n` more bytes. -/
structure Pipe where
  out : Bytes
  room : Option Nat
deriving DecidableEq, Repr

/-- The message of `io.ErrClosedPipe`. -/
def ErrClosedPipe : GoError := str "io: read/write on closed pipe"

/-- The call `io.Pipe()`, seen from the write end: nothing written yet. -/
def Pipe.new (room : Option Nat) : Pipe := { out := [], room := room }

/-- The method `(*PipeWriter).Write`: the data reaches the reader; when the
reader closes its end before all of it is taken, the write fails with
`io.ErrClosedPipe` after the bytes the reader did take. -/
def Pipe.Write (p : Pipe) (d : Bytes) : Pipe × Option GoError :=
  match p.room with
  | none => ({ p with out := p.out ++ d }, none)
  | some n =>
    if 0 < n ∧ d.length ≤ n then
      ({ out := p.out ++ d, room := some (n - d.length) }, none)
    else
      ({ out := p.out ++ d.take n, room := some 0 }, some ErrClosedPipe)

/-- What a reader of the read end observes when it reads until the stream
ends: the bytes, and the error that ended the stream (`none` is a clean end of
stream, `io.EOF`). -/
structure Stream where
  data : Bytes
  err : Option GoError
deriving DecidableEq, Repr

/-- The method `(*PipeWriter).CloseWithError`, seen from the reader: a reader
that is still reading gets the bytes written so far and then `err`, or the end
of the stream when `err` is `nil`; a reader that has closed its end (it has
taken all the bytes it wanted, `room` is `some 0`) gets `io.ErrClosedPipe` from
its own end, whatever the writer closes with. -/
def Pipe.CloseWithError (p : Pipe) (err : Option GoError) : Stream :=
  { data := p.out, err := if p.room = some 0 then some ErrClosedPipe else err }

/-! ## io.Reader and the file system -/

/-- An `io.Reader` handed to the builder: the bytes it yields and the error it
ends with (`none` is `io.EOF`). -/
structure Reader where
  data : Bytes
  err : Option GoError
deriving DecidableEq, Repr

/-- The file system as `os.Open` sees it when a part writer runs: for a path
either the error of the open call or the opened file. -/
abbrev FileSystem := Bytes → Except GoError Reader

/-! ## mime/multipart.Writer -/

/-- The digits of the verb `%x`. -/
def hexDigit (n : Nat) : UInt8 :=
  if n < 10 then UInt8.ofNat (48 + n) else UInt8.ofNat (87 + n)

/-- The verb `%x` on a byte slice: two lowercase hexadecimal digits per byte. -/
def hexEncode : Bytes → Bytes
  | [] => []
  | b :: bs => hexDigit (b.toNat / 16) :: hexDigit (b.toNat % 16) :: hexEncode bs

/-- The function `randomBoundary` of mime/multipart: thirty random bytes,
printed with `%x`. The random bytes are an input of the model. -/
def randomBoundary (rnd : Fin 30 → UInt8) : Bytes := hexEncode (List.ofFn rnd)

/-- The type `part` of mime/multipart: the writer handed out by `CreatePart`. -/
structure part where
  closed : Bool
  we : Option GoError
deriving DecidableEq, Repr

/-- The type `multipart.Writer`: the sink, the boundary and the last part
created. -/
structure Writer where
  w : Pipe
  boundary : Bytes
  lastpart : Option part
deriving DecidableEq, Repr

/-- The function `multipart.NewWriter`. -/
def NewWriter (rnd : Fin 30 → UInt8) (w : Pipe) : Writer :=
  { w := w, boundary := randomBoundary rnd, lastpart := none }

/-- The bytes `strings.ContainsAny` looks for in `FormDataContentType`: the
tspecials of RFC 2045 and the space. -/
def contentTypeSpecials : Bytes := str "()<>@,;:\\\"/[]?= "

/-- The method `(*Writer).FormDataContentType`. -/
def Writer.FormDataContentType (mw : Writer) : Bytes :=
  let b := mw.boundary
  let b := if b.any (fun c => contentTypeSpecials.contains c) then str "\"" ++ b ++ str "\"" else b
  str "multipart/form-data; boundary=" ++ b

/-- The replacer `quoteEscaper` of mime/multipart, byte by byte: a backslash
and a double quote get a backslash in front, a carriage return and a line feed
are written as `%0D` and `%0A`, every other byte stays as it is. (Releases of
Go up to 1.25 leave the carriage return and the line feed as they are; the
names considered in the statements below hold neither.) -/
def escapeQuotes : Bytes → Bytes
  | [] => []
  | c :: cs =>
    (if c = 92 then [92, 92]
     else if c = 34 then [92, 34]
     else if c = 13 then str "%0D"
     else if c = 10 then str "%0A"
     else [c]) ++ escapeQuotes cs

/-- The header of a part as `CreatePart` prints it: one line per key, in the
sorted order of the keys, then an empty line. The callers below pass the keys
sorted. -/
def headerLines : List (Bytes × Bytes) → Bytes
  | [] => str "\r\n"
  | (k, v) :: rest => k ++ str ": " ++ v ++ str "\r\n" ++ headerLines rest

/-- The method `(*part).close` applied to the last part, if there is one. -/
def Writer.closeLastPart (mw : Writer) : Writer × Option GoError :=
  match mw.lastpart with
  | none => (mw, none)
  | some p => ({ mw with lastpart := some { p with closed := true } }, p.we)

/-- The method `(*Writer).CreatePart`: close the previous part, write the
delimiter line and the header, and make the new part the last one. -/
def Writer.CreatePart (mw : Writer) (header : List (Bytes × Bytes)) : Writer × Option GoError :=
  match mw.closeLastPart with
  | (mw1, some e) => (mw1, some e)
  | (mw1, none) =>
    let b :=
      (if mw1.lastpart.isSome then str "\r\n--" ++ mw1.boundary ++ str "\r\n"
       else str "--" ++ mw1.boundary ++ str "\r\n") ++ headerLines header
    match mw1.w.Write b with
    | (w2, some e) => ({ mw1 with w := w2 }, some e)
    | (w2, none) => ({ mw1 with w := w2, lastpart := some { closed := false, we := none } }, none)

/-- The method `(*part).Write` on the part handed out by the last `CreatePart`
(the only part the builder ever writes to). -/
def Writer.partWrite (mw : Writer) (d : Bytes) : Writer × Option GoError :=
  match mw.lastpart with
  | none => (mw, some (str "multipart: can't write to finished part"))
  | some p =>
    if p.closed then (mw, some (str "multipart: can't write to finished part"))
    else
      match mw.w.Write d with
      | (w2, some e) => ({ mw with w := w2, lastpart := some { p with we := some e } }, some e)
      | (w2, none) => ({ mw with w := w2 }, none)

/-- The method `(*Writer).CreateFormField`. -/
def Writer.CreateFormField (mw : Writer) (fieldname : Bytes) : Writer × Option GoError :=
  mw.CreatePart
    [(str "Content-Disposition", str "form-data; name=\"" ++ escapeQuotes fieldname ++ str "\"")]

/-- The method `(*Writer).WriteField`. -/
def Writer.WriteField (mw : Writer) (fieldname value : Bytes) : Writer × Option GoError :=
  match mw.CreateFormField fieldname with
  | (mw1, some e) => (mw1, some e)
  | (mw1, none) => mw1.partWrite value

/-- The method `(*Writer).CreateFormFile`. -/
def Writer.CreateFormFile (mw : Writer) (fieldname filename : Bytes) : Writer × Option GoError :=
  mw.CreatePart
    [(str "Content-Disposition",
        str "form-data; name=\"" ++ escapeQuotes fieldname ++ str "\"; filename=\"" ++
          escapeQuotes filename ++ str "\""),
     (str "Content-Type", str "application/octet-stream")]

/-- The method `(*Writer).Close`: close the last part and write the
terminating boundary. -/
def Writer.Close (mw : Writer) : Writer × Option GoError :=
  match mw.closeLastPart with
  | (mw1, some e) => (mw1, some e)
  | (mw1, none) =>
    match mw1.w.Write (str "\r\n--" ++ mw1.boundary ++ str "--\r\n") with
    | (w2, err) => ({ mw1 with w := w2, lastpart := none }, err)

/-- The call `io.Copy(w, reader)` into the current part: everything the reader
yields is written; a failed write ends the copy with the write error, otherwise
the copy ends with the error of the reader (`io.EOF` is not an error). A reader
that yields nothing causes no write. -/
def ioCopy (mw : Writer) (r : Reader) : Writer × Option GoError :=
  if r.data = [] then (mw, r.err)
  else
    match mw.partWrite r.data with
    | (mw1, some e) => (mw1, some e)
    | (mw1, none) => (mw1, r.err)

/-- The function `filepath.Base` for slash-separated paths. -/
def filepathBase (path : Bytes) : Bytes :=
  if path = [] then str "."
  else
    let p := (path.reverse.dropWhile (fun c => c = 47)).reverse
    let last := (p.reverse.takeWhile (fun c => c ≠ 47)).reverse
    if last = [] then str "/" else last

/-! ## builder.go: the builder and its part writers -/

/-- An element of `cbs`, a `func(*multipart.Writer) error`. The field is
unexported and `AddField`, `AddReader` and `AddFile` are the only code that
appends to it, so an element is one of the three function literals of
builder.go together with the variables it captured. -/
inductive PartWriter where
  | fieldWriter (fieldName value : Bytes)
  | readerWriter (fieldName fileName : Bytes) (reader : Reader)
  | fileWriter (fieldName filePath : Bytes)
deriving DecidableEq, Repr

open PartWriter (fieldWriter readerWriter fileWriter)

/-- The struct `EventFuncID`. -/
structure EventFuncID where
  ID : Bytes
  Params : List Bytes
deriving DecidableEq, Repr

/-- The struct `Event`. -/
structure Event where
  Checked : Bool
  From : Bytes
  To : Bytes
  Value : Bytes
deriving DecidableEq, Repr

/-- The struct `eventBody`. -/
structure eventBody where
  EventFuncID : EventFuncID
  Event : Event
deriving DecidableEq, Repr

/-- The struct `Builder`. -/
structure Builder where
  pageURL : Bytes
  eb : eventBody
  cbs : List PartWriter

/-- The function `NewMultipartBuilder`: the zero value `&Builder{}`. -/
def NewMultipartBuilder : Builder :=
  { pageURL := [],
    eb := { EventFuncID := { ID := [], Params := [] },
            Event := { Checked := false, From := [], To := [], Value := [] } },
    cbs := [] }

/-- The call `cb(mw)` of an element of `cbs`, the bodies of the three function
literals: it runs against the file system of the moment, changes the encoder
and returns its error. -/
def PartWriter.run : PartWriter → FileSystem → Writer → Writer × Option GoError
  | .fieldWriter fieldName value, _, mw =>
    match mw.WriteField fieldName value with
    | (mw1, some err) =>
      (mw1, some (str "multipartbuilder: failed to write field " ++ fieldName ++ str "=" ++ value ++
        str ": " ++ err))
    | (mw1, none) => (mw1, none)
  | .readerWriter fieldName fileName reader, _, mw =>
    match mw.CreateFormFile fieldName fileName with
    | (mw1, some err) =>
      (mw1, some (str "multipartbuilder: failed to create form file " ++ fieldName ++ str " (" ++
        fileName ++ str ") for reader: " ++ err))
    | (mw1, none) =>
      match ioCopy mw1 reader with
      | (mw2, some err) =>
        (mw2, some (str "multipartbuilder: failed to copy form file " ++ fieldName ++ str " (" ++
          fileName ++ str ") for reader: " ++ err))
      | (mw2, none) => (mw2, none)
  | .fileWriter fieldName filePath, fs, mw =>
    match fs filePath with
    | .error err =>
      (mw, some (str "multipartbuilder: failed to open file " ++ fieldName ++ str " (" ++ filePath ++
        str "): " ++ err))
    | .ok f =>
      match mw.CreateFormFile fieldName (filepathBase filePath) with
      | (mw1, some err) =>
        (mw1, some (str "multipartbuilder: failed to create form file " ++ fieldName ++ str " (" ++
          filePath ++ str "): " ++ err))
      | (mw1, none) =>
        match ioCopy mw1 f with
        | (mw2, some err) =>
          (mw2, some (str "multipartbuilder: failed to copy form file " ++ fieldName ++ str " (" ++
            filePath ++ str "): " ++ err))
        | (mw2, none) => (mw2, none)

instance : CoeFun PartWriter (fun _ => FileSystem → Writer → Writer × Option GoError) :=
  ⟨PartWriter.run⟩

/-- The method `AddField`. -/
def Builder.AddField (b : Builder) (fieldName value : Bytes) : Builder :=
  { b with cbs := b.cbs ++ [fieldWriter fieldName value] }

/-- The method `AddReader`. -/
def Builder.AddReader (b : Builder) (fieldName fileName : Bytes) (reader : Reader) : Builder :=
  { b with cbs := b.cbs ++ [readerWriter fieldName fileName reader] }

/-- The method `AddFile`. -/
def Builder.AddFile (b : Builder) (fieldName filePath : Bytes) : Builder :=
  { b with cbs := b.cbs ++ [fileWriter fieldName filePath] }

/-- The loop of the goroutine of `Build`: the part writers in order, stopping at
the first that returns an error. -/
def runWriters (fs : FileSystem) : List PartWriter → Writer → Writer × Option GoError
  | [], mw => (mw, none)
  | cb :: rest, mw =>
    match cb fs mw with
    | (mw1, some err) => (mw1, some err)
    | (mw1, none) => runWriters fs rest mw1

/-- The goroutine of `Build`: on the first failure the write end is closed with
that error; after the last writer the encoder is closed and the write end is
closed with the error of that close. -/
def buildStream (fs : FileSystem) (cbs : List PartWriter) (mw : Writer) : Stream :=
  match runWriters fs cbs mw with
  | (mw1, some err) => mw1.w.CloseWithError (some err)
  | (mw1, none) =>
    match mw1.Close with
    | (mw2, err) => mw2.w.CloseWithError err

/-- What a call of `Build` leaves behind: the two values it returns and the
receiver after the call. -/
structure Built where
  contentType : Bytes
  body : Stream
  builder : Builder

/-- The method `Build`: the content type and what the returned reader yields.
`rnd` are the random bytes of the boundary, `room` the behaviour of the
consumer of the stream and `fs` the file system while the writers run. -/
def Builder.Build (b : Builder) (rnd : Fin 30 → UInt8) (room : Option Nat) (fs : FileSystem) :
    Built :=
  let mw := NewWriter rnd (Pipe.new room)
  { contentType := mw.FormDataContentType, body := buildStream fs b.cbs mw, builder := b }

/-- The method `EventFunc`. -/
def Builder.EventFunc (b : Builder) (id : Bytes) (params : List Bytes) : Builder :=
  { b with eb := { b.eb with EventFuncID := { ID := id, Params := params } } }

/-- The method `Event`. -/
def Builder.Event (b : Builder) (evt : Multipartestutils.Event) : Builder :=
  { b with eb := { b.eb with Event := evt } }

/-- The method `PageURL`. -/
def Builder.PageURL (b : Builder) (url : Bytes) : Builder :=
  { b with pageURL := url }

/-! ## encoding/json.Marshal on the event body -/

/-- The function `utf8.DecodeRuneInString` as far as `json.Marshal` uses it:
the length of the well-formed UTF-8 sequence at the head of the bytes, `none`
when there is none (the decoder then yields `RuneError` with size one). -/
def utf8Size : Bytes → Option Nat
  | [] => none
  | s0 :: rest =>
    let cont (lo hi : UInt8) (n : Nat) : Option Nat :=
      match rest with
      | [] => none
      | s1 :: tl =>
        if rest.length + 1 < n then none
        else if s1 < lo ∨ hi < s1 then none
        else if n ≤ 2 then some 2
        else
          match tl with
          | [] => none
          | s2 :: tl2 =>
            if s2 < 0x80 ∨ 0xBF < s2 then none
            else if n ≤ 3 then some 3
            else
              match tl2 with
              | [] => none
              | s3 :: _ => if s3 < 0x80 ∨ 0xBF < s3 then none else some 4
    if s0 < 0x80 then some 1
    else if s0 < 0xC2 then none
    else if s0 < 0xE0 then cont 0x80 0xBF 2
    else if s0 = 0xE0 then cont 0xA0 0xBF 3
    else if s0 < 0xED then cont 0x80 0xBF 3
    else if s0 = 0xED then cont 0x80 0x9F 3
    else if s0 < 0xF0 then cont 0x80 0xBF 3
    else if s0 = 0xF0 then cont 0x90 0xBF 4
    else if s0 < 0xF4 then cont 0x80 0xBF 4
    else if s0 = 0xF4 then cont 0x80 0x8F 4
    else none

/-- One ASCII byte of a string as `json.Marshal` writes it (HTML escaping on):
the quote and the backslash with a backslash, the short escapes, the other
control bytes and `<`, `>`, `&` as a `u00` escape, everything else itself. -/
def jsonEscapeByte (b : UInt8) : Bytes :=
  if b = 92 ∨ b = 34 then [92, b]
  else if b = 8 then str "\\b"
  else if b = 12 then str "\\f"
  else if b = 10 then str "\\n"
  else if b = 13 then str "\\r"
  else if b = 9 then str "\\t"
  else if b < 0x20 ∨ b = 60 ∨ b = 62 ∨ b = 38 then
    str "\\u00" ++ [hexDigit (b.toNat / 16), hexDigit (b.toNat % 16)]
  else [b]

/-- The body of a JSON string: the loop of `appendString`. A byte that starts
no well-formed UTF-8 sequence is replaced by the three bytes of U+FFFD (older
releases of Go write the six bytes of its escape instead). The fuel bounds the
number of steps by the length of the string. -/
def jsonStringBody : Nat → Bytes → Bytes
  | 0, _ => []
  | _, [] => []
  | fuel + 1, b :: rest =>
    if b < 0x80 then jsonEscapeByte b ++ jsonStringBody fuel rest
    else
      match utf8Size (b :: rest) with
      | none => [0xEF, 0xBF, 0xBD] ++ jsonStringBody fuel rest
      | some n =>
        if (b :: rest).take 3 = [0xE2, 0x80, 0xA8] then
          str "\\u2028" ++ jsonStringBody fuel (rest.drop 2)
        else if (b :: rest).take 3 = [0xE2, 0x80, 0xA9] then
          str "\\u2029" ++ jsonStringBody fuel (rest.drop 2)
        else (b :: rest).take n ++ jsonStringBody fuel (rest.drop (n - 1))

/-- A Go string as `json.Marshal` writes it. -/
def jsonString (s : Bytes) : Bytes :=
  str "\"" ++ jsonStringBody s.length s ++ str "\""

/-- The members of a JSON object, separated by commas, between braces. -/
def jsonObject (members : List Bytes) : Bytes :=
  str "\x7b" ++ (str ",").intercalate members ++ str "\x7d"

/-- A non-empty `[]string` as `json.Marshal` writes it. -/
def jsonStringArray (xs : List Bytes) : Bytes :=
  str "[" ++ (str ",").intercalate (xs.map jsonString) ++ str "]"

/-- The call `json.Marshal` on an `EventFuncID`: each member has `omitempty`
and is left out when the string or the slice has length zero. -/
def marshalEventFuncID (e : EventFuncID) : Bytes :=
  jsonObject
    ((if e.ID = [] then [] else [str "\"id\":" ++ jsonString e.ID]) ++
     (if e.Params = [] then [] else [str "\"params\":" ++ jsonStringArray e.Params]))

/-- The call `json.Marshal` on an `Event`: each member has `omitempty` and is
left out when it is false or the empty string. -/
def marshalEvent (e : Event) : Bytes :=
  jsonObject
    ((if e.Checked then [str "\"checked\":true"] else []) ++
     (if e.From = [] then [] else [str "\"from\":" ++ jsonString e.From]) ++
     (if e.To = [] then [] else [str "\"to\":" ++ jsonString e.To]) ++
     (if e.Value = [] then [] else [str "\"value\":" ++ jsonString e.Value]))

/-- The call `json.Marshal(b.eb)`: both members of `eventBody` are structs, and
for a struct value `omitempty` never applies (encoding/json has no empty value
for a struct), so both are always written. The call cannot fail on this type. -/
def marshalEventBody (eb : eventBody) : Bytes :=
  jsonObject
    [str "\"eventFuncId\":" ++ marshalEventFuncID eb.EventFuncID,
     str "\"event\":" ++ marshalEvent eb.Event]

/-! ## net/url and net/http/httptest.NewRequest -/

/-- The function `strings.Cut` with a separator of one byte: the text before
the first separator, the text after it, and whether there is one. -/
def cut (sep : UInt8) : Bytes → Bytes × Bytes × Bool
  | [] => ([], [], false)
  | c :: cs =>
    if c = sep then ([], cs, true)
    else
      let r := cut sep cs
      (c :: r.1, r.2.1, r.2.2)

/-- The pieces of a text between the separators (`strings.Split` with a
separator of one byte). -/
def splitOn (sep : UInt8) : Bytes → List Bytes
  | [] => [[]]
  | c :: cs =>
    if c = sep then [] :: splitOn sep cs
    else
      match splitOn sep cs with
      | [] => [[c]]
      | p :: ps => (c :: p) :: ps

/-- The value of a hexadecimal digit (`ishex` and `unhex` of net/url). -/
def unhex (c : UInt8) : Option Nat :=
  if 48 ≤ c ∧ c ≤ 57 then some (c.toNat - 48)
  else if 97 ≤ c ∧ c ≤ 102 then some (c.toNat - 97 + 10)
  else if 65 ≤ c ∧ c ≤ 70 then some (c.toNat - 65 + 10)
  else none

/-- The function `unescape` of net/url in the modes `encodePath` (`query` false)
and `encodeQueryComponent` (`query` true): a percent sign must be followed by
two hexadecimal digits and stands for that byte; in a query component a plus
sign stands for a space. `none` is an `EscapeError`. -/
def unescape (query : Bool) : Bytes → Option Bytes
  | [] => some []
  | c :: rest =>
    if c = 37 then
      match rest with
      | h1 :: h2 :: rest2 =>
        match unhex h1, unhex h2, unescape query rest2 with
        | some a, some b, some t => some (UInt8.ofNat (a * 16 + b) :: t)
        | _, _, _ => none
      | _ => none
    else
      match unescape query rest with
      | some t => some ((if c = 43 ∧ query then 32 else c) :: t)
      | none => none

/-- What the model says of a call into net/url or net/http: the value it
returns, that it fails (an error, or a panic where the function panics on an
error), or that the input is of a kind this model does not follow. Nothing is
stated about the code on an input of the last kind. -/
inductive Outcome (α : Type) where
  | ok (a : α)
  | fail
  | beyond
deriving DecidableEq, Repr

/-- The fields of `url.URL` that the parser of a request target fills for a
target without authority. -/
structure URL where
  Scheme : Bytes
  Opaque : Bytes
  Path : Bytes
  ForceQuery : Bool
  RawQuery : Bytes
deriving DecidableEq, Repr

/-- The function `getScheme` of net/url: the scheme before the first colon, if
the text before it is a scheme, and the rest. `none` is the error `missing
protocol scheme`. The first argument is the text read so far, reversed. -/
def getScheme (seen : Bytes) : Bytes → Option (Bytes × Bytes)
  | [] => some ([], seen.reverse)
  | c :: cs =>
    if (97 ≤ c ∧ c ≤ 122) ∨ (65 ≤ c ∧ c ≤ 90) then getScheme (c :: seen) cs
    else if (48 ≤ c ∧ c ≤ 57) ∨ c = 43 ∨ c = 45 ∨ c = 46 then
      if seen = [] then some ([], c :: cs) else getScheme (c :: seen) cs
    else if c = 58 then
      if seen = [] then none else some (seen.reverse, cs)
    else some ([], seen.reverse ++ c :: cs)

/-- ASCII lower case of one byte. -/
def toLowerByte (c : UInt8) : UInt8 := if 65 ≤ c ∧ c ≤ 90 then c + 32 else c

/-- The function `url.ParseRequestURI`. A target with a scheme and an authority
(`scheme://...`) is beyond the model: `parseAuthority` and its checks of user
information, host and port are not followed. -/
def ParseRequestURI (rawURL : Bytes) : Outcome URL :=
  if rawURL.any (fun b => b < 32 ∨ b = 127) then .fail
  else if rawURL = [] then .fail
  else if rawURL = str "*" then
    .ok { Scheme := [], Opaque := [], Path := str "*", ForceQuery := false, RawQuery := [] }
  else
    match getScheme [] rawURL with
    | none => .fail
    | some (scheme, rest0) =>
      let scheme := scheme.map toLowerByte
      let forceQuery := rest0.getLast? = some 63 ∧ rest0.count 63 = 1
      let rest := if forceQuery then rest0.dropLast else (cut 63 rest0).1
      let rawQuery := if forceQuery then [] else (cut 63 rest0).2.1
      if rest.head? ≠ some 47 then
        if scheme ≠ [] then
          .ok { Scheme := scheme, Opaque := rest, Path := [], ForceQuery := forceQuery,
                RawQuery := rawQuery }
        else .fail
      else if scheme ≠ [] ∧ rest.take 2 = str "//" then .beyond
      else
        match unescape false rest with
        | none => .fail
        | some p =>
          .ok { Scheme := scheme, Opaque := [], Path := p, ForceQuery := forceQuery,
                RawQuery := rawQuery }

/-- One `key=value` piece of a query as `url.ParseQuery` reads it; `none` when
the piece is skipped (empty, holding a semicolon, or with a bad escape). -/
def parseQueryPiece (piece : Bytes) : Option (Bytes × Bytes) :=
  if piece.contains 59 then none
  else if piece = [] then none
  else
    match unescape true (cut 61 piece).1, unescape true (cut 61 piece).2.1 with
    | some k, some v => some (k, v)
    | _, _ => none

/-- The method `(*URL).Query`: the pairs of `url.ParseQuery(u.RawQuery)` in the
order of the query, its error dropped. -/
def URL.Query (u : URL) : List (Bytes × Bytes) :=
  (splitOn 38 u.RawQuery).filterMap parseQueryPiece

/-- The method `Values.Get`: the first value of the key, or the empty string. -/
def valuesGet (vs : List (Bytes × Bytes)) (key : Bytes) : Bytes :=
  match vs.find? (fun kv => kv.1 = key) with
  | some kv => kv.2
  | none => []

/-- The fields of `http.Request` that the builder sets. -/
structure Request where
  Method : Bytes
  RequestURI : Bytes
  URL : URL
  Header : List (Bytes × Bytes)
  Body : Stream
deriving DecidableEq, Repr

/-- The function `http.ParseHTTPVersion`, as a test. -/
def validHTTPVersion (vers : Bytes) : Bool :=
  if vers = str "HTTP/1.1" ∨ vers = str "HTTP/1.0" then true
  else
    match vers with
    | [72, 84, 84, 80, 47, x, 46, y] => (48 ≤ x ∧ x ≤ 57) ∧ (48 ≤ y ∧ y ≤ 57)
    | _ => false

/-- The call `httptest.NewRequest("POST", target, body)`: the text
`POST target HTTP/1.0`, a line end and an empty line are read as a request by
`http.ReadRequest`, and `NewRequest` panics when that fails. For a target
without line feed the request line is the whole first line; it is split at its
first two spaces, the third piece must be an HTTP version and the second one
must parse as a request URI; no header line follows. A target that holds a line
feed is beyond the model: the request line then ends inside the target and the
rest of the target is read as header lines. -/
def NewRequest (target : Bytes) (body : Stream) : Outcome Request :=
  let text := str "POST" ++ str " " ++ target ++ str " HTTP/1.0\r\n\r\n"
  let line0 := (cut 10 text).1
  let line := if line0.getLast? = some 13 then line0.dropLast else line0
  let m := (cut 32 line).1
  let rest := (cut 32 line).2.1
  let requestURI := (cut 32 rest).1
  let proto := (cut 32 rest).2.1
  if target.contains 10 then .beyond
  else if ¬ ((cut 32 line).2.2 ∧ (cut 32 rest).2.2) then .fail
  else if ¬ validHTTPVersion proto then .fail
  else
    match ParseRequestURI requestURI with
    | .fail => .fail
    | .beyond => .beyond
    | .ok u =>
      .ok { Method := m, RequestURI := requestURI, URL := u, Header := [], Body := body }

/-- The method `Header.Add`. -/
def Request.headerAdd (r : Request) (key value : Bytes) : Request :=
  { r with Header := r.Header ++ [(key, value)] }

/-- The method `BuildEventFuncRequest`: the request it returns (or the panic of
`httptest.NewRequest`) and the receiver after the call. -/
def Builder.BuildEventFuncRequest (b : Builder) (rnd : Fin 30 → UInt8) (room : Option Nat)
    (fs : FileSystem) : Outcome Request × Builder :=
  let eventBody := marshalEventBody b.eb
  let b := b.AddField (str "__event_data__") eventBody
  let built := b.Build rnd room fs
  let b := built.builder
  let pu := if b.pageURL.length = 0 then str "/" else b.pageURL
  match NewRequest (pu ++ str "?__execute_event__=" ++ b.eb.EventFuncID.ID) built.body with
  | .ok r => (.ok (r.headerAdd (str "Content-Type") built.contentType), b)
  | .fail => (.fail, b)
  | .beyond => (.beyond, b)

/-! ## Reference decoder for multipart/form-data

The decoder follows `mime/multipart.Reader` read to its end on a complete body:
`NextRawPart` for the sequence of parts, `textproto.ReadMIMEHeader` for the
header of a part, `mime.ParseMediaType` for its `Content-Disposition`. It is
stricter than the Go reader in three places: a folded header line, a body whose
lines end in a bare line feed and a body cut off before a line end are
rejected. The parameters of a header in the extended notation of RFC 2231 are
left out, and white space is ASCII white space. -/

/-- A decoded part: the `name` parameter of its `form-data` disposition
(`Part.FormName`), its `filename` parameter if it has one, and its content. -/
structure DecodedPart where
  name : Bytes
  filename : Option Bytes
  content : Bytes
deriving DecidableEq, Repr

/-- The tspecials of RFC 2045 (`isTSpecial` of package mime). -/
def isTSpecial (c : UInt8) : Bool := (str "()<>@,;:\\\"/[]?=").contains c

/-- Token bytes of RFC 2045 (`isTokenChar` of package mime). -/
def isTokenChar (c : UInt8) : Bool := 0x20 < c ∧ c < 0x7f ∧ ¬ isTSpecial c

/-- ASCII white space (`unicode.IsSpace` below 0x80). -/
def isSpace (c : UInt8) : Bool := c = 32 ∨ (9 ≤ c ∧ c ≤ 13)

/-- The function `strings.TrimSpace`, for ASCII white space. -/
def trimSpace (s : Bytes) : Bytes := ((s.dropWhile isSpace).reverse.dropWhile isSpace).reverse

/-- The function `consumeToken` of package mime: the longest prefix of token
bytes and the rest. -/
def consumeToken (v : Bytes) : Bytes × Bytes := (v.takeWhile isTokenChar, v.dropWhile isTokenChar)

/-- The quoted string of `consumeValue`, after its opening quote: the text up to
the closing quote, a backslash in front of a tspecial taken off, and the rest
after the closing quote. `none` at a carriage return, a line feed or the end of
the text. -/
def consumeQuoted : Bytes → Option (Bytes × Bytes)
  | [] => none
  | [r] => if r = 34 then some ([], []) else none
  | r :: e :: rest2 =>
    if r = 34 then some ([], e :: rest2)
    else if r = 92 ∧ isTSpecial e then (consumeQuoted rest2).map (fun p => (e :: p.1, p.2))
    else if r = 13 ∨ r = 10 then none
    else (consumeQuoted (e :: rest2)).map (fun p => (r :: p.1, p.2))

/-- The function `consumeValue` of package mime; on failure the value is empty
and the rest is the whole text. -/
def consumeValue (v : Bytes) : Bytes × Bytes :=
  match v with
  | [] => ([], [])
  | c :: cs =>
    if c ≠ 34 then consumeToken v
    else
      match consumeQuoted cs with
      | some p => p
      | none => ([], v)

/-- The function `consumeMediaParam` of package mime: one `; key=value`, the key
in lower case, and the rest; `none` when the text does not start with one. -/
def consumeMediaParam (v : Bytes) : Option (Bytes × Bytes × Bytes) :=
  match v.dropWhile isSpace with
  | [] => none
  | c :: rest =>
    if c ≠ 59 then none
    else
      let tok := consumeToken (rest.dropWhile isSpace)
      let param := tok.1.map toLowerByte
      if param = [] then none
      else
        match tok.2.dropWhile isSpace with
        | [] => none
        | e :: rest2 =>
          if e ≠ 61 then none
          else
            let val := consumeValue (rest2.dropWhile isSpace)
            if val.1 = [] ∧ val.2 = rest2.dropWhile isSpace then none
            else some (param, val.1, val.2)

/-- The loop of `mime.ParseMediaType` over the parameters. A key given twice
with two values is an error; a trailing semicolon is ignored. The fuel bounds
the number of parameters by the length of the text. -/
def parseMediaParams : Nat → List (Bytes × Bytes) → Bytes → Option (List (Bytes × Bytes))
  | 0, _, _ => none
  | fuel + 1, params, v =>
    if v.dropWhile isSpace = [] then some params
    else
      match consumeMediaParam (v.dropWhile isSpace) with
      | none => if trimSpace v = str ";" then some params else none
      | some (key, value, rest) =>
        if key.contains 42 then parseMediaParams fuel params rest
        else
          match params.find? (fun kv => kv.1 = key) with
          | some kv => if kv.2 = value then parseMediaParams fuel params rest else none
          | none => parseMediaParams fuel (params ++ [(key, value)]) rest

/-- The function `checkMediaTypeDisposition` of package mime. -/
def checkMediaTypeDisposition (s : Bytes) : Bool :=
  let t := consumeToken s
  if t.1 = [] then false
  else if t.2 = [] then true
  else
    match t.2 with
    | c :: rest => c = 47 ∧ (consumeToken rest).1 ≠ [] ∧ (consumeToken rest).2 = []
    | [] => true

/-- The function `mime.ParseMediaType`: the media type in lower case and the
parameters in the order of the text. -/
def parseMediaType (v : Bytes) : Option (Bytes × List (Bytes × Bytes)) :=
  let base := (cut 59 v).1
  let mediatype := trimSpace (base.map toLowerByte)
  if ¬ checkMediaTypeDisposition mediatype then none
  else
    match parseMediaParams (v.length + 1) [] (v.drop base.length) with
    | none => none
    | some params => some (mediatype, params)

/-- Bytes allowed in the value of a header line (`validHeaderValueByte` of
net/textproto): the tab, the printable ASCII bytes and the bytes from 0x80. -/
def validHeaderValueByte (c : UInt8) : Bool := c = 9 ∨ (0x20 ≤ c ∧ c ≤ 0x7e) ∨ 0x80 ≤ c

/-- Bytes allowed in the key of a header line (`validHeaderFieldByte` of
net/textproto): the token bytes of RFC 7230. -/
def validHeaderFieldByte (c : UInt8) : Bool :=
  (48 ≤ c ∧ c ≤ 57) ∨ (65 ≤ c ∧ c ≤ 90) ∨ (97 ≤ c ∧ c ≤ 122) ∨
    (str "!#$%&\x27*+-.^_\x60|~").contains c

/-- The letters of a header key in their canonical case: upper case at the
start and after a hyphen, lower case elsewhere. -/
def canonicalCase : Bool → Bytes → Bytes
  | _, [] => []
  | upper, c :: cs =>
    (if upper then (if 97 ≤ c ∧ c ≤ 122 then c - 32 else c) else toLowerByte c) ::
      canonicalCase (c = 45) cs

/-- The function `canonicalMIMEHeaderKey` of net/textproto: `none` for a key
that is empty or holds a byte that is neither a token byte nor a space; a key
with a space is kept as it is. -/
def canonicalMIMEHeaderKey (a : Bytes) : Option Bytes :=
  if a = [] then none
  else if ¬ a.all (fun c => validHeaderFieldByte c ∨ c = 32) then none
  else if a.contains 32 then some a
  else some (canonicalCase true a)

/-- A line of text: the bytes before the first line feed, without a carriage
return in front of it, and the rest after the line feed; `none` when there
is no line feed. -/
def readLine (s : Bytes) : Option (Bytes × Bytes) :=
  if (cut 10 s).2.2 then
    let l := (cut 10 s).1
    some (if l.getLast? = some 13 then l.dropLast else l, (cut 10 s).2.1)
  else none

/-- Space and tab off both ends (`trim` of net/textproto). -/
def trimLWSP (s : Bytes) : Bytes :=
  ((s.dropWhile (fun c => c = 32 ∨ c = 9)).reverse.dropWhile (fun c => c = 32 ∨ c = 9)).reverse

/-- The function `ReadMIMEHeader` of net/textproto: the header lines up to the
empty line, as pairs of canonical key and value, and the rest of the text. The
fuel bounds the number of lines by the length of the text. -/
def readMIMEHeader : Nat → Bytes → Option (List (Bytes × Bytes) × Bytes)
  | 0, _ => none
  | fuel + 1, s =>
    match readLine s with
    | none => none
    | some (line, rest) =>
      if line = [] then some ([], rest)
      else if line.head? = some 32 ∨ line.head? = some 9 then none
      else if ¬ (cut 58 (trimLWSP line)).2.2 then none
      else
        match canonicalMIMEHeaderKey (cut 58 (trimLWSP line)).1 with
        | none => none
        | some key =>
          if ¬ (cut 58 (trimLWSP line)).2.1.all validHeaderValueByte then none
          else
            match readMIMEHeader fuel rest with
            | none => none
            | some (hs, rest2) =>
              some ((key, (cut 58 (trimLWSP line)).2.1.dropWhile (fun c => c = 32 ∨ c = 9)) :: hs,
                rest2)

/-- The method `Header.Get`: the first value of the key, or the empty string. -/
def headerGet (h : List (Bytes × Bytes)) (key : Bytes) : Bytes := valuesGet h key

/-- The function `skipLWSPChar` of mime/multipart: spaces and tabs at the
start taken off. -/
def skipLWSPChar (b : Bytes) : Bytes := b.dropWhile (fun c => c = 32 ∨ c = 9)

/-- The method `isBoundaryDelimiterLine` of mime/multipart: the dash boundary,
optional spaces and tabs, and the line end. -/
def isBoundaryDelimiterLine (dashBoundary line : Bytes) : Bool :=
  dashBoundary.isPrefixOf line ∧ skipLWSPChar (line.drop dashBoundary.length) = str "\r\n"

/-- The method `isFinalBoundary` of mime/multipart: the dash boundary followed
by two dashes, optional spaces and tabs, and the line end or the end of the
text. -/
def isFinalBoundary (dashBoundary line : Bytes) : Bool :=
  (dashBoundary ++ str "--").isPrefixOf line ∧
    (skipLWSPChar (line.drop (dashBoundary.length + 2)) = [] ∨
     skipLWSPChar (line.drop (dashBoundary.length + 2)) = str "\r\n")

/-- The call `ReadSlice` with a line feed as delimiter: the line with its line
feed, the rest, and whether a line feed was found. -/
def readSlice : Bytes → Bytes × Bytes × Bool
  | [] => ([], [], false)
  | c :: cs =>
    if c = 10 then ([c], cs, true)
    else
      let r := readSlice cs
      (c :: r.1, r.2.1, r.2.2)

/-- The loop of the method `nextPart` of mime/multipart over the lines in front
of a part: `some (some rest)` when a delimiter line was read and a part starts
at `rest`, `some none` at the final boundary, `none` for an error. Lines in
front of the first part are skipped; after a part only the line end of its body
may stand in front of the next boundary line. The fuel bounds the number of
lines by the length of the text. -/
def nextPart (dashBoundary : Bytes) (partsRead : Nat) :
    Nat → Bool → Bytes → Option (Option Bytes)
  | 0, _, _ => none
  | fuel + 1, expectNewPart, s =>
    let line := (readSlice s).1
    let rest := (readSlice s).2.1
    if ¬ (readSlice s).2.2 then
      (if isFinalBoundary dashBoundary line then some none else none)
    else if isBoundaryDelimiterLine dashBoundary line then some (some rest)
    else if isFinalBoundary dashBoundary line then some none
    else if expectNewPart then none
    else if partsRead = 0 then nextPart dashBoundary partsRead fuel false rest
    else if line = str "\r\n" then nextPart dashBoundary partsRead fuel true rest
    else none

/-- The function `matchAfterPrefix` of mime/multipart on a complete body, as
the test for its result `+1`: what follows the boundary is the end of the text,
a space, a tab, a carriage return, a line feed or two dashes. -/
def boundaryEnds : Bytes → Bool
  | [] => true
  | c :: rest => c = 32 ∨ c = 9 ∨ c = 13 ∨ c = 10 ∨ (c = 45 ∧ rest.head? = some 45)

/-- The search of `scanUntilBoundary` of mime/multipart on a complete body: the
content of the part up to the first line end followed by the dash boundary and
a proper end of it, and the rest from that line end on. Where the boundary is
followed by something else its bytes are content (`skip` counts those still to
be copied). `none` when the body ends before a boundary is found. -/
def scanBody (nlDashBoundary : Bytes) : Nat → Bytes → Option (Bytes × Bytes)
  | _, [] => none
  | skip + 1, c :: cs => (scanBody nlDashBoundary skip cs).map (fun p => (c :: p.1, p.2))
  | 0, c :: cs =>
    if nlDashBoundary.isPrefixOf (c :: cs) then
      if boundaryEnds ((c :: cs).drop nlDashBoundary.length) then some ([], c :: cs)
      else
        (scanBody nlDashBoundary (nlDashBoundary.length - 1) cs).map (fun p => (c :: p.1, p.2))
    else (scanBody nlDashBoundary 0 cs).map (fun p => (c :: p.1, p.2))

/-- The content of a part (`scanUntilBoundary` from the start of the body): at
the very start the dash boundary alone ends the part. -/
def partBody (dashBoundary : Bytes) (s : Bytes) : Option (Bytes × Bytes) :=
  if dashBoundary.isPrefixOf s then
    if boundaryEnds (s.drop dashBoundary.length) then some ([], s)
    else scanBody (str "\r\n" ++ dashBoundary) dashBoundary.length s
  else scanBody (str "\r\n" ++ dashBoundary) 0 s

/-- The part that a header and a content stand for: `Part.FormName` (the `name`
parameter of a `form-data` disposition, otherwise empty) and the `filename`
parameter of the disposition. -/
def mkPart (header : List (Bytes × Bytes)) (content : Bytes) : DecodedPart :=
  match parseMediaType (headerGet header (str "Content-Disposition")) with
  | none => { name := [], filename := none, content := content }
  | some (disposition, params) =>
    { name := if disposition = str "form-data" then valuesGet params (str "name") else [],
      filename := (params.find? (fun kv => kv.1 = str "filename")).map (fun kv => kv.2),
      content := content }

/-- The parts of a body, read one after the other until the final boundary.
The fuel bounds the number of parts by the length of the body. -/
def readParts (dashBoundary : Bytes) : Nat → Nat → Bytes → Option (List DecodedPart)
  | 0, _, _ => none
  | fuel + 1, partsRead, s =>
    match nextPart dashBoundary partsRead (s.length + 1) false s with
    | none => none
    | some none => some []
    | some (some rest) =>
      match readMIMEHeader (rest.length + 1) rest with
      | none => none
      | some (header, rest1) =>
        match partBody dashBoundary rest1 with
        | none => none
        | some (content, rest2) =>
          (readParts dashBoundary fuel (partsRead + 1) rest2).map
            (fun ps => mkPart header content :: ps)

/-- Decoding of a request body under its `Content-Type`: the parts of the body
in their order, `none` when the content type is not `multipart/form-data` with
a boundary or the body is malformed. -/
def decode (contentType body : Bytes) : Option (List DecodedPart) :=
  match parseMediaType contentType with
  | none => none
  | some (mediatype, params) =>
    if mediatype ≠ str "multipart/form-data" then none
    else if valuesGet params (str "boundary") = [] then none
    else readParts (str "--" ++ valuesGet params (str "boundary")) (body.length + 1) 0 body

/-! ## Notions used to state the properties -/

/-- The encoder after the first `j` part writers of a list ran on it one after
the other, whatever each of them returned. -/
def writerAfter (fs : FileSystem) (cbs : List PartWriter) (mw : Writer) (j : Nat) : Writer :=
  (cbs.take j).foldl (fun s cb => (cb fs s).1) mw

/-- A byte that `json.Marshal` writes into a string as it is: an ASCII byte
that is no control byte, quote, backslash, `<`, `>` or `&`. -/
def jsonPlain (c : UInt8) : Prop :=
  32 ≤ c ∧ c < 128 ∧ c ≠ 34 ∧ c ≠ 92 ∧ c ≠ 60 ∧ c ≠ 62 ∧ c ≠ 38

instance (c : UInt8) : Decidable (jsonPlain c) := by
  unfold jsonPlain
  infer_instance

/-- Sample random bytes for a boundary: 0, 1, ..., 29. -/
def sampleRnd : Fin 30 → UInt8 := fun i => UInt8.ofNat i.val

/-- A file system without files: every open fails. -/
def noFiles : FileSystem := fun p => .error (str "open " ++ p ++ str ": no such file or directory")

/-- A builder with a field, a file that does not exist, and another field. -/
def sampleBuilder : Builder :=
  ((NewMultipartBuilder.AddField (str "a") (str "1")).AddFile (str "g") (str "/nope")).AddField
    (str "c") (str "3")

/-- The encoder is in working order: the reader of its sink reads to
exhaustion, and no write to the last part has failed. -/
def Writer.healthy (mw : Writer) : Prop :=
  mw.w.room = none ∧ (mw.lastpart.bind fun p => p.we) = none

instance (mw : Writer) : Decidable mw.healthy := by
  unfold Writer.healthy
  infer_instance

/-- The delimiter line in front of the next part: the first part of a body
starts with the dash boundary, a later one with a line end and the dash
boundary. -/
def Writer.delimiterLine (mw : Writer) : Bytes :=
  if mw.lastpart.isSome then str "\r\n--" ++ mw.boundary ++ str "\r\n"
  else str "--" ++ mw.boundary ++ str "\r\n"

/-- The header of the part of a form field. -/
def fieldHeader (fieldName : Bytes) : Bytes :=
  headerLines
    [(str "Content-Disposition", str "form-data; name=\"" ++ escapeQuotes fieldName ++ str "\"")]

/-- The header of the part of a file. -/
def fileHeader (fieldName fileName : Bytes) : Bytes :=
  headerLines
    [(str "Content-Disposition",
        str "form-data; name=\"" ++ escapeQuotes fieldName ++ str "\"; filename=\"" ++
          escapeQuotes fileName ++ str "\""),
     (str "Content-Type", str "application/octet-stream")]

/-- The encoder after a part with the given bytes was written to a sink that
takes everything. -/
def Writer.afterPart (mw : Writer) (bytes : Bytes) : Writer :=
  { w := { out := mw.w.out ++ bytes, room := none }, boundary := mw.boundary,
    lastpart := some { closed := false, we := none } }

/-! ## The uploaded file helper -/

/-- Modelled from the spec: the function `CreateMultipartFileHeader` and the
file representation it returns are not among the sources (only the test
`TestCreateMultipartFileHeader` is). The representation is an immutable file
name and an immutable payload. -/
structure FileHeader where
  Filename : Bytes
  content : Bytes
deriving DecidableEq, Repr

/-- Modelled from the spec: an opened stream over the payload of a
`FileHeader`, a view of the payload with a read cursor of its own. -/
structure File where
  data : Bytes
  pos : Nat
deriving DecidableEq, Repr

/-- Modelled from the spec: `create_uploaded_file(filename, content_bytes)`, a
pure function that always succeeds. -/
def CreateMultipartFileHeader (filename : Bytes) (body : Bytes) : FileHeader :=
  { Filename := filename, content := body }

/-- Modelled from the spec: the operation `open` of the file representation;
each call yields a new stream positioned at the start of the payload. -/
def FileHeader.Open (f : FileHeader) : Except GoError File :=
  .ok { data := f.content, pos := 0 }

/-- Modelled from the spec: reading at most `n` bytes from an opened stream
moves its cursor past them. -/
def File.Read (f : File) (n : Nat) : Bytes × File :=
  ((f.data.drop f.pos).take n, { f with pos := min (f.pos + n) f.data.length })

/-- Modelled from the spec: reading an opened stream to its end
(`ioutil.ReadAll` in the test). -/
def File.ReadAll (f : File) : Bytes × File :=
  (f.data.drop f.pos, { f with pos := f.data.length })

/-! ## The wire format of a body, for the statements about decoding -/

/-- A lower-case hexadecimal digit. -/
def isHexChar (c : UInt8) : Prop := (48 ≤ c ∧ c ≤ 57) ∨ (97 ≤ c ∧ c ≤ 102)

/-- The header that the builder writes for a part: that of a file when the part
has a file name, that of a form field otherwise. -/
def partHeader (p : DecodedPart) : Bytes :=
  match p.filename with
  | none => fieldHeader p.name
  | some f => fileHeader p.name f

/-- The parts of a body as they stand on the wire, each behind its delimiter
line; `later` says that a part stands in front of them. -/
def encodeParts (boundary : Bytes) : Bool → List DecodedPart → Bytes
  | _, [] => []
  | later, p :: ps =>
    (if later then str "\r\n--" ++ boundary ++ str "\r\n" else str "--" ++ boundary ++ str "\r\n") ++
      partHeader p ++ p.content ++ encodeParts boundary true ps

/-- A part writer writes the part `p`: on every encoder in working order it
succeeds and adds the delimiter line, the header of `p` and the content of `p`
to the sink. -/
def WritesPart (fs : FileSystem) (w : PartWriter) (p : DecodedPart) : Prop :=
  ∀ mw : Writer, mw.healthy →
    w fs mw = (mw.afterPart (mw.delimiterLine ++ partHeader p ++ p.content), none)

/-- A name that travels unchanged in the quoted string of a header: every byte
of it may stand in the value of a header line (tab, printable ASCII, or from
0x80 up), so it holds no carriage return, line feed or other control byte. -/
def headerSafe (name : Bytes) : Prop := ∀ c ∈ name, validHeaderValueByte c = true

instance (name : Bytes) : Decidable (headerSafe name) := by
  unfold headerSafe
  infer_instance

/-- A part that the decoder gives back as it was written under the boundary:
its names are safe in a header and its content does not hold the dash
boundary. -/
def partSafe (boundary : Bytes) (p : DecodedPart) : Prop :=
  headerSafe p.name ∧ (∀ f, p.filename = some f → headerSafe f) ∧
    ¬ (str "--" ++ boundary) <:+: p.content

/-- A file system with the one file `/tmp/y.bin`, holding the bytes 0, 255, 13,
10. -/
def oneFile : FileSystem := fun p =>
  if p = str "/tmp/y.bin" then .ok { data := [0, 255, 13, 10], err := none }
  else .error (str "open " ++ p ++ str ": no such file or directory")

/-! ## The loop of `Build` -/

theorem writerAfter_zero (fs : FileSystem) (cbs : List PartWriter) (mw : Writer) :
    writerAfter fs cbs mw 0 = mw := by
  simp [writerAfter]

theorem writerAfter_cons_succ (fs : FileSystem) (c : PartWriter) (cbs : List PartWriter)
    (mw : Writer) (j : Nat) :
    writerAfter fs (c :: cbs) mw (j + 1) = writerAfter fs cbs (c fs mw).1 j := by
  simp [writerAfter]

theorem runWriters_of_fail (fs : FileSystem) :
    ∀ (cbs : List PartWriter) (mw : Writer) (k : Nat) (cb : PartWriter) (e : GoError),
      cbs[k]? = some cb →
      (∀ (j : Nat) (cj : PartWriter), j < k → cbs[j]? = some cj → (cj fs (writerAfter fs cbs mw j)).2 = none) →
      (cb fs (writerAfter fs cbs mw k)).2 = some e →
      runWriters fs cbs mw = ((cb fs (writerAfter fs cbs mw k)).1, some e) := by
  intro cbs
  induction cbs with
  | nil => intro mw k cb e h; simp at h
  | cons c rest ih =>
    intro mw k cb e hk hpre hfail
    cases k with
    | zero =>
      simp at hk
      subst hk
      rw [writerAfter_zero] at hfail ⊢
      rcases hc : c fs mw with ⟨m1, r⟩
      rw [hc] at hfail
      simp at hfail
      subst hfail
      simp [runWriters, hc]
    | succ k =>
      simp at hk
      have h0 : (c fs mw).2 = none := by
        have := hpre 0 c (Nat.succ_pos k) (by simp)
        rwa [writerAfter_zero] at this
      rw [writerAfter_cons_succ] at hfail ⊢
      have hrec := ih (c fs mw).1 k cb e hk
        (fun j cj hj hcj => by
          have := hpre (j + 1) cj (Nat.succ_lt_succ hj) (by simpa using hcj)
          rwa [writerAfter_cons_succ] at this) hfail
      rcases hc : c fs mw with ⟨m1, r⟩
      rw [hc] at h0 hrec
      simp at h0
      subst h0
      simp [runWriters, hc]
      exact hrec

theorem runWriters_of_ok (fs : FileSystem) :
    ∀ (cbs : List PartWriter) (mw : Writer),
      (∀ (j : Nat) (cj : PartWriter), cbs[j]? = some cj → (cj fs (writerAfter fs cbs mw j)).2 = none) →
      runWriters fs cbs mw = (writerAfter fs cbs mw cbs.length, none) := by
  intro cbs
  induction cbs with
  | nil => intro mw _; simp [runWriters, writerAfter]
  | cons c rest ih =>
    intro mw hall
    have h0 : (c fs mw).2 = none := by
      have := hall 0 c (by simp)
      rwa [writerAfter_zero] at this
    have hrec := ih (c fs mw).1 (fun j cj hcj => by
      have := hall (j + 1) cj (by simpa using hcj)
      rwa [writerAfter_cons_succ] at this)
    rw [List.length_cons, writerAfter_cons_succ]
    rcases hc : c fs mw with ⟨m1, r⟩
    rw [hc] at h0 hrec
    simp at h0
    subst h0
    simp [runWriters, hc]
    exact hrec


theorem writerAfter_take_append (fs : FileSystem) (cbs post : List PartWriter) (mw : Writer)
    (k j : Nat) (hk : k < cbs.length) (hj : j ≤ k + 1) :
    writerAfter fs (cbs.take (k + 1) ++ post) mw j = writerAfter fs cbs mw j := by
  unfold writerAfter
  have hlen : (cbs.take (k + 1)).length = k + 1 := by
    rw [List.length_take]; omega
  rw [List.take_append_of_le_length (by omega), List.take_take]
  congr 2
  omega

/-! ### The part writers leave the reader alone -/

theorem Pipe.Write_room_none (p : Pipe) (d : Bytes) (h : p.room = none) :
    (p.Write d).1.room = none := by
  simp [Pipe.Write, h]

theorem Writer.closeLastPart_w (mw : Writer) : mw.closeLastPart.1.w = mw.w := by
  unfold Writer.closeLastPart
  cases mw.lastpart <;> rfl

theorem Writer.CreatePart_room_none (mw : Writer) (header : List (Bytes × Bytes))
    (h : mw.w.room = none) : (mw.CreatePart header).1.w.room = none := by
  have hc := Writer.closeLastPart_w mw
  unfold Writer.CreatePart
  rcases hcl : mw.closeLastPart with ⟨mw1, e1⟩
  rw [hcl] at hc
  simp only at hc
  cases e1 with
  | some e => simp only; rw [hc]; exact h
  | none =>
    simp only
    have hw := Pipe.Write_room_none mw1.w
      ((if mw1.lastpart.isSome then str "\r\n--" ++ mw1.boundary ++ str "\r\n"
        else str "--" ++ mw1.boundary ++ str "\r\n") ++ headerLines header) (by rw [hc]; exact h)
    rcases hwr : mw1.w.Write
      ((if mw1.lastpart.isSome then str "\r\n--" ++ mw1.boundary ++ str "\r\n"
        else str "--" ++ mw1.boundary ++ str "\r\n") ++ headerLines header) with ⟨w2, e2⟩
    rw [hwr] at hw
    cases e2 <;> exact hw

theorem Writer.partWrite_room_none (mw : Writer) (d : Bytes) (h : mw.w.room = none) :
    (mw.partWrite d).1.w.room = none := by
  unfold Writer.partWrite
  cases hl : mw.lastpart with
  | none => exact h
  | some p =>
    simp only
    by_cases hp : p.closed = true
    · simp only [hp, if_true]; exact h
    · simp only [hp]
      have hw := Pipe.Write_room_none mw.w d h
      rcases hwr : mw.w.Write d with ⟨w2, e2⟩
      rw [hwr] at hw
      cases e2 <;> exact hw

theorem Writer.Close_room_none (mw : Writer) (h : mw.w.room = none) :
    mw.Close.1.w.room = none := by
  have hc := Writer.closeLastPart_w mw
  unfold Writer.Close
  rcases hcl : mw.closeLastPart with ⟨mw1, e1⟩
  rw [hcl] at hc
  simp only at hc
  cases e1 with
  | some e => simp only; rw [hc]; exact h
  | none =>
    simp only
    exact Pipe.Write_room_none mw1.w _ (by rw [hc]; exact h)

theorem ioCopy_room_none (mw : Writer) (r : Reader) (h : mw.w.room = none) :
    (ioCopy mw r).1.w.room = none := by
  unfold ioCopy
  by_cases hd : r.data = []
  · simp only [hd, if_true]; exact h
  · simp only [hd, if_false]
    have hw := Writer.partWrite_room_none mw r.data h
    rcases hwr : mw.partWrite r.data with ⟨mw1, e1⟩
    rw [hwr] at hw
    cases e1 <;> exact hw

theorem fieldWriter_room_none (fieldName value : Bytes) (fs : FileSystem) (mw : Writer)
    (h : mw.w.room = none) : (fieldWriter fieldName value fs mw).1.w.room = none := by
  have h1 := Writer.CreatePart_room_none mw
    [(str "Content-Disposition", str "form-data; name=\"" ++ escapeQuotes fieldName ++ str "\"")] h
  simp only [PartWriter.run, Writer.WriteField, Writer.CreateFormField]
  rcases hcp : mw.CreatePart
    [(str "Content-Disposition", str "form-data; name=\"" ++ escapeQuotes fieldName ++ str "\"")]
    with ⟨mw1, e1⟩
  rw [hcp] at h1
  cases e1 with
  | some e => exact h1
  | none =>
    simp only
    have h2 := Writer.partWrite_room_none mw1 value h1
    rcases hpw : mw1.partWrite value with ⟨mw2, e2⟩
    rw [hpw] at h2
    cases e2 <;> exact h2

theorem readerWriter_room_none (fieldName fileName : Bytes) (reader : Reader) (fs : FileSystem)
    (mw : Writer) (h : mw.w.room = none) :
    (readerWriter fieldName fileName reader fs mw).1.w.room = none := by
  have h1 := Writer.CreatePart_room_none mw
    [(str "Content-Disposition",
        str "form-data; name=\"" ++ escapeQuotes fieldName ++ str "\"; filename=\"" ++
          escapeQuotes fileName ++ str "\""),
     (str "Content-Type", str "application/octet-stream")] h
  simp only [PartWriter.run, Writer.CreateFormFile]
  rcases hcp : mw.CreatePart
    [(str "Content-Disposition",
        str "form-data; name=\"" ++ escapeQuotes fieldName ++ str "\"; filename=\"" ++
          escapeQuotes fileName ++ str "\""),
     (str "Content-Type", str "application/octet-stream")] with ⟨mw1, e1⟩
  rw [hcp] at h1
  cases e1 with
  | some e => exact h1
  | none =>
    simp only
    have h2 := ioCopy_room_none mw1 reader h1
    rcases hpw : ioCopy mw1 reader with ⟨mw2, e2⟩
    rw [hpw] at h2
    cases e2 <;> exact h2

theorem fileWriter_room_none (fieldName filePath : Bytes) (fs : FileSystem)
    (mw : Writer) (h : mw.w.room = none) :
    (fileWriter fieldName filePath fs mw).1.w.room = none := by
  simp only [PartWriter.run]
  cases hf : fs filePath with
  | error err => exact h
  | ok f =>
    simp only
    have h1 := Writer.CreatePart_room_none mw
      [(str "Content-Disposition",
          str "form-data; name=\"" ++ escapeQuotes fieldName ++ str "\"; filename=\"" ++
            escapeQuotes (filepathBase filePath) ++ str "\""),
       (str "Content-Type", str "application/octet-stream")] h
    unfold Writer.CreateFormFile
    rcases hcp : mw.CreatePart
      [(str "Content-Disposition",
          str "form-data; name=\"" ++ escapeQuotes fieldName ++ str "\"; filename=\"" ++
            escapeQuotes (filepathBase filePath) ++ str "\""),
       (str "Content-Type", str "application/octet-stream")] with ⟨mw1, e1⟩
    rw [hcp] at h1
    cases e1 with
    | some e => exact h1
    | none =>
      simp only
      have h2 := ioCopy_room_none mw1 f h1
      rcases hpw : ioCopy mw1 f with ⟨mw2, e2⟩
      rw [hpw] at h2
      cases e2 <;> exact h2

theorem PartWriter.run_room_none (cb : PartWriter) (fs : FileSystem)
    (mw : Writer) (h : mw.w.room = none) : (cb fs mw).1.w.room = none := by
  cases cb with
  | fieldWriter n v => exact fieldWriter_room_none n v fs mw h
  | readerWriter n f r => exact readerWriter_room_none n f r fs mw h
  | fileWriter n p => exact fileWriter_room_none n p fs mw h

theorem foldl_room_none (fs : FileSystem) :
    ∀ (cbs : List PartWriter) (mw : Writer), mw.w.room = none →
      (cbs.foldl (fun s cb => (cb fs s).1) mw).w.room = none := by
  intro cbs
  induction cbs with
  | nil => intro mw h; exact h
  | cons c rest ih =>
    intro mw h
    rw [List.foldl_cons]
    exact ih _ (PartWriter.run_room_none c fs mw h)

theorem writerAfter_room_none (fs : FileSystem) (cbs : List PartWriter) (mw : Writer) (j : Nat)
    (h : mw.w.room = none) : (writerAfter fs cbs mw j).w.room = none :=
  foldl_room_none fs (cbs.take j) mw h

/-! ## Failure to open the file of `AddFile` -/

theorem writerAfter_append_left (fs : FileSystem) (pre post : List PartWriter) (mw : Writer)
    (j : Nat) (hj : j ≤ pre.length) :
    writerAfter fs (pre ++ post) mw j = writerAfter fs pre mw j := by
  unfold writerAfter
  rw [List.take_append_of_le_length hj]

theorem fileWriter_open_error (fieldName filePath cause : Bytes) (fs : FileSystem) (mw : Writer)
    (hopen : fs filePath = .error cause) :
    fileWriter fieldName filePath fs mw =
      (mw, some (str "multipartbuilder: failed to open file " ++ fieldName ++ str " (" ++
        filePath ++ str "): " ++ cause)) := by
  simp [PartWriter.run, hopen]

/-- C7. When the path given to `AddFile` cannot be opened, the writer that
`AddFile` enqueued returns an error whose message holds the field name, the
file path and the message of the cause of the failed open, and leaves the
encoder as it found it (it writes no byte and creates no part header). With
the writers enqueued before it having written their parts without error, the
drained stream of `Build` ends with that error and its bytes are exactly those
that the earlier writers, run in order once each, put into the sink. This
holds whatever writers were enqueued after it. -/
theorem AddFile_open_failure_surfaces (b : Builder) (fieldName filePath cause : Bytes)
    (post : List PartWriter) (rnd : Fin 30 → UInt8) (fs : FileSystem)
    (hopen : fs filePath = .error cause)
    (hprev : ∀ (j : Nat) (cj : PartWriter), b.cbs[j]? = some cj →
      (cj fs (writerAfter fs b.cbs (NewWriter rnd (Pipe.new none)) j)).2 = none) :
    (∀ mw : Writer, fileWriter fieldName filePath fs mw =
      (mw, some (str "multipartbuilder: failed to open file " ++ fieldName ++ str " (" ++
          filePath ++ str "): " ++ cause))) ∧
    (Builder.Build { b.AddFile fieldName filePath with
        cbs := (b.AddFile fieldName filePath).cbs ++ post } rnd none fs).body =
      { data := (writerAfter fs b.cbs (NewWriter rnd (Pipe.new none)) b.cbs.length).w.out,
        err := some (str "multipartbuilder: failed to open file " ++ fieldName ++ str " (" ++
          filePath ++ str "): " ++ cause) } ∧
    fieldName <:+: (str "multipartbuilder: failed to open file " ++ fieldName ++ str " (" ++
          filePath ++ str "): " ++ cause) ∧
    filePath <:+: (str "multipartbuilder: failed to open file " ++ fieldName ++ str " (" ++
          filePath ++ str "): " ++ cause) ∧
    cause <:+: (str "multipartbuilder: failed to open file " ++ fieldName ++ str " (" ++
          filePath ++ str "): " ++ cause) := by
  refine ⟨fun mw => fileWriter_open_error _ _ _ _ _ hopen, ?_, ?_, ?_, ?_⟩
  · have hcbs : (b.AddFile fieldName filePath).cbs ++ post =
        b.cbs ++ (fileWriter fieldName filePath :: post) := by
      simp [Builder.AddFile]
    have hk : (b.cbs ++ (fileWriter fieldName filePath :: post))[b.cbs.length]? =
        some (fileWriter fieldName filePath) := by
      rw [List.getElem?_append_right (Nat.le_refl _)]
      simp
    have h1 := runWriters_of_fail fs (b.cbs ++ (fileWriter fieldName filePath :: post))
      (NewWriter rnd (Pipe.new none)) b.cbs.length (fileWriter fieldName filePath)
      (str "multipartbuilder: failed to open file " ++ fieldName ++ str " (" ++
          filePath ++ str "): " ++ cause) hk
      (fun j cj hj hcj => by
        rw [writerAfter_append_left fs _ _ _ j (Nat.le_of_lt hj)]
        apply hprev j cj
        rwa [List.getElem?_append_left hj] at hcj)
      (by rw [fileWriter_open_error _ _ _ _ _ hopen])
    rw [writerAfter_append_left fs _ _ _ _ (Nat.le_refl _),
      fileWriter_open_error _ _ _ _ _ hopen] at h1
    have hroom : (writerAfter fs b.cbs (NewWriter rnd (Pipe.new none)) b.cbs.length).w.room = none :=
      writerAfter_room_none fs b.cbs _ _ rfl
    simp [Builder.Build, buildStream, hcbs, h1, Pipe.CloseWithError, hroom]
  · exact ⟨str "multipartbuilder: failed to open file ", str " (" ++ filePath ++ str "): " ++ cause,
      by simp⟩
  · exact ⟨str "multipartbuilder: failed to open file " ++ fieldName ++ str " (",
      str "): " ++ cause, by simp⟩
  · exact ⟨str "multipartbuilder: failed to open file " ++ fieldName ++ str " (" ++
          filePath ++ str "): ", [], by simp⟩

set_option maxRecDepth 100000 in
/-- C7 at a concrete input: a field, then a file that does not exist, then
another field. The stream holds the part of the first field only and ends with
the error of the open, which names the path. -/
theorem AddFile_open_failure_surfaces_witness :
    (Builder.Build sampleBuilder sampleRnd none noFiles).body =
      { data := str ("--000102030405060708090a0b0c0d0e0f101112131415161718191a1b1c1d\r\n" ++
          "Content-Disposition: form-data; name=\"a\"\r\n\r\n1"),
        err := some (str ("multipartbuilder: failed to open file g (/nope): " ++
          "open /nope: no such file or directory")) } ∧
    str "/nope" <:+: str ("multipartbuilder: failed to open file g (/nope): " ++
          "open /nope: no such file or directory") ∧
    ∀ mw : Writer, (fileWriter (str "g") (str "/nope") noFiles mw).1 = mw := by
  have h := AddFile_open_failure_surfaces (NewMultipartBuilder.AddField (str "a") (str "1"))
    (str "g") (str "/nope") (str "open /nope: no such file or directory")
    [fieldWriter (str "c") (str "3")] sampleRnd noFiles (by rfl)
    (fun j cj hcj => by
      have hlen : (NewMultipartBuilder.AddField (str "a") (str "1")).cbs.length = 1 := rfl
      have hj : j < 1 := by
        rcases Nat.lt_or_ge j 1 with h | h
        · exact h
        · rw [List.getElem?_eq_none (by rw [hlen]; exact h)] at hcj; cases hcj
      obtain rfl : j = 0 := by omega
      obtain rfl : fieldWriter (str "a") (str "1") = cj := by
        have : (NewMultipartBuilder.AddField (str "a") (str "1")).cbs[0]? =
            some (fieldWriter (str "a") (str "1")) := rfl
        rw [this] at hcj
        exact Option.some.inj hcj
      rfl)
  exact ⟨h.2.1, h.2.2.2.1, fun mw => by rw [h.1 mw]⟩

/-! ## The part writers on an encoder in working order -/

theorem Pipe.Write_of_room_none (p : Pipe) (d : Bytes) (h : p.room = none) :
    p.Write d = ({ out := p.out ++ d, room := none }, none) := by
  cases p with
  | mk out room =>
    simp only at h
    subst h
    rfl

theorem Writer.CreatePart_healthy (mw : Writer) (header : List (Bytes × Bytes))
    (h : mw.healthy) :
    mw.CreatePart header = (mw.afterPart (mw.delimiterLine ++ headerLines header), none) := by
  obtain ⟨hroom, hwe⟩ := h
  cases mw with
  | mk w boundary lastpart =>
    simp only at hroom
    cases lastpart with
    | none =>
      simp [Writer.CreatePart, Writer.closeLastPart, Pipe.Write_of_room_none _ _ hroom,
        Writer.afterPart, Writer.delimiterLine]
    | some p =>
      simp only [Option.some_bind] at hwe
      simp [Writer.CreatePart, Writer.closeLastPart, hwe, Pipe.Write_of_room_none _ _ hroom,
        Writer.afterPart, Writer.delimiterLine]

theorem Writer.afterPart_healthy (mw : Writer) (bytes : Bytes) : (mw.afterPart bytes).healthy := by
  simp [Writer.afterPart, Writer.healthy]

theorem Writer.partWrite_afterPart (mw : Writer) (bytes d : Bytes) :
    (mw.afterPart bytes).partWrite d = (mw.afterPart (bytes ++ d), none) := by
  simp [Writer.partWrite, Writer.afterPart, Pipe.Write]

theorem fieldWriter_healthy (fieldName value : Bytes) (fs : FileSystem) (mw : Writer)
    (h : mw.healthy) :
    fieldWriter fieldName value fs mw =
      (mw.afterPart (mw.delimiterLine ++ fieldHeader fieldName ++ value), none) := by
  simp [PartWriter.run, Writer.WriteField, Writer.CreateFormField, Writer.CreatePart_healthy _ _ h,
    Writer.partWrite_afterPart, fieldHeader]

theorem Writer.Close_afterPart (mw : Writer) (bytes : Bytes) :
    (mw.afterPart bytes).Close =
      ({ w := { out := mw.w.out ++ bytes ++ (str "\r\n--" ++ mw.boundary ++ str "--\r\n"),
                room := none },
         boundary := mw.boundary, lastpart := none }, none) := by
  simp [Writer.Close, Writer.closeLastPart, Writer.afterPart, Pipe.Write]

theorem runWriters_append (fs : FileSystem) :
    ∀ (pre post : List PartWriter) (mw mw1 : Writer),
      runWriters fs pre mw = (mw1, none) →
      runWriters fs (pre ++ post) mw = runWriters fs post mw1 := by
  intro pre
  induction pre with
  | nil => intro post mw mw1 h; simp [runWriters] at h; subst h; rfl
  | cons c rest ih =>
    intro post mw mw1 h
    rcases hc : c fs mw with ⟨m1, r⟩
    cases r with
    | some e => simp [runWriters, hc] at h
    | none =>
      simp only [runWriters, hc, List.cons_append] at h ⊢
      exact ih post m1 mw1 h

theorem Writer.Close_healthy (mw : Writer) (h : mw.healthy) :
    mw.Close =
      ({ w := { out := mw.w.out ++ (str "\r\n--" ++ mw.boundary ++ str "--\r\n"), room := none },
         boundary := mw.boundary, lastpart := none }, none) := by
  obtain ⟨hroom, hwe⟩ := h
  cases mw with
  | mk w boundary lastpart =>
    simp only at hroom
    cases lastpart with
    | none =>
      simp [Writer.Close, Writer.closeLastPart, Pipe.Write_of_room_none _ _ hroom]
    | some p =>
      simp only [Option.some_bind] at hwe
      simp [Writer.Close, Writer.closeLastPart, hwe, Pipe.Write_of_room_none _ _ hroom]

theorem NewWriter_healthy (rnd : Fin 30 → UInt8) : (NewWriter rnd (Pipe.new none)).healthy := by
  simp [NewWriter, Pipe.new, Writer.healthy]

theorem ioCopy_afterPart_reader (mw : Writer) (bytes : Bytes) (r : Reader) :
    ioCopy (mw.afterPart bytes) r = (mw.afterPart (bytes ++ r.data), r.err) := by
  unfold ioCopy
  by_cases hd : r.data = []
  · simp [hd]
  · simp [hd, Writer.partWrite_afterPart]

/-- With a consumer that drains the sink no write fails, so every part writer,
whatever it returns, leaves the encoder in working order. -/
theorem PartWriter.run_healthy (cb : PartWriter) (fs : FileSystem) (mw : Writer)
    (h : mw.healthy) : (cb fs mw).1.healthy := by
  cases cb with
  | fieldWriter n v =>
    rw [fieldWriter_healthy n v fs mw h]
    exact Writer.afterPart_healthy _ _
  | readerWriter n f r =>
    simp only [PartWriter.run, Writer.CreateFormFile, Writer.CreatePart_healthy _ _ h,
      ioCopy_afterPart_reader]
    cases r.err <;> exact Writer.afterPart_healthy _ _
  | fileWriter n p =>
    simp only [PartWriter.run]
    cases hf : fs p with
    | error e => exact h
    | ok f =>
      simp only [Writer.CreateFormFile, Writer.CreatePart_healthy _ _ h, ioCopy_afterPart_reader]
      cases f.err <;> exact Writer.afterPart_healthy _ _

theorem PartWriter.run_boundary (cb : PartWriter) (fs : FileSystem) (mw : Writer)
    (h : mw.healthy) : (cb fs mw).1.boundary = mw.boundary := by
  cases cb with
  | fieldWriter n v =>
    rw [fieldWriter_healthy n v fs mw h]
    rfl
  | readerWriter n f r =>
    simp only [PartWriter.run, Writer.CreateFormFile, Writer.CreatePart_healthy _ _ h,
      ioCopy_afterPart_reader]
    cases r.err <;> rfl
  | fileWriter n p =>
    simp only [PartWriter.run]
    cases hf : fs p with
    | error e => rfl
    | ok f =>
      simp only [Writer.CreateFormFile, Writer.CreatePart_healthy _ _ h, ioCopy_afterPart_reader]
      cases f.err <;> rfl

theorem foldl_boundary (fs : FileSystem) :
    ∀ (cbs : List PartWriter) (mw : Writer), mw.healthy →
      (cbs.foldl (fun s cb => (cb fs s).1) mw).boundary = mw.boundary := by
  intro cbs
  induction cbs with
  | nil => intro mw _; rfl
  | cons c rest ih =>
    intro mw h
    rw [List.foldl_cons, ih _ (PartWriter.run_healthy c fs mw h), PartWriter.run_boundary c fs mw h]

theorem writerAfter_boundary (fs : FileSystem) (cbs : List PartWriter) (mw : Writer) (j : Nat)
    (h : mw.healthy) : (writerAfter fs cbs mw j).boundary = mw.boundary :=
  foldl_boundary fs (cbs.take j) mw h

theorem foldl_healthy (fs : FileSystem) :
    ∀ (cbs : List PartWriter) (mw : Writer), mw.healthy →
      (cbs.foldl (fun s cb => (cb fs s).1) mw).healthy := by
  intro cbs
  induction cbs with
  | nil => intro mw h; exact h
  | cons c rest ih =>
    intro mw h
    rw [List.foldl_cons]
    exact ih _ (PartWriter.run_healthy c fs mw h)

theorem writerAfter_healthy (fs : FileSystem) (cbs : List PartWriter) (mw : Writer) (j : Nat)
    (h : mw.healthy) : (writerAfter fs cbs mw j).healthy :=
  foldl_healthy fs (cbs.take j) mw h

theorem runWriters_healthy (fs : FileSystem) :
    ∀ (cbs : List PartWriter) (mw : Writer), mw.healthy →
      (runWriters fs cbs mw).1.healthy := by
  intro cbs
  induction cbs with
  | nil => intro mw h; exact h
  | cons c rest ih =>
    intro mw h
    have hc := PartWriter.run_healthy c fs mw h
    rcases hcb : c fs mw with ⟨m1, r⟩
    rw [hcb] at hc
    cases r with
    | some e => simpa [runWriters, hcb] using hc
    | none =>
      simp only [runWriters, hcb]
      exact ih m1 hc

/-! ## The loop of `Build` for a consumer that drains the stream -/

/-- C2. `Build` runs the part writers in order and stops at the first failure,
for a consumer that reads the stream to its end (`room` is `none`): when writer
`k` is the first whose call returns an error `e` (every earlier one returned
`nil` on the encoder its predecessors left), the stream carries the bytes the
encoder's sink held when writer `k` returned, so nothing is written after it
and the encoder is not closed, and ends with exactly `e`; the result does not
depend on the writers after `k`, which are never run. When no writer fails, all
of them ran in order, the encoder is closed, and the stream ends with the error
of that close, which is `nil`: the stream holds what the writers wrote and then
the terminating boundary. -/
theorem Build_runs_writers_until_first_failure (b : Builder) (rnd : Fin 30 → UInt8)
    (fs : FileSystem) :
    (∀ (k : Nat) (cb : PartWriter) (e : GoError),
      b.cbs[k]? = some cb →
      (∀ (j : Nat) (cj : PartWriter), j < k → b.cbs[j]? = some cj →
        (cj fs (writerAfter fs b.cbs (NewWriter rnd (Pipe.new none)) j)).2 = none) →
      (cb fs (writerAfter fs b.cbs (NewWriter rnd (Pipe.new none)) k)).2 = some e →
      (b.Build rnd none fs).body =
          { data := (cb fs (writerAfter fs b.cbs (NewWriter rnd (Pipe.new none)) k)).1.w.out,
            err := some e } ∧
        ∀ post : List PartWriter,
          (Builder.Build { b with cbs := b.cbs.take (k + 1) ++ post } rnd none fs).body =
            (b.Build rnd none fs).body) ∧
    ((∀ (j : Nat) (cj : PartWriter), b.cbs[j]? = some cj →
        (cj fs (writerAfter fs b.cbs (NewWriter rnd (Pipe.new none)) j)).2 = none) →
      (b.Build rnd none fs).body =
        { data := (writerAfter fs b.cbs (NewWriter rnd (Pipe.new none)) b.cbs.length).Close.1.w.out,
          err := (writerAfter fs b.cbs (NewWriter rnd (Pipe.new none)) b.cbs.length).Close.2 } ∧
      (b.Build rnd none fs).body =
        { data := (writerAfter fs b.cbs (NewWriter rnd (Pipe.new none)) b.cbs.length).w.out ++
            (str "\r\n--" ++ randomBoundary rnd ++ str "--\r\n"),
          err := none }) := by
  have hnew : (NewWriter rnd (Pipe.new none)).w.room = none := rfl
  constructor
  · intro k cb e hk hpre hfail
    have hlt : k < b.cbs.length := by
      rcases Nat.lt_or_ge k b.cbs.length with h | h
      · exact h
      · rw [List.getElem?_eq_none h] at hk; cases hk
    have hroom : (cb fs (writerAfter fs b.cbs (NewWriter rnd (Pipe.new none)) k)).1.w.room = none :=
      PartWriter.run_room_none cb fs _ (writerAfter_room_none fs b.cbs _ k hnew)
    have h1 := runWriters_of_fail fs b.cbs _ k cb e hk hpre hfail
    have hbody : (b.Build rnd none fs).body =
        { data := (cb fs (writerAfter fs b.cbs (NewWriter rnd (Pipe.new none)) k)).1.w.out,
          err := some e } := by
      simp [Builder.Build, buildStream, h1, Pipe.CloseWithError, hroom]
    refine ⟨hbody, fun post => ?_⟩
    rw [hbody]
    have hk2 : (b.cbs.take (k + 1) ++ post)[k]? = some cb := by
      rw [List.getElem?_append_left (by rw [List.length_take]; omega)]
      rw [List.getElem?_take_of_lt (by omega)]
      exact hk
    have h2 := runWriters_of_fail fs (b.cbs.take (k + 1) ++ post) (NewWriter rnd (Pipe.new none))
      k cb e hk2
      (fun j cj hj hcj => by
        rw [writerAfter_take_append fs b.cbs post _ k j hlt (by omega)]
        apply hpre j cj hj
        rw [List.getElem?_append_left (by rw [List.length_take]; omega)] at hcj
        rw [List.getElem?_take_of_lt (by omega)] at hcj
        exact hcj)
      (by rw [writerAfter_take_append fs b.cbs post _ k k hlt (by omega)]; exact hfail)
    rw [writerAfter_take_append fs b.cbs post _ k k hlt (by omega)] at h2
    simp [Builder.Build, buildStream, h2, Pipe.CloseWithError, hroom]
  · intro hall
    have h1 := runWriters_of_ok fs b.cbs _ hall
    have hgood := writerAfter_healthy fs b.cbs _ b.cbs.length (NewWriter_healthy rnd)
    have hbd : (writerAfter fs b.cbs (NewWriter rnd (Pipe.new none)) b.cbs.length).boundary =
        randomBoundary rnd :=
      writerAfter_boundary fs b.cbs _ b.cbs.length (NewWriter_healthy rnd)
    have hclose := Writer.Close_healthy _ hgood
    constructor
    · simp [Builder.Build, buildStream, h1, Pipe.CloseWithError, hclose]
    · simp [Builder.Build, buildStream, h1, Pipe.CloseWithError, hclose, hbd]

set_option maxRecDepth 100000 in
/-- C2 at concrete inputs: in a builder with a field, a missing file and another
field, the file's writer is the first to fail; the stream ends with its error
and holds no byte of the writers after it nor a terminating boundary. In a
builder with one field no writer fails; the stream holds the part and the
terminating boundary and ends without error. -/
theorem Build_runs_writers_until_first_failure_witness :
    (sampleBuilder.Build sampleRnd none noFiles).body =
      { data := str ("--000102030405060708090a0b0c0d0e0f101112131415161718191a1b1c1d\r\n" ++
          "Content-Disposition: form-data; name=\"a\"\r\n\r\n1"),
        err := some (str ("multipartbuilder: failed to open file g (/nope): " ++
          "open /nope: no such file or directory")) } ∧
    ((NewMultipartBuilder.AddField (str "a") (str "1")).Build sampleRnd none noFiles).body =
      { data := str ("--000102030405060708090a0b0c0d0e0f101112131415161718191a1b1c1d\r\n" ++
          "Content-Disposition: form-data; name=\"a\"\r\n\r\n1" ++
          "\r\n--000102030405060708090a0b0c0d0e0f101112131415161718191a1b1c1d--\r\n"),
        err := none } := by
  refine ⟨?_, ?_⟩
  case refine_2 =>
    have h := ((Build_runs_writers_until_first_failure
      (NewMultipartBuilder.AddField (str "a") (str "1")) sampleRnd noFiles).2
      (fun j cj hcj => by
        have hlen : (NewMultipartBuilder.AddField (str "a") (str "1")).cbs.length = 1 := rfl
        have hj : j < 1 := by
          rcases Nat.lt_or_ge j 1 with h | h
          · exact h
          · rw [List.getElem?_eq_none (by rw [hlen]; exact h)] at hcj; cases hcj
        obtain rfl : j = 0 := by omega
        obtain rfl : fieldWriter (str "a") (str "1") = cj := by
          have : (NewMultipartBuilder.AddField (str "a") (str "1")).cbs[0]? =
              some (fieldWriter (str "a") (str "1")) := rfl
          rw [this] at hcj
          exact Option.some.inj hcj
        rfl)).2
    rw [h]
    decide
  have h := ((Build_runs_writers_until_first_failure sampleBuilder sampleRnd noFiles).1 1
    (fileWriter (str "g") (str "/nope"))
    (str "multipartbuilder: failed to open file g (/nope): open /nope: no such file or directory")
    (by rfl)
    (fun j cj hj hcj => by
      obtain rfl : j = 0 := by omega
      obtain rfl : fieldWriter (str "a") (str "1") = cj := by
        have : sampleBuilder.cbs[0]? = some (fieldWriter (str "a") (str "1")) := rfl
        rw [this] at hcj
        exact Option.some.inj hcj
      rfl)
    (by rfl)).1
  rw [h]
  rfl

/-! ## The JSON of the event descriptor -/

set_option maxRecDepth 100000 in
/-- C6, the code at the failing input: for event function `save` with
parameters `x`, `y` and no event data, the JSON that `BuildEventFuncRequest`
puts into `__event_data__` has an `event` member, the empty object; for a
builder on which nothing was set both top-level members are written as empty
objects. The members one level down are left out when they are empty. -/
theorem marshalEventBody_writes_empty_struct_members :
    marshalEventBody ((NewMultipartBuilder.EventFunc (str "save") [str "x", str "y"]).eb) =
        str "\x7b\"eventFuncId\":\x7b\"id\":\"save\",\"params\":[\"x\",\"y\"]\x7d,\"event\":\x7b\x7d\x7d" ∧
    marshalEventBody ((NewMultipartBuilder.EventFunc (str "save") [str "x", str "y"]).eb) ≠
        str "\x7b\"eventFuncId\":\x7b\"id\":\"save\",\"params\":[\"x\",\"y\"]\x7d\x7d" ∧
    marshalEventBody NewMultipartBuilder.eb = str "\x7b\"eventFuncId\":\x7b\x7d,\"event\":\x7b\x7d\x7d" := by
  decide

/-! ## The uploaded file helper -/

/-- C10. For every file name and payload, `CreateMultipartFileHeader` returns a
representation whose file name is the given one and whose `Open` succeeds each
time with a stream positioned at the start that reads back exactly the payload;
a stream opened earlier and read in part keeps its own cursor when the file is
opened again and the new stream is read to its end. -/
theorem CreateMultipartFileHeader_open_reads_content (filename content : Bytes) :
    (CreateMultipartFileHeader filename content).Filename = filename ∧
    ∃ f : File, (CreateMultipartFileHeader filename content).Open = .ok f ∧
      f.pos = 0 ∧ f.ReadAll.1 = content ∧
      ∀ n : Nat,
        (f.Read n).1 = content.take n ∧
        ∃ g : File, (CreateMultipartFileHeader filename content).Open = .ok g ∧
          g.pos = 0 ∧ g.ReadAll.1 = content ∧
          (f.Read n).2.ReadAll.1 = content.drop n := by
  refine ⟨rfl, ⟨content, 0⟩, rfl, rfl, by simp [File.ReadAll], fun n => ?_⟩
  refine ⟨by simp [File.Read], ⟨content, 0⟩, rfl, rfl, by simp [File.ReadAll], ?_⟩
  simp only [File.Read, File.ReadAll, Nat.zero_add]
  rcases Nat.le_total n content.length with h | h
  · rw [Nat.min_eq_left h]
  · rw [Nat.min_eq_right h, List.drop_of_length_le h, List.drop_of_length_le (Nat.le_refl _)]

set_option maxRecDepth 100000 in
/-- The test `TestCreateMultipartFileHeader`: file name `test.txt`, payload
`hello`. -/
theorem CreateMultipartFileHeader_test :
    (CreateMultipartFileHeader (str "test.txt") (str "hello")).Filename = str "test.txt" ∧
    ((CreateMultipartFileHeader (str "test.txt") (str "hello")).Open.map
      fun f => f.ReadAll.1) = .ok (str "hello") := by
  constructor <;> rfl

/-! ## Cutting and unescaping texts -/

theorem cut_append_sep (sep : UInt8) (a b : Bytes) (h : sep ∉ a) :
    cut sep (a ++ sep :: b) = (a, b, true) := by
  induction a with
  | nil => simp [cut]
  | cons c cs ih =>
    have hc : c ≠ sep := fun e => h (by simp [e])
    have hcs : sep ∉ cs := fun e => h (by simp [e])
    simp [cut, hc, ih hcs]

theorem cut_of_not_mem (sep : UInt8) (a : Bytes) (h : sep ∉ a) :
    cut sep a = (a, [], false) := by
  induction a with
  | nil => simp [cut]
  | cons c cs ih =>
    have hc : c ≠ sep := fun e => h (by simp [e])
    have hcs : sep ∉ cs := fun e => h (by simp [e])
    simp [cut, hc, ih hcs]

theorem splitOn_of_not_mem (sep : UInt8) (a : Bytes) (h : sep ∉ a) :
    splitOn sep a = [a] := by
  induction a with
  | nil => simp [splitOn]
  | cons c cs ih =>
    have hc : c ≠ sep := fun e => h (by simp [e])
    have hcs : sep ∉ cs := fun e => h (by simp [e])
    simp [splitOn, hc, ih hcs]

theorem unescape_of_plain (query : Bool) (s : Bytes)
    (h : ∀ c ∈ s, c ≠ 37 ∧ c ≠ 43) : unescape query s = some s := by
  induction s with
  | nil => simp [unescape]
  | cons c cs ih =>
    have hc := h c (by simp)
    have hcs : ∀ d ∈ cs, d ≠ 37 ∧ d ≠ 43 := fun d hd => h d (by simp [hd])
    rw [unescape.eq_def]
    simp [hc.1, hc.2, ih hcs]

theorem unescape_path_of_plain (s : Bytes) (h : ∀ c ∈ s, c ≠ 37) :
    unescape false s = some s := by
  induction s with
  | nil => simp [unescape]
  | cons c cs ih =>
    have hc := h c (by simp)
    have hcs : ∀ d ∈ cs, d ≠ 37 := fun d hd => h d (by simp [hd])
    rw [unescape.eq_def]
    simp [hc, ih hcs]

theorem validHTTPVersion_length (v : Bytes) (h : validHTTPVersion v = true) : v.length = 8 := by
  unfold validHTTPVersion at h
  split at h
  · rename_i h1
    rcases h1 with h1 | h1 <;> subst h1 <;> rfl
  · split at h
    · rfl
    · cases h

theorem exists_first_occurrence (sep : UInt8) (s : Bytes) (h : sep ∈ s) :
    ∃ a b, s = a ++ sep :: b ∧ sep ∉ a := by
  induction s with
  | nil => simp at h
  | cons c cs ih =>
    by_cases hc : c = sep
    · exact ⟨[], cs, by simp [hc], by simp⟩
    · have hcs : sep ∈ cs := by
        rcases List.mem_cons.1 h with h1 | h1
        · exact absurd h1.symm hc
        · exact h1
      obtain ⟨a, b, hab, ha⟩ := ih hcs
      refine ⟨c :: a, b, by simp [hab], ?_⟩
      intro hmem
      rcases List.mem_cons.1 hmem with h1 | h1
      · exact hc h1.symm
      · exact ha h1

theorem requestLine_cut (target : Bytes) (h : (10 : UInt8) ∉ target) :
    cut 10 (str "POST" ++ str " " ++ target ++ str " HTTP/1.0\r\n\r\n") =
      ((str "POST" ++ str " " ++ target ++ str " HTTP/1.0") ++ [13], str "\r\n", true) := by
  have e : str "POST" ++ str " " ++ target ++ str " HTTP/1.0\r\n\r\n" =
      ((str "POST" ++ str " " ++ target ++ str " HTTP/1.0") ++ [13]) ++ 10 :: str "\r\n" := by
    have : str " HTTP/1.0\r\n\r\n" = str " HTTP/1.0" ++ [13] ++ 10 :: str "\r\n" := by decide
    rw [this]
    simp
  rw [e]
  apply cut_append_sep
  have h1 : (10 : UInt8) ∉ str "POST" := by decide
  have h2 : (10 : UInt8) ∉ str " " := by decide
  have h3 : (10 : UInt8) ∉ str " HTTP/1.0" := by decide
  simp [h, h1, h2, h3]

theorem requestLine_first_cut (target : Bytes) :
    cut 32 (str "POST" ++ str " " ++ target ++ str " HTTP/1.0") =
      (str "POST", target ++ str " HTTP/1.0", true) := by
  have : str "POST" ++ str " " ++ target ++ str " HTTP/1.0" =
      str "POST" ++ 32 :: (target ++ str " HTTP/1.0") := by
    have : str " " = [32] := by decide
    rw [this]; simp
  rw [this]
  exact cut_append_sep 32 _ _ (by decide)

theorem NewRequest_of_space (target : Bytes) (body : Stream) (h : (32 : UInt8) ∈ target)
    (hlf : (10 : UInt8) ∉ target) :
    NewRequest target body = .fail := by
  unfold NewRequest
  have hcut := requestLine_cut target hlf
  have hline := requestLine_first_cut target
  obtain ⟨a, b, hab, ha⟩ := exists_first_occurrence 32 target h
  have hc2 : cut 32 (target ++ str " HTTP/1.0") = (a, b ++ str " HTTP/1.0", true) := by
    rw [hab]
    have : a ++ 32 :: b ++ str " HTTP/1.0" = a ++ 32 :: (b ++ str " HTTP/1.0") := by simp
    rw [this]
    exact cut_append_sep 32 _ _ ha
  have hv : validHTTPVersion (b ++ str " HTTP/1.0") = false := by
    by_contra hne
    have hlen := validHTTPVersion_length _ (by simpa using hne)
    have : (str " HTTP/1.0").length = 9 := by decide
    rw [List.length_append, this] at hlen
    omega
  simp only [hcut, List.getLast?_concat, if_true, List.dropLast_concat, hline]
  simp [hc2, hv, hlf]

/-- What `NewRequest` does on a target without space and line feed: the request
line is well formed and the outcome is that of parsing the target. -/
theorem NewRequest_of_plain (target : Bytes) (body : Stream)
    (hsp : (32 : UInt8) ∉ target) (hlf : (10 : UInt8) ∉ target) :
    NewRequest target body =
      match ParseRequestURI target with
      | .fail => .fail
      | .beyond => .beyond
      | .ok u =>
        .ok { Method := str "POST", RequestURI := target, URL := u, Header := [], Body := body } := by
  unfold NewRequest
  have hcut := requestLine_cut target hlf
  have hline := requestLine_first_cut target
  have hc2 : cut 32 (target ++ str " HTTP/1.0") = (target, str "HTTP/1.0", true) := by
    have : target ++ str " HTTP/1.0" = target ++ 32 :: str "HTTP/1.0" := by
      have : str " HTTP/1.0" = 32 :: str "HTTP/1.0" := by decide
      rw [this]
    rw [this]
    exact cut_append_sep 32 _ _ hsp
  have hv : validHTTPVersion (str "HTTP/1.0") = true := by decide
  simp only [hcut, List.getLast?_concat, if_true, List.dropLast_concat, hline, hc2, hv]
  simp [hlf]

/-- What `NewRequest` returns when it returns: the method, the target as the
request URI, the parsed target, no header and the body. -/
theorem NewRequest_eq_ok (target : Bytes) (body : Stream) (r : Request)
    (h : NewRequest target body = .ok r) :
    (32 : UInt8) ∉ target ∧ (10 : UInt8) ∉ target ∧
    ∃ u, ParseRequestURI target = .ok u ∧
      r = { Method := str "POST", RequestURI := target, URL := u, Header := [], Body := body } := by
  have hlf : (10 : UInt8) ∉ target := by
    intro hlf
    unfold NewRequest at h
    simp [hlf] at h
  have hsp : (32 : UInt8) ∉ target := by
    intro hsp
    rw [NewRequest_of_space target body hsp hlf] at h
    cases h
  refine ⟨hsp, hlf, ?_⟩
  rw [NewRequest_of_plain target body hsp hlf] at h
  cases hp : ParseRequestURI target with
  | fail => rw [hp] at h; cases h
  | beyond => rw [hp] at h; cases h
  | ok u =>
    rw [hp] at h
    simp only [Outcome.ok.injEq] at h
    exact ⟨u, rfl, h.symm⟩

theorem NewRequest_of_parse (target : Bytes) (body : Stream) (u : URL)
    (hsp : (32 : UInt8) ∉ target) (hlf : (10 : UInt8) ∉ target)
    (hp : ParseRequestURI target = .ok u) :
    NewRequest target body =
      .ok { Method := str "POST", RequestURI := target, URL := u, Header := [], Body := body } := by
  rw [NewRequest_of_plain target body hsp hlf, hp]

theorem count_pos_of_getLast? (c : UInt8) (s : Bytes) (h : s.getLast? = some c) :
    0 < s.count c := by
  rw [List.count_pos_iff]
  exact List.mem_of_getLast?_eq_some h

theorem ParseRequestURI_origin_form (path query : Bytes)
    (hhead : path.head? = some 47)
    (hpath : ∀ c ∈ path, 32 ≤ c ∧ c ≠ 127 ∧ c ≠ 63 ∧ c ≠ 37)
    (hquery : ∀ c ∈ query, 32 ≤ c ∧ c ≠ 127) (hne : query ≠ []) :
    ParseRequestURI (path ++ 63 :: query) =
      .ok { Scheme := [], Opaque := [], Path := path, ForceQuery := false,
            RawQuery := query } := by
  obtain ⟨p, rfl⟩ : ∃ p, path = 47 :: p := by
    cases path with
    | nil => simp at hhead
    | cons c p => simp at hhead; exact ⟨p, by rw [hhead]⟩
  have hq : (63 : UInt8) ∉ (47 :: p) := fun h => (hpath 63 h).2.2.1 rfl
  have hctl : (47 :: p ++ 63 :: query).any (fun b => decide (b < 32 ∨ b = 127)) = false := by
    rw [List.any_eq_false]
    intro c hc
    have : 32 ≤ c ∧ c ≠ 127 := by
      rcases List.mem_append.1 hc with h | h
      · exact ⟨(hpath c h).1, (hpath c h).2.1⟩
      · rcases List.mem_cons.1 h with h | h
        · subst h; decide
        · exact hquery c h
    simp only [decide_eq_true_eq, not_or]
    exact ⟨Nat.not_lt.2 this.1, this.2⟩
  have hstar : ¬ (47 :: p ++ 63 :: query = str "*") := by
    intro h
    have : (str "*") = [42] := by decide
    rw [this] at h
    simp at h
  have hsch : getScheme [] (47 :: p ++ 63 :: query) = some ([], 47 :: p ++ 63 :: query) := by
    simp [getScheme]
  have hcut : cut 63 (47 :: p ++ 63 :: query) = (47 :: p, query, true) :=
    cut_append_sep 63 _ _ hq
  have hforce : ¬ ((47 :: p ++ 63 :: query).getLast? = some 63 ∧
      (47 :: p ++ 63 :: query).count 63 = 1) := by
    rintro ⟨h1, h2⟩
    obtain ⟨q, qs, rfl⟩ : ∃ q qs, query = q :: qs := by
      cases query with
      | nil => exact absurd rfl hne
      | cons q qs => exact ⟨q, qs, rfl⟩
    have h3 : (q :: qs).getLast? = some 63 := by
      rw [List.getLast?_append, List.getLast?_cons_cons] at h1
      cases hl : (q :: qs).getLast? with
      | none => simp at hl
      | some d => rw [hl] at h1; simpa using h1
    have h4 := count_pos_of_getLast? 63 _ h3
    rw [List.count_append, List.count_cons_self] at h2
    omega
  unfold ParseRequestURI
  simp only [hctl, hstar, hsch, hcut, hforce]
  have hun : unescape false (47 :: p) = some (47 :: p) :=
    unescape_path_of_plain _ (fun c hc => (hpath c hc).2.2.2)
  simp [hun, splitOn]

/-! ## The boundary -/

theorem hexDigit_isHexChar (n : Nat) (h : n < 16) : isHexChar (hexDigit n) := by
  unfold isHexChar
  interval_cases n <;> decide

theorem hexEncode_isHexChar (bs : Bytes) : ∀ c ∈ hexEncode bs, isHexChar c := by
  induction bs with
  | nil => intro c hc; simp [hexEncode] at hc
  | cons b bs ih =>
    intro c hc
    simp only [hexEncode, List.mem_cons] at hc
    have hb : b.toNat < 256 := b.val.isLt
    rcases hc with h | h | h
    · subst h; exact hexDigit_isHexChar _ (by omega)
    · subst h; exact hexDigit_isHexChar _ (by omega)
    · exact ih c h

theorem hexEncode_length (bs : Bytes) : (hexEncode bs).length = 2 * bs.length := by
  induction bs with
  | nil => rfl
  | cons b bs ih => simp [hexEncode, ih]; omega

theorem randomBoundary_isHexChar (rnd : Fin 30 → UInt8) :
    ∀ c ∈ randomBoundary rnd, isHexChar c := hexEncode_isHexChar _

theorem randomBoundary_length (rnd : Fin 30 → UInt8) : (randomBoundary rnd).length = 60 := by
  simp [randomBoundary, hexEncode_length]

theorem byte_eq_ofNat (c : UInt8) : c = UInt8.ofNat c.toNat := by
  apply UInt8.ext
  simp [UInt8.toNat, UInt8.ofNat]

theorem byte_le_iff (a b : UInt8) : a ≤ b ↔ a.toNat ≤ b.toNat := by
  rw [UInt8.le_def]
  exact Iff.rfl

theorem byte_lt_iff (a b : UInt8) : a < b ↔ a.toNat < b.toNat := by
  rw [UInt8.lt_def]
  exact Iff.rfl

/-- What the decoder needs to know of a hexadecimal digit. -/
theorem isHexChar_facts (c : UInt8) (h : isHexChar c) :
    isTokenChar c = true ∧ c ≠ 13 ∧ c ≠ 10 ∧ c ≠ 45 ∧ isSpace c = false ∧ c ≠ 34 ∧
      contentTypeSpecials.contains c = false ∧ c ≠ 32 ∧ c ≠ 9 := by
  have hc := byte_eq_ofNat c
  unfold isHexChar at h
  simp only [byte_le_iff] at h
  have e1 : (48 : UInt8).toNat = 48 := rfl
  have e2 : (57 : UInt8).toNat = 57 := rfl
  have e3 : (97 : UInt8).toNat = 97 := rfl
  have e4 : (102 : UInt8).toNat = 102 := rfl
  rw [e1, e2, e3, e4] at h
  generalize c.toNat = n at hc h
  subst hc
  rcases h with ⟨h1, h2⟩ | ⟨h1, h2⟩ <;> interval_cases n <;> decide

theorem NewWriter_contentType (rnd : Fin 30 → UInt8) (w : Pipe) :
    (NewWriter rnd w).FormDataContentType =
      str "multipart/form-data; boundary=" ++ randomBoundary rnd := by
  have h : (randomBoundary rnd).any (fun c => contentTypeSpecials.contains c) = false := by
    rw [List.any_eq_false]
    intro c hc
    have := (isHexChar_facts c (randomBoundary_isHexChar rnd c hc)).2.2.2.2.2.2.1
    rw [this]
    decide
  simp only [Writer.FormDataContentType, NewWriter, h]
  rfl

/-! ## The request of `BuildEventFuncRequest` -/

theorem BuildEventFuncRequest_eq (b : Builder) (rnd : Fin 30 → UInt8) (room : Option Nat)
    (fs : FileSystem) :
    b.BuildEventFuncRequest rnd room fs =
      ((match NewRequest
            ((if b.pageURL.length = 0 then str "/" else b.pageURL) ++ str "?__execute_event__=" ++
              b.eb.EventFuncID.ID)
            ((b.AddField (str "__event_data__") (marshalEventBody b.eb)).Build rnd room fs).body with
        | .ok r => .ok (r.headerAdd (str "Content-Type")
            ((b.AddField (str "__event_data__") (marshalEventBody b.eb)).Build rnd room
              fs).contentType)
        | .fail => .fail
        | .beyond => .beyond),
       b.AddField (str "__event_data__") (marshalEventBody b.eb)) := by
  simp only [Builder.BuildEventFuncRequest, Builder.Build, Builder.AddField]
  split <;> simp_all

/-- The request that `BuildEventFuncRequest` returns, when it returns one. -/
theorem BuildEventFuncRequest_eq_ok (b : Builder) (rnd : Fin 30 → UInt8) (room : Option Nat)
    (fs : FileSystem) (r : Request) (h : (b.BuildEventFuncRequest rnd room fs).1 = .ok r) :
    ∃ u, ParseRequestURI ((if b.pageURL.length = 0 then str "/" else b.pageURL) ++
          str "?__execute_event__=" ++ b.eb.EventFuncID.ID) = .ok u ∧
      r = { Method := str "POST",
            RequestURI := (if b.pageURL.length = 0 then str "/" else b.pageURL) ++
              str "?__execute_event__=" ++ b.eb.EventFuncID.ID,
            URL := u,
            Header := [(str "Content-Type",
              ((b.AddField (str "__event_data__") (marshalEventBody b.eb)).Build rnd room
                fs).contentType)],
            Body := ((b.AddField (str "__event_data__") (marshalEventBody b.eb)).Build rnd room
              fs).body } := by
  rw [BuildEventFuncRequest_eq] at h
  simp only at h
  cases hn : NewRequest
      ((if b.pageURL.length = 0 then str "/" else b.pageURL) ++ str "?__execute_event__=" ++
        b.eb.EventFuncID.ID)
      ((b.AddField (str "__event_data__") (marshalEventBody b.eb)).Build rnd room fs).body with
  | fail => rw [hn] at h; cases h
  | beyond => rw [hn] at h; cases h
  | ok r0 =>
    rw [hn] at h
    simp only [Outcome.ok.injEq] at h
    obtain ⟨_, _, u, hu, rfl⟩ := NewRequest_eq_ok _ _ _ hn
    exact ⟨u, hu, by rw [← h]; rfl⟩

theorem target_gt_space (pageURL id : Bytes)
    (hurl : ∀ c ∈ pageURL, 32 < c) (hid : ∀ c ∈ id, 32 < c) :
    ∀ c ∈ (if pageURL.length = 0 then str "/" else pageURL) ++ str "?__execute_event__=" ++ id,
      32 < c := by
  intro c hc
  rcases List.mem_append.1 hc with h | h
  · rcases List.mem_append.1 h with h | h
    · split at h
      · have hk : ∀ d ∈ str "/", 32 < d := by decide
        exact hk c h
      · exact hurl c h
    · have hk : ∀ d ∈ str "?__execute_event__=", 32 < d := by decide
      exact hk c h
  · exact hid c h

/-- `BuildEventFuncRequest` returns a request for a URL and an identifier in
origin form. -/
theorem BuildEventFuncRequest_of_origin_form (b : Builder) (rnd : Fin 30 → UInt8)
    (room : Option Nat) (fs : FileSystem)
    (u : URL)
    (hsp : ∀ c ∈ (if b.pageURL.length = 0 then str "/" else b.pageURL) ++
        str "?__execute_event__=" ++ b.eb.EventFuncID.ID, 32 < c)
    (hp : ParseRequestURI ((if b.pageURL.length = 0 then str "/" else b.pageURL) ++
          str "?__execute_event__=" ++ b.eb.EventFuncID.ID) = .ok u) :
    (b.BuildEventFuncRequest rnd room fs).1 =
      .ok { Method := str "POST",
            RequestURI := (if b.pageURL.length = 0 then str "/" else b.pageURL) ++
              str "?__execute_event__=" ++ b.eb.EventFuncID.ID,
            URL := u,
            Header := [(str "Content-Type",
              ((b.AddField (str "__event_data__") (marshalEventBody b.eb)).Build rnd room
                fs).contentType)],
            Body := ((b.AddField (str "__event_data__") (marshalEventBody b.eb)).Build rnd room
              fs).body } := by
  rw [BuildEventFuncRequest_eq]
  have h1 := NewRequest_of_parse _
    ((b.AddField (str "__event_data__") (marshalEventBody b.eb)).Build rnd room fs).body _
    (fun h => absurd (hsp 32 h) (by decide)) (fun h => absurd (hsp 10 h) (by decide)) hp
  simp only [h1]
  rfl

theorem target_origin_form (pageURL id : Bytes)
    (hhead : pageURL = [] ∨ pageURL.head? = some 47)
    (hurl : ∀ c ∈ pageURL, 32 < c ∧ c ≠ 127 ∧ c ≠ 63 ∧ c ≠ 37)
    (hid : ∀ c ∈ id, 32 < c ∧ c ≠ 127) :
    ParseRequestURI ((if pageURL.length = 0 then str "/" else pageURL) ++ str "?__execute_event__=" ++
        id) =
      .ok { Scheme := [], Opaque := [],
            Path := if pageURL.length = 0 then str "/" else pageURL,
            ForceQuery := false, RawQuery := str "__execute_event__=" ++ id } := by
  have e : (if pageURL.length = 0 then str "/" else pageURL) ++ str "?__execute_event__=" ++ id =
      (if pageURL.length = 0 then str "/" else pageURL) ++ 63 :: (str "__execute_event__=" ++ id) := by
    have : str "?__execute_event__=" = 63 :: str "__execute_event__=" := by decide
    rw [this]; simp
  rw [e]
  apply ParseRequestURI_origin_form
  · split
    · decide
    · rename_i h
      rcases hhead with h1 | h1
      · simp [h1] at h
      · exact h1
  · intro c hc
    split at hc
    · have hk : ∀ d ∈ str "/", 32 ≤ d ∧ d ≠ 127 ∧ d ≠ 63 ∧ d ≠ 37 := by decide
      exact hk c hc
    · exact ⟨Nat.le_of_lt (hurl c hc).1, (hurl c hc).2⟩
  · intro c hc
    rcases List.mem_append.1 hc with h | h
    · have hk : ∀ d ∈ str "__execute_event__=", 32 ≤ d ∧ d ≠ 127 := by decide
      exact hk c h
    · exact ⟨Nat.le_of_lt (hid c h).1, (hid c h).2⟩
  · intro h
    have : (str "__execute_event__=") = 95 :: (str "__execute_event__=").tail := by decide
    rw [this] at h
    simp at h

theorem query_of_event_id (id : Bytes)
    (hid : ∀ c ∈ id, c ≠ 38 ∧ c ≠ 59 ∧ c ≠ 37 ∧ c ≠ 43) :
    URL.Query { Scheme := [], Opaque := [], Path := [], ForceQuery := false,
                RawQuery := str "__execute_event__=" ++ id } =
      [(str "__execute_event__", id)] ∧
    ∀ (u : URL), u.RawQuery = str "__execute_event__=" ++ id →
      u.Query = [(str "__execute_event__", id)] := by
  have key : ∀ (u : URL), u.RawQuery = str "__execute_event__=" ++ id →
      u.Query = [(str "__execute_event__", id)] := by
    intro u hu
    have hamp : (38 : UInt8) ∉ str "__execute_event__=" ++ id := by
      intro h
      rcases List.mem_append.1 h with h | h
      · revert h; decide
      · exact (hid 38 h).1 rfl
    have hsemi : (59 : UInt8) ∉ str "__execute_event__=" ++ id := by
      intro h
      rcases List.mem_append.1 h with h | h
      · revert h; decide
      · exact (hid 59 h).2.1 rfl
    have hcut : cut 61 (str "__execute_event__=" ++ id) = (str "__execute_event__", id, true) := by
      have : str "__execute_event__=" ++ id = str "__execute_event__" ++ 61 :: id := by
        have : str "__execute_event__=" = str "__execute_event__" ++ [61] := by decide
        rw [this]; simp
      rw [this]
      exact cut_append_sep 61 _ _ (by decide)
    have hk : unescape true (str "__execute_event__") = some (str "__execute_event__") := by
      decide
    have hv : unescape true id = some id :=
      unescape_of_plain true id (fun c hc => ⟨(hid c hc).2.2.1, (hid c hc).2.2.2⟩)
    have hne : str "__execute_event__=" ++ id ≠ [] := by
      have : (str "__execute_event__=") = 95 :: (str "__execute_event__=").tail := by decide
      rw [this]; simp
    simp [URL.Query, hu, splitOn_of_not_mem 38 _ hamp, parseQueryPiece, hsemi, hne, hcut, hk, hv]
  exact ⟨key _ rfl, key⟩

/-- C4, as amended. Let the URL and the event identifier hold no line feed.
Whenever `BuildEventFuncRequest` returns a request, its method is `POST`, its
target string is exactly the URL (or `/` when no URL or the empty string was
set), then `?__execute_event__=`, then the event identifier, its only header is
`Content-Type` with the content type that `Build` returned (`Build` is called
on the builder with the field `__event_data__` added), which names the boundary
drawn for the body, and its body is the stream that `Build` returned. It
returns a request when the URL is empty or starts with a slash and holds no
space, control byte, question mark or percent sign and the identifier holds no
space or control byte; when the URL or the identifier holds a space, the call
of `httptest.NewRequest` panics and no request is returned. (With a line feed
in the target, and for a URL of the form `scheme://...`, the model of
`httptest.NewRequest` gives `beyond` and nothing is stated.) -/
theorem BuildEventFuncRequest_request (b : Builder) (rnd : Fin 30 → UInt8) (room : Option Nat)
    (fs : FileSystem)
    (hlfu : (10 : UInt8) ∉ b.pageURL) (hlfi : (10 : UInt8) ∉ b.eb.EventFuncID.ID) :
    (∀ r : Request, (b.BuildEventFuncRequest rnd room fs).1 = .ok r →
      r.Method = str "POST" ∧
      r.RequestURI = (if b.pageURL.length = 0 then str "/" else b.pageURL) ++
        str "?__execute_event__=" ++ b.eb.EventFuncID.ID ∧
      r.Header = [(str "Content-Type",
        ((b.AddField (str "__event_data__") (marshalEventBody b.eb)).Build rnd room
          fs).contentType)] ∧
      r.Header =
        [(str "Content-Type", str "multipart/form-data; boundary=" ++ randomBoundary rnd)] ∧
      r.Body = ((b.AddField (str "__event_data__") (marshalEventBody b.eb)).Build rnd room
        fs).body) ∧
    ((b.pageURL = [] ∨ b.pageURL.head? = some 47) →
      (∀ c ∈ b.pageURL, 32 < c ∧ c ≠ 127 ∧ c ≠ 63 ∧ c ≠ 37) →
      (∀ c ∈ b.eb.EventFuncID.ID, 32 < c ∧ c ≠ 127) →
      ∃ r : Request, (b.BuildEventFuncRequest rnd room fs).1 = .ok r) ∧
    ((32 : UInt8) ∈ b.pageURL ∨ (32 : UInt8) ∈ b.eb.EventFuncID.ID →
      (b.BuildEventFuncRequest rnd room fs).1 = .fail) := by
  refine ⟨?_, ?_, ?_⟩
  · intro r hr
    obtain ⟨u, _, rfl⟩ := BuildEventFuncRequest_eq_ok b rnd room fs r hr
    refine ⟨rfl, rfl, rfl, ?_, rfl⟩
    simp only [Builder.Build, NewWriter_contentType]
  · intro hhead hurl hid
    have hp := target_origin_form b.pageURL b.eb.EventFuncID.ID hhead hurl hid
    exact ⟨_, BuildEventFuncRequest_of_origin_form b rnd room fs _
      (target_gt_space _ _ (fun c hc => (hurl c hc).1) (fun c hc => (hid c hc).1)) hp⟩
  · intro h
    rw [BuildEventFuncRequest_eq]
    have hlf : (10 : UInt8) ∉ (if b.pageURL.length = 0 then str "/" else b.pageURL) ++
        str "?__execute_event__=" ++ b.eb.EventFuncID.ID := by
      intro hmem
      rcases List.mem_append.1 hmem with h1 | h1
      · rcases List.mem_append.1 h1 with h2 | h2
        · split at h2
          · revert h2; decide
          · exact hlfu h2
        · revert h2; decide
      · exact hlfi h1
    rw [NewRequest_of_space _ _ _ hlf]
    rcases h with h | h
    · have hne : b.pageURL.length ≠ 0 := by
        intro h0
        rw [List.length_eq_zero] at h0
        rw [h0] at h
        simp at h
      simp [hne, h]
    · simp [h]

set_option maxRecDepth 100000 in
/-- C4 as stated fails at an event identifier with a space: the call of
`httptest.NewRequest` panics, no request is returned. -/
theorem BuildEventFuncRequest_space_in_id_panics :
    ((NewMultipartBuilder.EventFunc (str "a b") []).BuildEventFuncRequest
      sampleRnd none noFiles).1 = .fail := by
  decide

set_option maxRecDepth 100000 in
/-- C4 at a concrete input: URL `/page`, event function `save`. -/
theorem BuildEventFuncRequest_request_witness :
    ∃ r : Request,
      (((NewMultipartBuilder.PageURL (str "/page")).EventFunc (str "save")
        [str "x", str "y"]).BuildEventFuncRequest sampleRnd none noFiles).1 = .ok r ∧
      r.Method = str "POST" ∧ r.RequestURI = str "/page?__execute_event__=save" ∧
      r.Header = [(str "Content-Type", str ("multipart/form-data; " ++
        "boundary=000102030405060708090a0b0c0d0e0f101112131415161718191a1b1c1d"))] := by
  obtain ⟨r, hr⟩ := (BuildEventFuncRequest_request
    ((NewMultipartBuilder.PageURL (str "/page")).EventFunc (str "save") [str "x", str "y"])
    sampleRnd none noFiles (by decide) (by decide)).2.1 (by decide) (by decide) (by decide)
  have h := (BuildEventFuncRequest_request
    ((NewMultipartBuilder.PageURL (str "/page")).EventFunc (str "save") [str "x", str "y"])
    sampleRnd none noFiles (by decide) (by decide)).1 r hr
  exact ⟨r, hr, h.1, h.2.1, h.2.2.2.1⟩

/-- C5, as amended. When the page URL is empty or starts with a slash and holds
no space, control byte, question mark or percent sign, and the event identifier
holds no space, control byte, ampersand, semicolon, percent sign or plus sign,
`BuildEventFuncRequest` returns a request whose parsed target has the path
equal to the URL (`/` for the empty URL) and a query with the one parameter
`__execute_event__`, equal to the identifier. -/
theorem BuildEventFuncRequest_path_and_query (b : Builder) (rnd : Fin 30 → UInt8)
    (room : Option Nat) (fs : FileSystem)
    (hhead : b.pageURL = [] ∨ b.pageURL.head? = some 47)
    (hurl : ∀ c ∈ b.pageURL, 32 < c ∧ c ≠ 127 ∧ c ≠ 63 ∧ c ≠ 37)
    (hid : ∀ c ∈ b.eb.EventFuncID.ID, 32 < c ∧ c ≠ 127 ∧ c ≠ 38 ∧ c ≠ 59 ∧ c ≠ 37 ∧ c ≠ 43) :
    ∃ r : Request, (b.BuildEventFuncRequest rnd room fs).1 = .ok r ∧
      r.URL.Path = (if b.pageURL.length = 0 then str "/" else b.pageURL) ∧
      r.URL.Query = [(str "__execute_event__", b.eb.EventFuncID.ID)] ∧
      valuesGet r.URL.Query (str "__execute_event__") = b.eb.EventFuncID.ID := by
  have hp := target_origin_form b.pageURL b.eb.EventFuncID.ID hhead hurl
    (fun c hc => ⟨(hid c hc).1, (hid c hc).2.1⟩)
  have h1 := BuildEventFuncRequest_of_origin_form b rnd room fs _
    (target_gt_space _ _ (fun c hc => (hurl c hc).1) (fun c hc => (hid c hc).1)) hp
  refine ⟨_, h1, rfl, ?_, ?_⟩
  · exact (query_of_event_id b.eb.EventFuncID.ID
      (fun c hc => ⟨(hid c hc).2.2.1, (hid c hc).2.2.2.1, (hid c hc).2.2.2.2.1,
        (hid c hc).2.2.2.2.2⟩)).2 _ rfl
  · rw [(query_of_event_id b.eb.EventFuncID.ID
      (fun c hc => ⟨(hid c hc).2.2.1, (hid c hc).2.2.2.1, (hid c hc).2.2.2.2.1,
        (hid c hc).2.2.2.2.2⟩)).2 _ rfl]
    simp [valuesGet]

set_option maxRecDepth 100000 in
/-- C5 as stated fails at an event identifier with an ampersand: for the
identifier `a&b` the parsed query has `__execute_event__` equal to `a`. -/
theorem BuildEventFuncRequest_ampersand_in_id_cuts_value :
    ∃ r : Request,
      ((NewMultipartBuilder.EventFunc (str "a&b") []).BuildEventFuncRequest
        sampleRnd none noFiles).1 = .ok r ∧
      r.URL.Path = str "/" ∧
      valuesGet r.URL.Query (str "__execute_event__") = str "a" ∧ str "a" ≠ str "a&b" := by
  refine ⟨_, BuildEventFuncRequest_of_origin_form
    (NewMultipartBuilder.EventFunc (str "a&b") []) sampleRnd none noFiles
    { Scheme := [], Opaque := [], Path := str "/", ForceQuery := false,
      RawQuery := str "__execute_event__=a&b" } (by decide) (by decide), ?_, ?_, ?_⟩ <;> decide

set_option maxRecDepth 100000 in
/-- C5 at the input of the spec: identifier `save`, no URL: path `/` and
`__execute_event__` equal to `save`. -/
theorem BuildEventFuncRequest_path_and_query_witness :
    ∃ r : Request,
      ((NewMultipartBuilder.EventFunc (str "save") [str "x", str "y"]).BuildEventFuncRequest
        sampleRnd none noFiles).1 = .ok r ∧
      r.URL.Path = str "/" ∧
      valuesGet r.URL.Query (str "__execute_event__") = str "save" := by
  obtain ⟨r, hr, hp, _, hq⟩ := BuildEventFuncRequest_path_and_query
    (NewMultipartBuilder.EventFunc (str "save") [str "x", str "y"]) sampleRnd none noFiles
    (by decide) (by decide) (by decide)
  exact ⟨r, hr, hp, hq⟩

/-! ## Parsing the content type and the disposition -/

theorem not_isSpace_of_isTokenChar (c : UInt8) (h : isTokenChar c = true) : isSpace c = false := by
  simp only [isTokenChar, isSpace, decide_eq_true_eq, Bool.decide_and, Bool.and_eq_true,
    byte_lt_iff, byte_le_iff] at h ⊢
  have e1 : (32 : UInt8).toNat = 32 := rfl
  have e2 : (13 : UInt8).toNat = 13 := rfl
  have e3 : (9 : UInt8).toNat = 9 := rfl
  rw [e1] at h
  simp only [decide_eq_false_iff_not, not_or, not_and, e2, e3]
  refine ⟨?_, by omega⟩
  intro hc
  rw [hc] at h
  omega

theorem consumeToken_stop (key rest : Bytes) (c : UInt8)
    (hk : ∀ x ∈ key, isTokenChar x = true) (hc : isTokenChar c = false) :
    consumeToken (key ++ c :: rest) = (key, c :: rest) := by
  unfold consumeToken
  rw [List.takeWhile_append_of_pos hk, List.dropWhile_append_of_pos hk,
    List.takeWhile_cons_of_neg (by simp [hc]), List.dropWhile_cons_of_neg (by simp [hc])]
  simp

theorem consumeToken_all (key : Bytes) (hk : ∀ x ∈ key, isTokenChar x = true) :
    consumeToken key = (key, []) := by
  unfold consumeToken
  rw [List.takeWhile_eq_self_iff.2 hk, List.dropWhile_eq_nil_iff.2 hk]

theorem dropWhile_isSpace_of_token (key rest : Bytes) (hk : ∀ x ∈ key, isTokenChar x = true)
    (hne : key ≠ []) : (key ++ rest).dropWhile isSpace = key ++ rest := by
  cases key with
  | nil => exact absurd rfl hne
  | cons k ks =>
    have := not_isSpace_of_isTokenChar k (hk k (by simp))
    rw [List.cons_append, List.dropWhile_cons_of_neg (by simp [this])]

/-- One parameter `; key=value` whose key is a lower-case token and whose value
is read by `consumeValue`. -/
theorem consumeMediaParam_key (key v value rest : Bytes)
    (hk : ∀ x ∈ key, isTokenChar x = true) (hne : key ≠ [])
    (hlow : key.map toLowerByte = key) (hv : v.dropWhile isSpace = v)
    (hcv : consumeValue v = (value, rest)) (hok : ¬ (value = [] ∧ rest = v)) :
    consumeMediaParam (59 :: 32 :: (key ++ 61 :: v)) = some (key, value, rest) := by
  unfold consumeMediaParam
  have h1 : (59 :: 32 :: (key ++ 61 :: v)).dropWhile isSpace = 59 :: 32 :: (key ++ 61 :: v) :=
    List.dropWhile_cons_of_neg (by decide)
  have h2 : (32 :: (key ++ 61 :: v)).dropWhile isSpace = key ++ 61 :: v := by
    rw [List.dropWhile_cons_of_pos (by decide)]
    exact dropWhile_isSpace_of_token key _ hk hne
  have h3 : consumeToken (key ++ 61 :: v) = (key, 61 :: v) :=
    consumeToken_stop key v 61 hk (by decide)
  have h4 : (61 :: v).dropWhile isSpace = 61 :: v := List.dropWhile_cons_of_neg (by decide)
  simp only [h1, h2, h3, hlow, h4, hv, hcv]
  simp [hne, hok]

theorem consumeQuoted_cons_plain (c : UInt8) (s : Bytes) (hs : s ≠ [])
    (h1 : c ≠ 34) (h2 : c ≠ 92) (h3 : c ≠ 13) (h4 : c ≠ 10) :
    consumeQuoted (c :: s) = (consumeQuoted s).map (fun p => (c :: p.1, p.2)) := by
  cases s with
  | nil => exact absurd rfl hs
  | cons e rest2 => simp [consumeQuoted, h1, h2, h3, h4]

theorem consumeQuoted_cons_escape (e : UInt8) (s : Bytes) (he : isTSpecial e = true) :
    consumeQuoted (92 :: e :: s) = (consumeQuoted s).map (fun p => (e :: p.1, p.2)) := by
  simp [consumeQuoted, he]

theorem consumeQuoted_escapeQuotes (name rest : Bytes) (h : ∀ c ∈ name, c ≠ 13 ∧ c ≠ 10) :
    consumeQuoted (escapeQuotes name ++ 34 :: rest) = some (name, rest) := by
  induction name with
  | nil =>
    cases rest with
    | nil => simp [escapeQuotes, consumeQuoted]
    | cons r rs => simp [escapeQuotes, consumeQuoted]
  | cons c cs ih =>
    have hc := h c (by simp)
    have ih' := ih (fun d hd => h d (by simp [hd]))
    unfold escapeQuotes
    by_cases h92 : c = 92
    · subst h92
      simp only [if_true, List.cons_append, List.nil_append]
      rw [consumeQuoted_cons_escape 92 _ (by decide), ih']
      rfl
    · by_cases h34 : c = 34
      · subst h34
        simp only [h92, if_false, if_true, List.cons_append, List.nil_append]
        rw [consumeQuoted_cons_escape 34 _ (by decide), ih']
        rfl
      · simp only [h92, h34, hc.1, hc.2, if_false, List.cons_append, List.nil_append]
        rw [consumeQuoted_cons_plain c _ (by simp) h34 h92 hc.1 hc.2, ih']
        rfl

theorem consumeValue_quoted (name rest : Bytes) (h : ∀ c ∈ name, c ≠ 13 ∧ c ≠ 10) :
    consumeValue (34 :: (escapeQuotes name ++ 34 :: rest)) = (name, rest) := by
  simp [consumeValue, consumeQuoted_escapeQuotes name rest h]

theorem consumeValue_token (b : Bytes) (hb : ∀ x ∈ b, isTokenChar x = true) (hne : b ≠ []) :
    consumeValue b = (b, []) := by
  cases b with
  | nil => exact absurd rfl hne
  | cons c cs =>
    have hc : c ≠ 34 := by
      intro e
      have := hb c (by simp)
      rw [e] at this
      revert this
      decide
    simp only [consumeValue, hc, ne_eq, not_false_eq_true, if_true]
    exact consumeToken_all _ hb

theorem validHeaderValueByte_not_crlf (c : UInt8) (h : validHeaderValueByte c = true) :
    c ≠ 13 ∧ c ≠ 10 := by
  constructor <;> (intro e; rw [e] at h; revert h; decide)

theorem parseMediaParams_nil (fuel : Nat) (params : List (Bytes × Bytes)) :
    parseMediaParams (fuel + 1) params [] = some params := by
  simp [parseMediaParams]

theorem parseMediaParams_step (fuel : Nat) (params : List (Bytes × Bytes))
    (v key value rest : Bytes) (hv : v.dropWhile isSpace = v) (hne : v ≠ [])
    (hp : consumeMediaParam v = some (key, value, rest)) (hstar : key.contains 42 = false)
    (hnew : params.find? (fun kv => kv.1 = key) = none) :
    parseMediaParams (fuel + 1) params v =
      parseMediaParams fuel (params ++ [(key, value)]) rest := by
  simp only [parseMediaParams, hv, hne, if_false, hp, hstar, hnew]
  simp

theorem str_form_data_name :
    str "form-data; name=\"" = str "form-data" ++ 59 :: 32 :: (str "name" ++ 61 :: [34]) := by
  decide

theorem str_filename :
    str "\"; filename=\"" = 34 :: 59 :: 32 :: (str "filename" ++ 61 :: [34]) := by
  decide

theorem str_content_type :
    str "multipart/form-data; boundary=" =
      str "multipart/form-data" ++ 59 :: 32 :: (str "boundary" ++ [61]) := by
  decide

/-- The content type that `FormDataContentType` gives for a hexadecimal
boundary parses to `multipart/form-data` with that boundary. -/
theorem parseMediaType_contentType (b : Bytes) (hb : ∀ c ∈ b, isHexChar c) (hne : b ≠ []) :
    parseMediaType (str "multipart/form-data; boundary=" ++ b) =
      some (str "multipart/form-data", [(str "boundary", b)]) := by
  have htok : ∀ x ∈ b, isTokenChar x = true := fun x hx => (isHexChar_facts x (hb x hx)).1
  have e : str "multipart/form-data; boundary=" ++ b =
      str "multipart/form-data" ++ 59 :: (32 :: (str "boundary" ++ 61 :: b)) := by
    rw [str_content_type]; simp
  rw [e]
  unfold parseMediaType
  have hcut : cut 59 (str "multipart/form-data" ++ 59 :: (32 :: (str "boundary" ++ 61 :: b))) =
      (str "multipart/form-data", 32 :: (str "boundary" ++ 61 :: b), true) :=
    cut_append_sep 59 _ _ (by decide)
  have hparam : consumeMediaParam (59 :: 32 :: (str "boundary" ++ 61 :: b)) =
      some (str "boundary", b, []) :=
    consumeMediaParam_key (str "boundary") b b [] (by decide) (by decide) (by decide)
      (by
        obtain ⟨c, cs, rfl⟩ : ∃ c cs, b = c :: cs := by
          cases b with
          | nil => exact absurd rfl hne
          | cons c cs => exact ⟨c, cs, rfl⟩
        exact List.dropWhile_cons_of_neg (by
          simp [not_isSpace_of_isTokenChar c (htok c (by simp))]))
      (consumeValue_token b htok hne) (by simp [hne])
  have hlen : ∃ f, (str "multipart/form-data" ++ 59 :: (32 :: (str "boundary" ++ 61 :: b))).length
      + 1 = f + 2 := ⟨_, rfl⟩
  obtain ⟨f, hf⟩ := hlen
  simp only [hcut, List.drop_left, hf]
  rw [parseMediaParams_step (f + 1) [] _ _ _ _ (List.dropWhile_cons_of_neg (by decide))
    (by simp) hparam (by decide) (by simp), parseMediaParams_nil]
  have h1 : trimSpace ((str "multipart/form-data").map toLowerByte) = str "multipart/form-data" := by
    decide
  have h2 : checkMediaTypeDisposition (str "multipart/form-data") = true := by decide
  simp [h1, h2]

theorem headerSafe_not_crlf (name : Bytes) (h : headerSafe name) :
    ∀ c ∈ name, c ≠ 13 ∧ c ≠ 10 :=
  fun c hc => validHeaderValueByte_not_crlf c (h c hc)

theorem consumeMediaParam_quoted (key name rest : Bytes)
    (hk : ∀ x ∈ key, isTokenChar x = true) (hne : key ≠ [])
    (hlow : key.map toLowerByte = key) (hs : headerSafe name) :
    consumeMediaParam (59 :: 32 :: (key ++ 61 :: 34 :: (escapeQuotes name ++ 34 :: rest))) =
      some (key, name, rest) := by
  apply consumeMediaParam_key key _ name rest hk hne hlow
    (List.dropWhile_cons_of_neg (by decide))
    (consumeValue_quoted name rest (headerSafe_not_crlf name hs))
  rintro ⟨-, h⟩
  have := congrArg List.length h
  simp at this
  omega

/-- The disposition of a form field parses to `form-data` with the name. -/
theorem parseMediaType_field (name : Bytes) (hs : headerSafe name) :
    parseMediaType (str "form-data; name=\"" ++ escapeQuotes name ++ str "\"") =
      some (str "form-data", [(str "name", name)]) := by
  have e : str "form-data; name=\"" ++ escapeQuotes name ++ str "\"" =
      str "form-data" ++ 59 :: (32 :: (str "name" ++ 61 :: 34 :: (escapeQuotes name ++ 34 :: []))) := by
    have : str "\"" = [34] := by decide
    rw [str_form_data_name, this]; simp
  rw [e]
  unfold parseMediaType
  have hcut : cut 59 (str "form-data" ++
      59 :: (32 :: (str "name" ++ 61 :: 34 :: (escapeQuotes name ++ 34 :: [])))) =
      (str "form-data", 32 :: (str "name" ++ 61 :: 34 :: (escapeQuotes name ++ 34 :: [])), true) :=
    cut_append_sep 59 _ _ (by decide)
  have hparam := consumeMediaParam_quoted (str "name") name [] (by decide) (by decide)
    (by decide) hs
  obtain ⟨f, hf⟩ : ∃ f, (str "form-data" ++
      59 :: (32 :: (str "name" ++ 61 :: 34 :: (escapeQuotes name ++ 34 :: [])))).length
      + 1 = f + 2 := ⟨_, rfl⟩
  simp only [hcut, List.drop_left, hf]
  rw [parseMediaParams_step (f + 1) [] _ _ _ _ (List.dropWhile_cons_of_neg (by decide))
    (by simp) hparam (by decide) (by simp), parseMediaParams_nil]
  have h1 : trimSpace ((str "form-data").map toLowerByte) = str "form-data" := by decide
  have h2 : checkMediaTypeDisposition (str "form-data") = true := by decide
  simp [h1, h2]

/-- The disposition of a file parses to `form-data` with the name and the file
name. -/
theorem parseMediaType_file (name filename : Bytes) (hs : headerSafe name)
    (hf : headerSafe filename) :
    parseMediaType (str "form-data; name=\"" ++ escapeQuotes name ++ str "\"; filename=\"" ++
        escapeQuotes filename ++ str "\"") =
      some (str "form-data", [(str "name", name), (str "filename", filename)]) := by
  have e : str "form-data; name=\"" ++ escapeQuotes name ++ str "\"; filename=\"" ++
        escapeQuotes filename ++ str "\"" =
      str "form-data" ++ 59 :: (32 :: (str "name" ++ 61 :: 34 :: (escapeQuotes name ++ 34 ::
        (59 :: 32 :: (str "filename" ++ 61 :: 34 :: (escapeQuotes filename ++ 34 :: [])))))) := by
    have : str "\"" = [34] := by decide
    rw [str_form_data_name, str_filename, this]; simp
  rw [e]
  unfold parseMediaType
  have hcut : cut 59 (str "form-data" ++ 59 :: (32 :: (str "name" ++ 61 :: 34 ::
      (escapeQuotes name ++ 34 ::
        (59 :: 32 :: (str "filename" ++ 61 :: 34 :: (escapeQuotes filename ++ 34 :: []))))))) =
      (str "form-data", 32 :: (str "name" ++ 61 :: 34 :: (escapeQuotes name ++ 34 ::
        (59 :: 32 :: (str "filename" ++ 61 :: 34 :: (escapeQuotes filename ++ 34 :: []))))),
        true) :=
    cut_append_sep 59 _ _ (by decide)
  have hparam1 := consumeMediaParam_quoted (str "name") name
    (59 :: 32 :: (str "filename" ++ 61 :: 34 :: (escapeQuotes filename ++ 34 :: [])))
    (by decide) (by decide) (by decide) hs
  have hparam2 := consumeMediaParam_quoted (str "filename") filename [] (by decide) (by decide)
    (by decide) hf
  obtain ⟨f, hfuel⟩ : ∃ f, (str "form-data" ++ 59 :: (32 :: (str "name" ++ 61 :: 34 ::
      (escapeQuotes name ++ 34 ::
        (59 :: 32 :: (str "filename" ++ 61 :: 34 :: (escapeQuotes filename ++ 34 :: []))))))).length
      + 1 = f + 3 := by
    refine ⟨(escapeQuotes name ++ 34 ::
        (59 :: 32 :: (str "filename" ++ 61 :: 34 :: (escapeQuotes filename ++ 34 :: [])))).length +
        ((str "form-data").length + (str "name").length + 2), ?_⟩
    simp only [List.length_append, List.length_cons]
    omega
  simp only [hcut, List.drop_left, hfuel]
  rw [parseMediaParams_step (f + 2) [] _ _ _ _ (List.dropWhile_cons_of_neg (by decide))
    (by simp) hparam1 (by decide) (by simp)]
  rw [parseMediaParams_step (f + 1) _ _ _ _ _ (List.dropWhile_cons_of_neg (by decide))
    (by simp) hparam2 (by decide) (by
      have : ¬ (str "name" = str "filename") := by decide
      simp [this]), parseMediaParams_nil]
  have h1 : trimSpace ((str "form-data").map toLowerByte) = str "form-data" := by decide
  have h2 : checkMediaTypeDisposition (str "form-data") = true := by decide
  simp [h1, h2]

/-! ## Reading the header of a part -/

theorem escapeQuotes_no_lf (name : Bytes) (hn : (10 : UInt8) ∉ name) :
    (10 : UInt8) ∉ escapeQuotes name := by
  induction name with
  | nil => simp [escapeQuotes]
  | cons c cs ih =>
    have hc : c ≠ 10 := fun e => hn (by simp [e])
    have hcs : (10 : UInt8) ∉ cs := fun e => hn (by simp [e])
    unfold escapeQuotes
    intro h
    rcases List.mem_append.1 h with h | h
    · split at h
      · revert h; decide
      · split at h
        · revert h; decide
        · split at h
          · revert h; decide
          · simp at h
            exact hc h.symm
    · exact ih hcs h

theorem escapeQuotes_valid (name : Bytes) (hs : headerSafe name) :
    ∀ c ∈ escapeQuotes name, validHeaderValueByte c = true := by
  induction name with
  | nil => simp [escapeQuotes]
  | cons c cs ih =>
    have hc := hs c (by simp)
    have ih' := ih (fun d hd => hs d (by simp [hd]))
    unfold escapeQuotes
    intro d hd
    rcases List.mem_append.1 hd with h | h
    · split at h
      · have hk : ∀ x ∈ ([92, 92] : Bytes), validHeaderValueByte x = true := by decide
        exact hk d h
      · split at h
        · have hk : ∀ x ∈ ([92, 34] : Bytes), validHeaderValueByte x = true := by decide
          exact hk d h
        · split at h
          · have hk : ∀ x ∈ str "%0D", validHeaderValueByte x = true := by decide
            exact hk d h
          · split at h
            · have hk : ∀ x ∈ str "%0A", validHeaderValueByte x = true := by decide
              exact hk d h
            · simp at h
              rw [h]; exact hc
    · exact ih' d h

theorem headerSafe_no_lf (name : Bytes) (hs : headerSafe name) : (10 : UInt8) ∉ name :=
  fun h => (validHeaderValueByte_not_crlf 10 (hs 10 h)).2 rfl

theorem readLine_crlf (line rest : Bytes) (h : (10 : UInt8) ∉ line) :
    readLine (line ++ 13 :: 10 :: rest) = some (line, rest) := by
  have e : line ++ 13 :: 10 :: rest = (line ++ [13]) ++ 10 :: rest := by simp
  have hcut : cut 10 ((line ++ [13]) ++ 10 :: rest) = (line ++ [13], rest, true) :=
    cut_append_sep 10 _ _ (by simp [h])
  rw [e]
  simp only [readLine, hcut, List.getLast?_concat, if_true, List.dropLast_concat]

theorem trimLWSP_id (s : Bytes) (h1 : s.head? ≠ some 32 ∧ s.head? ≠ some 9)
    (h2 : s.getLast? ≠ some 32 ∧ s.getLast? ≠ some 9) : trimLWSP s = s := by
  unfold trimLWSP
  have hd : ∀ t : Bytes, (t.head? ≠ some 32 ∧ t.head? ≠ some 9) →
      t.dropWhile (fun c => decide (c = 32 ∨ c = 9)) = t := by
    intro t ht
    cases t with
    | nil => rfl
    | cons c cs =>
      simp at ht
      exact List.dropWhile_cons_of_neg (by simp [ht.1, ht.2])
  rw [hd s h1, hd s.reverse (by simpa using h2), List.reverse_reverse]

theorem readMIMEHeader_blank (fuel : Nat) (rest : Bytes) :
    readMIMEHeader (fuel + 1) (13 :: 10 :: rest) = some ([], rest) := by
  have := readLine_crlf [] rest (by simp)
  simp only [List.nil_append] at this
  simp [readMIMEHeader, this]

/-- One header line `key: value` with a canonical key and a value without
leading or trailing blank. -/
theorem readMIMEHeader_line (fuel : Nat) (key value rest : Bytes)
    (hkey : canonicalMIMEHeaderKey key = some key) (hcolon : (58 : UInt8) ∉ key)
    (hklf : (10 : UInt8) ∉ key) (hkhead : key.head? ≠ some 32 ∧ key.head? ≠ some 9)
    (hkne : key ≠ [])
    (hvlf : (10 : UInt8) ∉ value) (hvalid : ∀ c ∈ value, validHeaderValueByte c = true)
    (hvne : value ≠ [])
    (hvhead : value.head? ≠ some 32 ∧ value.head? ≠ some 9)
    (hvlast : value.getLast? ≠ some 32 ∧ value.getLast? ≠ some 9) :
    readMIMEHeader (fuel + 1) (key ++ 58 :: 32 :: value ++ 13 :: 10 :: rest) =
      (readMIMEHeader fuel rest).map (fun p => ((key, value) :: p.1, p.2)) := by
  have hline : (10 : UInt8) ∉ key ++ 58 :: 32 :: value := by simp [hklf, hvlf]
  have hrl := readLine_crlf (key ++ 58 :: 32 :: value) rest hline
  have hhead : (key ++ 58 :: 32 :: value).head? = key.head? := by
    cases key with
    | nil => exact absurd rfl hkne
    | cons k ks => rfl
  have hlast : (key ++ 58 :: 32 :: value).getLast? = value.getLast? := by
    obtain ⟨v, vs, rfl⟩ : ∃ v vs, value = v :: vs := by
      cases value with
      | nil => exact absurd rfl hvne
      | cons v vs => exact ⟨v, vs, rfl⟩
    rw [List.getLast?_append, List.getLast?_cons_cons, List.getLast?_cons_cons]
    cases hl : (v :: vs).getLast? with
    | none => simp at hl
    | some d => simp
  have htrim : trimLWSP (key ++ 58 :: 32 :: value) = key ++ 58 :: 32 :: value :=
    trimLWSP_id _ (by rw [hhead]; exact hkhead) (by rw [hlast]; exact hvlast)
  have hcut : cut 58 (key ++ 58 :: 32 :: value) = (key, 32 :: value, true) :=
    cut_append_sep 58 _ _ hcolon
  have hne : key ++ 58 :: 32 :: value ≠ [] := by simp
  have hall : (32 :: value).all validHeaderValueByte = true := by
    rw [List.all_eq_true]
    intro c hc
    rcases List.mem_cons.1 hc with h | h
    · subst h; decide
    · exact hvalid c h
  have hdrop : (32 :: value).dropWhile (fun c => decide (c = 32 ∨ c = 9)) = value := by
    rw [List.dropWhile_cons_of_pos (by decide)]
    obtain ⟨v, vs, rfl⟩ : ∃ v vs, value = v :: vs := by
      cases value with
      | nil => exact absurd rfl hvne
      | cons v vs => exact ⟨v, vs, rfl⟩
    simp at hvhead
    exact List.dropWhile_cons_of_neg (by simp [hvhead.1, hvhead.2])
  have e : key ++ 58 :: 32 :: value ++ 13 :: 10 :: rest =
      (key ++ 58 :: 32 :: value) ++ 13 :: 10 :: rest := by simp
  rw [e]
  simp only [readMIMEHeader, hrl, hne, if_false, hhead, htrim, hcut, hkey, hall, hdrop]
  simp only [hkhead.1, hkhead.2, or_self, if_false, not_true_eq_false]
  cases readMIMEHeader fuel rest <;> simp

theorem headerLines_cons_append (k v : Bytes) (r : List (Bytes × Bytes)) (tail : Bytes) :
    headerLines ((k, v) :: r) ++ tail = k ++ 58 :: 32 :: v ++ 13 :: 10 :: (headerLines r ++ tail) := by
  have h1 : str ": " = [58, 32] := by decide
  have h2 : str "\r\n" = [13, 10] := by decide
  simp [headerLines, h1, h2]

theorem headerLines_nil_append (tail : Bytes) : headerLines [] ++ tail = 13 :: 10 :: tail := by
  have h2 : str "\r\n" = [13, 10] := by decide
  simp [headerLines, h2]

theorem getLast?_append_quote (s : Bytes) : (s ++ str "\"").getLast? = some 34 := by
  have : str "\"" = [34] := by decide
  rw [this, List.getLast?_concat]

theorem head?_str_append (a : UInt8) (as : Bytes) (s t : Bytes) (h : s = a :: as) :
    (s ++ t).head? = some a := by
  rw [h]; rfl

/-- The disposition value of a field: what `readMIMEHeader_line` asks of it. -/
theorem fieldDisposition_ok (name : Bytes) (hs : headerSafe name) :
    (10 : UInt8) ∉ str "form-data; name=\"" ++ escapeQuotes name ++ str "\"" ∧
    (∀ c ∈ str "form-data; name=\"" ++ escapeQuotes name ++ str "\"",
      validHeaderValueByte c = true) ∧
    str "form-data; name=\"" ++ escapeQuotes name ++ str "\"" ≠ [] ∧
    (str "form-data; name=\"" ++ escapeQuotes name ++ str "\"").head? = some 102 ∧
    (str "form-data; name=\"" ++ escapeQuotes name ++ str "\"").getLast? = some 34 := by
  have hlit1 : ∀ c ∈ str "form-data; name=\"", validHeaderValueByte c = true ∧ c ≠ 10 := by
    decide
  have hlit2 : ∀ c ∈ str "\"", validHeaderValueByte c = true ∧ c ≠ 10 := by decide
  refine ⟨?_, ?_, ?_, ?_, getLast?_append_quote _⟩
  · intro h
    rcases List.mem_append.1 h with h | h
    · rcases List.mem_append.1 h with h | h
      · exact (hlit1 10 h).2 rfl
      · exact escapeQuotes_no_lf name (headerSafe_no_lf name hs) h
    · exact (hlit2 10 h).2 rfl
  · intro c hc
    rcases List.mem_append.1 hc with h | h
    · rcases List.mem_append.1 h with h | h
      · exact (hlit1 c h).1
      · exact escapeQuotes_valid name hs c h
    · exact (hlit2 c h).1
  · have : str "form-data; name=\"" = 102 :: (str "form-data; name=\"").tail := by decide
    rw [this]; simp
  · rw [List.append_assoc]
    exact head?_str_append 102 (str "form-data; name=\"").tail _ _ (by decide)

/-- The disposition value of a file: what `readMIMEHeader_line` asks of it. -/
theorem fileDisposition_ok (name filename : Bytes) (hs : headerSafe name)
    (hf : headerSafe filename) :
    (10 : UInt8) ∉ str "form-data; name=\"" ++ escapeQuotes name ++ str "\"; filename=\"" ++
        escapeQuotes filename ++ str "\"" ∧
    (∀ c ∈ str "form-data; name=\"" ++ escapeQuotes name ++ str "\"; filename=\"" ++
        escapeQuotes filename ++ str "\"", validHeaderValueByte c = true) ∧
    str "form-data; name=\"" ++ escapeQuotes name ++ str "\"; filename=\"" ++
        escapeQuotes filename ++ str "\"" ≠ [] ∧
    (str "form-data; name=\"" ++ escapeQuotes name ++ str "\"; filename=\"" ++
        escapeQuotes filename ++ str "\"").head? = some 102 ∧
    (str "form-data; name=\"" ++ escapeQuotes name ++ str "\"; filename=\"" ++
        escapeQuotes filename ++ str "\"").getLast? = some 34 := by
  have hlit1 : ∀ c ∈ str "form-data; name=\"", validHeaderValueByte c = true ∧ c ≠ 10 := by
    decide
  have hlit2 : ∀ c ∈ str "\"", validHeaderValueByte c = true ∧ c ≠ 10 := by decide
  have hlit3 : ∀ c ∈ str "\"; filename=\"", validHeaderValueByte c = true ∧ c ≠ 10 := by decide
  refine ⟨?_, ?_, ?_, ?_, getLast?_append_quote _⟩
  · intro h
    rcases List.mem_append.1 h with h | h
    · rcases List.mem_append.1 h with h | h
      · rcases List.mem_append.1 h with h | h
        · rcases List.mem_append.1 h with h | h
          · exact (hlit1 10 h).2 rfl
          · exact escapeQuotes_no_lf name (headerSafe_no_lf name hs) h
        · exact (hlit3 10 h).2 rfl
      · exact escapeQuotes_no_lf filename (headerSafe_no_lf filename hf) h
    · exact (hlit2 10 h).2 rfl
  · intro c hc
    rcases List.mem_append.1 hc with h | h
    · rcases List.mem_append.1 h with h | h
      · rcases List.mem_append.1 h with h | h
        · rcases List.mem_append.1 h with h | h
          · exact (hlit1 c h).1
          · exact escapeQuotes_valid name hs c h
        · exact (hlit3 c h).1
      · exact escapeQuotes_valid filename hf c h
    · exact (hlit2 c h).1
  · have : str "form-data; name=\"" = 102 :: (str "form-data; name=\"").tail := by decide
    rw [this]; simp
  · rw [List.append_assoc, List.append_assoc, List.append_assoc]
    exact head?_str_append 102 (str "form-data; name=\"").tail _ _ (by decide)

theorem contentDisposition_line (fuel : Nat) (value rest : Bytes)
    (hvlf : (10 : UInt8) ∉ value) (hvalid : ∀ c ∈ value, validHeaderValueByte c = true)
    (hvne : value ≠ []) (hhead : value.head? = some 102) (hlast : value.getLast? = some 34) :
    readMIMEHeader (fuel + 1) (str "Content-Disposition" ++ 58 :: 32 :: value ++ 13 :: 10 :: rest) =
      (readMIMEHeader fuel rest).map (fun p => ((str "Content-Disposition", value) :: p.1, p.2)) :=
  readMIMEHeader_line fuel (str "Content-Disposition") value rest (by decide) (by decide)
    (by decide) (by decide) (by decide) hvlf hvalid hvne
    (by rw [hhead]; decide) (by rw [hlast]; decide)

theorem contentType_line (fuel : Nat) (rest : Bytes) :
    readMIMEHeader (fuel + 1)
        (str "Content-Type" ++ 58 :: 32 :: str "application/octet-stream" ++ 13 :: 10 :: rest) =
      (readMIMEHeader fuel rest).map
        (fun p => ((str "Content-Type", str "application/octet-stream") :: p.1, p.2)) :=
  readMIMEHeader_line fuel (str "Content-Type") (str "application/octet-stream") rest
    (by decide) (by decide) (by decide) (by decide) (by decide) (by decide) (by decide)
    (by decide) (by decide) (by decide)

/-- The header that the builder writes for a part with safe names is read back
by the decoder, and with the content it gives the part. -/
theorem readMIMEHeader_partHeader (p : DecodedPart) (hs : headerSafe p.name)
    (hf : ∀ f, p.filename = some f → headerSafe f) (fuel : Nat) (rest : Bytes) :
    ∃ hdr, readMIMEHeader (fuel + 3) (partHeader p ++ rest) = some (hdr, rest) ∧
      mkPart hdr p.content = p := by
  obtain ⟨name, filename, content⟩ := p
  cases filename with
  | none =>
    simp only at hs
    obtain ⟨h1, h2, h3, h4, h5⟩ := fieldDisposition_ok name hs
    refine ⟨[(str "Content-Disposition",
      str "form-data; name=\"" ++ escapeQuotes name ++ str "\"")], ?_, ?_⟩
    · simp only [partHeader, fieldHeader]
      rw [headerLines_cons_append, contentDisposition_line (fuel + 2) _ _ h1 h2 h3 h4 h5,
        headerLines_nil_append, readMIMEHeader_blank]
      rfl
    · have hget : headerGet [(str "Content-Disposition",
          str "form-data; name=\"" ++ escapeQuotes name ++ str "\"")]
          (str "Content-Disposition") =
          str "form-data; name=\"" ++ escapeQuotes name ++ str "\"" := by
        simp [headerGet, valuesGet]
      simp only [mkPart, hget, parseMediaType_field name hs]
      have hne : ¬ (str "name" = str "filename") := by decide
      simp [valuesGet, hne]
  | some fname =>
    simp only at hs
    have hf' : headerSafe fname := hf fname rfl
    obtain ⟨h1, h2, h3, h4, h5⟩ := fileDisposition_ok name fname hs hf'
    refine ⟨[(str "Content-Disposition",
      str "form-data; name=\"" ++ escapeQuotes name ++ str "\"; filename=\"" ++
        escapeQuotes fname ++ str "\""),
      (str "Content-Type", str "application/octet-stream")], ?_, ?_⟩
    · simp only [partHeader, fileHeader]
      rw [headerLines_cons_append, contentDisposition_line (fuel + 2) _ _ h1 h2 h3 h4 h5,
        headerLines_cons_append, contentType_line (fuel + 1),
        headerLines_nil_append, readMIMEHeader_blank]
      rfl
    · have hget : headerGet [(str "Content-Disposition",
          str "form-data; name=\"" ++ escapeQuotes name ++ str "\"; filename=\"" ++
            escapeQuotes fname ++ str "\""),
          (str "Content-Type", str "application/octet-stream")]
          (str "Content-Disposition") =
          str "form-data; name=\"" ++ escapeQuotes name ++ str "\"; filename=\"" ++
            escapeQuotes fname ++ str "\"" := by
        simp [headerGet, valuesGet]
      simp only [mkPart, hget, parseMediaType_file name fname hs hf']
      have hne : ¬ (str "name" = str "filename") := by decide
      simp [valuesGet, hne]

/-! ## Finding the end of the content of a part -/

/-- A delimiter that starts with a byte it does not hold again cannot start
inside the text in front of its first occurrence and reach into it. -/
theorem infix_of_prefix_before (c : UInt8) (d v x : Bytes) (hc : c ∉ d) (hv : v ≠ [])
    (h : (c :: d) <+: v ++ (c :: d ++ x)) : (c :: d) <:+: v := by
  rcases List.prefix_or_prefix_of_prefix h (List.prefix_append v _) with h1 | h1
  · exact h1.isInfix
  · obtain ⟨y, hy⟩ := h1
    cases y with
    | nil =>
      rw [List.append_nil] at hy
      rw [hy]
    | cons y ys =>
      exfalso
      have h' : v ++ (y :: ys) <+: v ++ (c :: d ++ x) := by rw [hy]; exact h
      have h2 : y :: ys <+: c :: d ++ x := (List.prefix_append_right_inj v).1 h'
      have hyc : y = c := by
        obtain ⟨t, ht⟩ := h2
        simp at ht
        exact ht.1
      subst hyc
      cases v with
      | nil => exact hv rfl
      | cons a as =>
        simp at hy
        apply hc
        rw [← hy.2]
        simp

/-- The dash boundary does not stand at the start of a content that does not
hold it and is followed by a line end. -/
theorem not_prefix_of_content (dash v x : Bytes) (h13 : (13 : UInt8) ∉ dash)
    (hv : ¬ dash <:+: v) : ¬ dash <+: v ++ (13 :: x) := by
  intro h
  rcases List.prefix_or_prefix_of_prefix h (List.prefix_append v _) with h1 | h1
  · exact hv h1.isInfix
  · obtain ⟨y, hy⟩ := h1
    cases y with
    | nil =>
      rw [List.append_nil] at hy
      rw [hy] at hv
      exact hv (List.infix_refl _)
    | cons y ys =>
      have h' : v ++ (y :: ys) <+: v ++ (13 :: x) := by rw [hy]; exact h
      have h2 : y :: ys <+: 13 :: x := (List.prefix_append_right_inj v).1 h'
      have hyc : y = 13 := by
        obtain ⟨t, ht⟩ := h2
        simp at ht
        exact ht.1
      subst hyc
      apply h13
      rw [← hy]
      simp

theorem scanBody_content (d v tail : Bytes) (h13 : (13 : UInt8) ∉ d)
    (hv : ¬ (13 :: d) <:+: v) (hend : boundaryEnds tail = true) :
    scanBody (13 :: d) 0 (v ++ (13 :: d ++ tail)) = some (v, 13 :: d ++ tail) := by
  induction v with
  | nil =>
    have hp : (13 :: d).isPrefixOf (13 :: d ++ tail) = true :=
      List.isPrefixOf_iff_prefix.2 (List.prefix_append _ _)
    have hd : (13 :: (d ++ tail)).drop (13 :: d).length = tail := by
      have := List.drop_left (13 :: d) tail
      simp
    rw [List.cons_append] at hp
    simp only [List.nil_append, List.cons_append, scanBody, List.append_eq]
    simp only [hp, if_true, hd, hend]
  | cons a as ih =>
    have hnot : (13 :: d).isPrefixOf (a :: as ++ (13 :: d ++ tail)) = false := by
      rw [Bool.eq_false_iff]
      intro h
      exact hv (infix_of_prefix_before 13 d (a :: as) tail h13 (by simp)
        (List.isPrefixOf_iff_prefix.1 h))
    have ih' := ih (fun h => hv (List.infix_cons h))
    rw [List.cons_append] at hnot ⊢
    simp only [scanBody, List.append_eq, hnot]
    rw [ih']
    rfl

/-- The content of a part that does not hold the dash boundary ends at the
line end in front of the next boundary. -/
theorem partBody_content (dash v tail : Bytes) (h13 : (13 : UInt8) ∉ dash)
    (hv : ¬ dash <:+: v) (hend : boundaryEnds tail = true) :
    partBody dash (v ++ (str "\r\n" ++ dash ++ tail)) = some (v, str "\r\n" ++ dash ++ tail) := by
  have hcrlf : str "\r\n" = [13, 10] := by decide
  have e : str "\r\n" ++ dash ++ tail = 13 :: (10 :: dash) ++ tail := by
    rw [hcrlf]; simp
  have hstart : dash.isPrefixOf (v ++ (str "\r\n" ++ dash ++ tail)) = false := by
    rw [Bool.eq_false_iff]
    intro h
    rw [e] at h
    exact not_prefix_of_content dash v _ h13 hv (List.isPrefixOf_iff_prefix.1 h)
  have h13' : (13 : UInt8) ∉ 10 :: dash := by
    intro h
    rcases List.mem_cons.1 h with h | h
    · revert h; decide
    · exact h13 h
  have hv' : ¬ (13 :: (10 :: dash)) <:+: v := by
    intro h
    apply hv
    exact List.IsInfix.trans ⟨[13, 10], [], by simp⟩ h
  have hs := scanBody_content (10 :: dash) v tail h13' hv' hend
  simp only [partBody, hstart]
  rw [hcrlf]
  simp only [List.cons_append, List.nil_append, Bool.false_eq_true, if_false] at hs ⊢
  rw [hs]

/-! ## The lines between the parts -/

theorem readSlice_line (line rest : Bytes) (h : (10 : UInt8) ∉ line) :
    readSlice (line ++ 10 :: rest) = (line ++ [10], rest, true) := by
  induction line with
  | nil => simp [readSlice]
  | cons c cs ih =>
    have hc : c ≠ 10 := fun e => h (by simp [e])
    have hcs : (10 : UInt8) ∉ cs := fun e => h (by simp [e])
    simp [readSlice, hc, ih hcs]

theorem nextPart_delimiter (dash rest : Bytes) (n fuel : Nat) (expect : Bool)
    (hlf : (10 : UInt8) ∉ dash) :
    nextPart dash n (fuel + 1) expect (dash ++ str "\r\n" ++ rest) = some (some rest) := by
  have hcrlf : str "\r\n" = [13, 10] := by decide
  have e : dash ++ str "\r\n" ++ rest = (dash ++ [13]) ++ 10 :: rest := by
    rw [hcrlf]; simp
  have hrs := readSlice_line (dash ++ [13]) rest (by simp [hlf])
  have hline : dash ++ [13] ++ [10] = dash ++ str "\r\n" := by rw [hcrlf]; simp
  have hdel : isBoundaryDelimiterLine dash (dash ++ str "\r\n") = true := by
    have hp : dash.isPrefixOf (dash ++ str "\r\n") = true :=
      List.isPrefixOf_iff_prefix.2 (List.prefix_append _ _)
    have hs : skipLWSPChar (str "\r\n") = str "\r\n" := by decide
    simp [isBoundaryDelimiterLine, hp, List.drop_left, hs]
  rw [e]
  simp only [nextPart, hrs, hline, hdel]
  simp

theorem nextPart_final (dash : Bytes) (n fuel : Nat) (expect : Bool)
    (hlf : (10 : UInt8) ∉ dash) :
    nextPart dash n (fuel + 1) expect (dash ++ str "--\r\n") = some none := by
  have hlit : str "--\r\n" = [45, 45, 13] ++ 10 :: [] := by decide
  have e : dash ++ str "--\r\n" = (dash ++ [45, 45, 13]) ++ 10 :: [] := by
    rw [hlit]; simp
  have hrs := readSlice_line (dash ++ [45, 45, 13]) [] (by simp [hlf])
  have hline : dash ++ [45, 45, 13] ++ [10] = dash ++ str "--\r\n" := by rw [hlit]; simp
  have hdel : isBoundaryDelimiterLine dash (dash ++ str "--\r\n") = false := by
    have hs : skipLWSPChar (str "--\r\n") ≠ str "\r\n" := by decide
    simp [isBoundaryDelimiterLine, List.drop_left, hs]
  have hfin : isFinalBoundary dash (dash ++ str "--\r\n") = true := by
    have e2 : dash ++ str "--\r\n" = (dash ++ str "--") ++ str "\r\n" := by
      have : str "--\r\n" = str "--" ++ str "\r\n" := by decide
      rw [this]; simp
    have hp : (dash ++ str "--").isPrefixOf ((dash ++ str "--") ++ str "\r\n") = true :=
      List.isPrefixOf_iff_prefix.2 (List.prefix_append _ _)
    have hlen : dash.length + 2 = (dash ++ str "--").length := by
      have : (str "--").length = 2 := by decide
      simp [this]
    have hs : skipLWSPChar (str "\r\n") = str "\r\n" := by decide
    rw [e2]
    simp only [isFinalBoundary, hp, hlen, List.drop_left, hs]
    simp
  have hrs' : readSlice (dash ++ str "--\r\n") = (dash ++ str "--\r\n", [], true) := by
    rw [e, hrs, ← e]
  simp only [nextPart, hrs', hdel, hfin]
  simp

theorem nextPart_crlf (dash rest : Bytes) (n fuel : Nat) (hhead : dash.head? = some 45) :
    nextPart dash n (fuel + 2) false (str "\r\n" ++ rest) =
      nextPart dash n (fuel + 1) (decide (n ≠ 0)) rest := by
  have hcrlf : str "\r\n" = [13, 10] := by decide
  obtain ⟨d, rfl⟩ : ∃ d, dash = 45 :: d := by
    cases dash with
    | nil => simp at hhead
    | cons c d => simp at hhead; exact ⟨d, by rw [hhead]⟩
  have e : str "\r\n" ++ rest = [13] ++ 10 :: rest := by rw [hcrlf]; rfl
  have hrs := readSlice_line [13] rest (by decide)
  have hdel : isBoundaryDelimiterLine (45 :: d) ([13] ++ [10]) = false := by
    simp [isBoundaryDelimiterLine, List.isPrefixOf]
  have hfin : isFinalBoundary (45 :: d) ([13] ++ [10]) = false := by
    simp [isFinalBoundary, List.isPrefixOf]
  rw [e]
  rw [nextPart]
  simp only [hrs, hdel, hfin]
  by_cases hn : n = 0
  · subst hn
    simp
  · simp [hn, hcrlf]

/-! ## Decoding what the builder wrote -/

theorem dash_facts (b : Bytes) (hb : ∀ c ∈ b, isHexChar c) :
    (10 : UInt8) ∉ str "--" ++ b ∧ (13 : UInt8) ∉ str "--" ++ b ∧
      (str "--" ++ b).head? = some 45 := by
  have hd : str "--" = [45, 45] := by decide
  rw [hd]
  refine ⟨?_, ?_, rfl⟩
  · intro h
    simp at h
    exact (isHexChar_facts 10 (hb 10 h)).2.2.1 rfl
  · intro h
    simp at h
    exact (isHexChar_facts 13 (hb 13 h)).2.1 rfl

theorem headerLines_length (l : List (Bytes × Bytes)) : 2 ≤ (headerLines l).length := by
  induction l with
  | nil => decide
  | cons kv r ih =>
    obtain ⟨k, v⟩ := kv
    simp only [headerLines, List.length_append]
    omega

theorem partHeader_length (p : DecodedPart) : 2 ≤ (partHeader p).length := by
  unfold partHeader
  split
  · exact headerLines_length _
  · exact headerLines_length _

/-- What follows the content of a part on the wire: the line end, the dash
boundary, and then either the end of a delimiter line or the two dashes of the
final boundary. -/
theorem encodeParts_tail (b : Bytes) (ps : List DecodedPart) :
    ∃ tail, encodeParts b true ps ++ (str "\r\n--" ++ b ++ str "--\r\n") =
        str "\r\n" ++ (str "--" ++ b) ++ tail ∧ boundaryEnds tail = true := by
  have h1 : str "\r\n--" = str "\r\n" ++ str "--" := by decide
  cases ps with
  | nil =>
    refine ⟨str "--\r\n", ?_, by decide⟩
    simp [encodeParts, h1]
  | cons p ps =>
    refine ⟨str "\r\n" ++ (partHeader p ++ p.content ++ encodeParts b true ps ++
      (str "\r\n--" ++ b ++ str "--\r\n")), ?_, ?_⟩
    · simp [encodeParts, h1]
    · have : str "\r\n" = [13, 10] := by decide
      rw [this]
      simp [boundaryEnds]

theorem readParts_encodeParts (b : Bytes) (hb : ∀ c ∈ b, isHexChar c) :
    ∀ (parts : List DecodedPart) (fuel n : Nat), (∀ p ∈ parts, partSafe b p) →
      parts.length < fuel →
      readParts (str "--" ++ b) fuel n
        (encodeParts b (decide (n ≠ 0)) parts ++ (str "\r\n--" ++ b ++ str "--\r\n")) =
        some parts := by
  obtain ⟨hlf, hcr, hhead⟩ := dash_facts b hb
  have h1 : str "\r\n--" = str "\r\n" ++ str "--" := by decide
  intro parts
  induction parts with
  | nil =>
    intro fuel n _ hfuel
    obtain ⟨f, rfl⟩ : ∃ f, fuel = f + 1 := ⟨fuel - 1, by omega⟩
    have e : encodeParts b (decide (n ≠ 0)) [] ++ (str "\r\n--" ++ b ++ str "--\r\n") =
        str "\r\n" ++ ((str "--" ++ b) ++ str "--\r\n") := by
      simp [encodeParts, h1]
    obtain ⟨k, hk⟩ : ∃ k, (str "\r\n" ++ ((str "--" ++ b) ++ str "--\r\n")).length + 1 = k + 2 := by
      refine ⟨((str "--" ++ b) ++ str "--\r\n").length + 1, ?_⟩
      have : (str "\r\n").length = 2 := by decide
      rw [List.length_append, this]; omega
    rw [e, readParts, hk, nextPart_crlf _ _ _ _ hhead, nextPart_final _ _ _ _ hlf]
  | cons p ps ih =>
    intro fuel n hsafe hfuel
    obtain ⟨f, rfl⟩ : ∃ f, fuel = f + 1 := ⟨fuel - 1, by omega⟩
    have hp := hsafe p (by simp)
    obtain ⟨tail, htail, hends⟩ := encodeParts_tail b ps
    obtain ⟨hdr, hhdr, hmk⟩ := readMIMEHeader_partHeader p hp.1 hp.2.1
      ((partHeader p ++ (p.content ++ (str "\r\n" ++ (str "--" ++ b) ++ tail))).length + 1 - 3)
      (p.content ++ (str "\r\n" ++ (str "--" ++ b) ++ tail))
    have hfuelH : (partHeader p ++ (p.content ++ (str "\r\n" ++ (str "--" ++ b) ++ tail))).length
        + 1 - 3 + 3 =
        (partHeader p ++ (p.content ++ (str "\r\n" ++ (str "--" ++ b) ++ tail))).length + 1 := by
      have := partHeader_length p
      rw [List.length_append]
      omega
    rw [hfuelH] at hhdr
    have hbody := partBody_content (str "--" ++ b) p.content tail hcr hp.2.2 hends
    have hrec := ih f (n + 1) (fun q hq => hsafe q (by simp [hq]))
      (by simp at hfuel; omega)
    have hdec : decide (n + 1 ≠ 0) = true := by simp
    rw [hdec, htail] at hrec
    have hnext : nextPart (str "--" ++ b) n
        ((encodeParts b (decide (n ≠ 0)) (p :: ps) ++ (str "\r\n--" ++ b ++ str "--\r\n")).length + 1)
        false
        (encodeParts b (decide (n ≠ 0)) (p :: ps) ++ (str "\r\n--" ++ b ++ str "--\r\n")) =
        some (some (partHeader p ++ (p.content ++ (str "\r\n" ++ (str "--" ++ b) ++ tail)))) := by
      by_cases hn : n = 0
      · subst hn
        have e : encodeParts b (decide (0 ≠ 0)) (p :: ps) ++ (str "\r\n--" ++ b ++ str "--\r\n") =
            (str "--" ++ b) ++ str "\r\n" ++
              (partHeader p ++ (p.content ++ (str "\r\n" ++ (str "--" ++ b) ++ tail))) := by
          rw [← htail]
          simp [encodeParts]
        rw [e]
        exact nextPart_delimiter _ _ _ _ _ hlf
      · have e : encodeParts b (decide (n ≠ 0)) (p :: ps) ++ (str "\r\n--" ++ b ++ str "--\r\n") =
            str "\r\n" ++ ((str "--" ++ b) ++ str "\r\n" ++
              (partHeader p ++ (p.content ++ (str "\r\n" ++ (str "--" ++ b) ++ tail)))) := by
          rw [← htail]
          simp [encodeParts, hn, h1]
        obtain ⟨k, hk⟩ : ∃ k, (str "\r\n" ++ ((str "--" ++ b) ++ str "\r\n" ++
              (partHeader p ++ (p.content ++ (str "\r\n" ++ (str "--" ++ b) ++ tail))))).length
              + 1 = k + 2 := by
          refine ⟨((str "--" ++ b) ++ str "\r\n" ++
              (partHeader p ++ (p.content ++ (str "\r\n" ++ (str "--" ++ b) ++ tail)))).length + 1,
            ?_⟩
          have : (str "\r\n").length = 2 := by decide
          rw [List.length_append, this]; omega
        rw [e, hk, nextPart_crlf _ _ _ _ hhead]
        exact nextPart_delimiter _ _ _ _ _ hlf
    rw [readParts, hnext]
    simp only [hhdr, hbody, hrec, hmk, Option.map_some']

theorem encodeParts_length (b : Bytes) :
    ∀ (parts : List DecodedPart) (later : Bool),
      parts.length ≤ (encodeParts b later parts).length := by
  intro parts
  induction parts with
  | nil => intro later; simp [encodeParts]
  | cons p ps ih =>
    intro later
    have h1 := ih true
    have h2 := partHeader_length p
    simp only [encodeParts, List.length_append, List.length_cons]
    omega

/-- The body that the builder writes for parts that are safe under the
boundary decodes to these parts under the content type of the boundary. -/
theorem decode_encodeParts (b : Bytes) (hb : ∀ c ∈ b, isHexChar c) (hne : b ≠ [])
    (parts : List DecodedPart) (hsafe : ∀ p ∈ parts, partSafe b p) :
    decode (str "multipart/form-data; boundary=" ++ b)
        (encodeParts b false parts ++ (str "\r\n--" ++ b ++ str "--\r\n")) = some parts := by
  have hct := parseMediaType_contentType b hb hne
  have hget : valuesGet [(str "boundary", b)] (str "boundary") = b := by simp [valuesGet]
  have hrp := readParts_encodeParts b hb parts
    ((encodeParts b false parts ++ (str "\r\n--" ++ b ++ str "--\r\n")).length + 1) 0 hsafe
    (by
      have := encodeParts_length b parts false
      rw [List.length_append]
      omega)
  have hdec : decide ((0 : Nat) ≠ 0) = false := by decide
  rw [hdec] at hrp
  simp only [decode, hct, hget, hne, if_false, hrp]
  simp

/-- Part writers that write the parts of a list, run in order on an encoder in
working order, all succeed and put the parts on the wire one after the other. -/
theorem runWriters_writesParts (fs : FileSystem) :
    ∀ (cbs : List PartWriter) (parts : List DecodedPart) (mw : Writer),
      List.Forall₂ (WritesPart fs) cbs parts → mw.healthy →
      ∃ mw1, runWriters fs cbs mw = (mw1, none) ∧ mw1.healthy ∧ mw1.boundary = mw.boundary ∧
        mw1.w.out = mw.w.out ++ encodeParts mw.boundary mw.lastpart.isSome parts := by
  intro cbs
  induction cbs with
  | nil =>
    intro parts mw h hgood
    cases h
    exact ⟨mw, rfl, hgood, rfl, by simp [encodeParts]⟩
  | cons c cs ih =>
    intro parts mw h hgood
    cases h with
    | cons hc hcs =>
      rename_i p ps
      have h1 := hc mw hgood
      obtain ⟨mw1, hrun, hg1, hb1, hout⟩ := ih ps _ hcs (Writer.afterPart_healthy mw _)
      refine ⟨mw1, ?_, hg1, ?_, ?_⟩
      · simp only [runWriters, h1]
        exact hrun
      · rw [hb1]; rfl
      · rw [hout]
        simp [Writer.afterPart, encodeParts, Writer.delimiterLine]

theorem randomBoundary_ne_nil (rnd : Fin 30 → UInt8) : randomBoundary rnd ≠ [] := by
  intro h
  have := randomBoundary_length rnd
  rw [h] at this
  simp at this

/-- The result of `Build` for a builder whose writers write the parts of a
list, when the stream is read to exhaustion: the content type of the boundary,
and a stream that ends without error and holds the parts one after the other
and the terminating boundary. -/
theorem Build_of_writesParts (b : Builder) (rnd : Fin 30 → UInt8) (fs : FileSystem)
    (parts : List DecodedPart) (hw : List.Forall₂ (WritesPart fs) b.cbs parts) :
    (b.Build rnd none fs).contentType =
        str "multipart/form-data; boundary=" ++ randomBoundary rnd ∧
    (b.Build rnd none fs).body =
      { data := encodeParts (randomBoundary rnd) false parts ++
          (str "\r\n--" ++ randomBoundary rnd ++ str "--\r\n"),
        err := none } := by
  refine ⟨NewWriter_contentType rnd _, ?_⟩
  obtain ⟨mw1, hrun, hg1, hb1, hout⟩ :=
    runWriters_writesParts fs b.cbs parts _ hw (NewWriter_healthy rnd)
  have hb : mw1.boundary = randomBoundary rnd := by rw [hb1]; rfl
  have ho : mw1.w.out = encodeParts (randomBoundary rnd) false parts := by
    rw [hout]; simp [NewWriter, Pipe.new]
  simp [Builder.Build, buildStream, hrun, Writer.Close_healthy mw1 hg1, Pipe.CloseWithError,
    hb, ho]

/-- Decoding the result of `Build` gives back the parts that the writers of the
builder write, when these are safe under the boundary. -/
theorem decode_Build (b : Builder) (rnd : Fin 30 → UInt8) (fs : FileSystem)
    (parts : List DecodedPart) (hw : List.Forall₂ (WritesPart fs) b.cbs parts)
    (hsafe : ∀ p ∈ parts, partSafe (randomBoundary rnd) p) :
    decode (b.Build rnd none fs).contentType (b.Build rnd none fs).body.data = some parts := by
  obtain ⟨h1, h2⟩ := Build_of_writesParts b rnd fs parts hw
  rw [h1, h2]
  exact decode_encodeParts _ (randomBoundary_isHexChar rnd) (randomBoundary_ne_nil rnd) parts hsafe

/-! ## The part writers of the builder -/

theorem fieldWriter_writesPart (fs : FileSystem) (fieldName value : Bytes) :
    WritesPart fs (fieldWriter fieldName value)
      { name := fieldName, filename := none, content := value } := by
  intro mw h
  rw [fieldWriter_healthy _ _ _ _ h]
  rfl

theorem ioCopy_afterPart (mw : Writer) (bytes data : Bytes) :
    ioCopy (mw.afterPart bytes) { data := data, err := none } =
      (mw.afterPart (bytes ++ data), none) := by
  unfold ioCopy
  by_cases hd : data = []
  · subst hd; simp
  · simp [hd, Writer.partWrite_afterPart]

theorem readerWriter_writesPart (fs : FileSystem) (fieldName fileName data : Bytes) :
    WritesPart fs (readerWriter fieldName fileName { data := data, err := none })
      { name := fieldName, filename := some fileName, content := data } := by
  intro mw h
  simp [PartWriter.run, Writer.CreateFormFile, Writer.CreatePart_healthy _ _ h, ioCopy_afterPart,
    partHeader, fileHeader]

theorem fileWriter_writesPart (fs : FileSystem) (fieldName filePath data : Bytes)
    (hfile : fs filePath = .ok { data := data, err := none }) :
    WritesPart fs (fileWriter fieldName filePath)
      { name := fieldName, filename := some (filepathBase filePath), content := data } := by
  intro mw h
  simp [PartWriter.run, hfile, Writer.CreateFormFile, Writer.CreatePart_healthy _ _ h,
    ioCopy_afterPart, partHeader, fileHeader]

/-! ## Form fields -/

theorem foldl_AddField_cbs (fields : List (Bytes × Bytes)) (b : Builder) :
    (fields.foldl (fun b f => b.AddField f.1 f.2) b).cbs =
      b.cbs ++ fields.map (fun f => fieldWriter f.1 f.2) := by
  induction fields generalizing b with
  | nil => simp
  | cons f fs ih =>
    rw [List.foldl_cons, ih]
    simp [Builder.AddField]

theorem forall₂_fieldWriter (fs : FileSystem) (fields : List (Bytes × Bytes)) :
    List.Forall₂ (WritesPart fs) (fields.map (fun f => fieldWriter f.1 f.2))
      (fields.map (fun f => ({ name := f.1, filename := none, content := f.2 } : DecodedPart))) := by
  induction fields with
  | nil => exact List.Forall₂.nil
  | cons f fs' ih => exact List.Forall₂.cons (fieldWriter_writesPart fs f.1 f.2) ih

/-- C1, as amended. For every sequence of `AddField` calls on a new builder in
which every name is made of bytes that may stand in a header value (so it holds
no carriage return, line feed or other control byte) and no value holds the
dash boundary (two dashes and the boundary that `Build` draws), the stream of
`Build` read to exhaustion ends without error, ends with the terminating
boundary, and decodes to exactly the fields of the calls, each with its name
and value unchanged, in the order of the calls. -/
theorem AddField_sequence_decodes (fields : List (Bytes × Bytes)) (rnd : Fin 30 → UInt8)
    (fs : FileSystem) (hnames : ∀ f ∈ fields, headerSafe f.1)
    (hvalues : ∀ f ∈ fields, ¬ (str "--" ++ randomBoundary rnd) <:+: f.2) :
    ((fields.foldl (fun b f => b.AddField f.1 f.2) NewMultipartBuilder).Build rnd none
        fs).body.err = none ∧
    (str "\r\n--" ++ randomBoundary rnd ++ str "--\r\n") <:+
      ((fields.foldl (fun b f => b.AddField f.1 f.2) NewMultipartBuilder).Build rnd none
        fs).body.data ∧
    decode
        ((fields.foldl (fun b f => b.AddField f.1 f.2) NewMultipartBuilder).Build rnd none
          fs).contentType
        ((fields.foldl (fun b f => b.AddField f.1 f.2) NewMultipartBuilder).Build rnd none
          fs).body.data =
      some (fields.map
        (fun f => ({ name := f.1, filename := none, content := f.2 } : DecodedPart))) := by
  have hw : List.Forall₂ (WritesPart fs)
      (fields.foldl (fun b f => b.AddField f.1 f.2) NewMultipartBuilder).cbs
      (fields.map (fun f => ({ name := f.1, filename := none, content := f.2 } : DecodedPart))) := by
    rw [foldl_AddField_cbs]
    simpa [NewMultipartBuilder] using forall₂_fieldWriter fs fields
  have hsafe : ∀ p ∈ fields.map
      (fun f => ({ name := f.1, filename := none, content := f.2 } : DecodedPart)),
      partSafe (randomBoundary rnd) p := by
    intro p hp
    obtain ⟨f, hf, rfl⟩ := List.mem_map.1 hp
    exact ⟨hnames f hf, fun g hg => (by cases hg), hvalues f hf⟩
  obtain ⟨_, h2⟩ := Build_of_writesParts _ rnd fs _ hw
  refine ⟨by rw [h2], by rw [h2]; exact List.suffix_append _ _, decode_Build _ rnd fs _ hw hsafe⟩

set_option maxRecDepth 1000000 in
/-- C1 as stated fails at a field name with a line feed: the body does not
decode to the field of the call, the name comes back with `%0A` in place of the
line feed. -/
theorem AddField_name_with_line_feed_changes :
    decode
        ((NewMultipartBuilder.AddField (str "a\nb") (str "1")).Build sampleRnd none
          noFiles).contentType
        ((NewMultipartBuilder.AddField (str "a\nb") (str "1")).Build sampleRnd none
          noFiles).body.data ≠
      some [{ name := str "a\nb", filename := none, content := str "1" }] ∧
    decode
        ((NewMultipartBuilder.AddField (str "a\nb") (str "1")).Build sampleRnd none
          noFiles).contentType
        ((NewMultipartBuilder.AddField (str "a\nb") (str "1")).Build sampleRnd none
          noFiles).body.data =
      some [{ name := str "a%0Ab", filename := none, content := str "1" }] := by
  decide

set_option maxRecDepth 1000000 in
/-- C1 at a concrete input: the fields `a=1` and `b=two`. -/
theorem AddField_sequence_decodes_witness :
    decode
        (((NewMultipartBuilder.AddField (str "a") (str "1")).AddField (str "b")
          (str "two")).Build sampleRnd none noFiles).contentType
        (((NewMultipartBuilder.AddField (str "a") (str "1")).AddField (str "b")
          (str "two")).Build sampleRnd none noFiles).body.data =
      some [{ name := str "a", filename := none, content := str "1" },
            { name := str "b", filename := none, content := str "two" }] :=
  (AddField_sequence_decodes [(str "a", str "1"), (str "b", str "two")] sampleRnd noFiles
    (by decide) (by decide)).2.2

/-! ## File parts -/

theorem forall₂_append_one (fs : FileSystem) (cbs : List PartWriter) (parts : List DecodedPart)
    (c : PartWriter) (p : DecodedPart) (hw : List.Forall₂ (WritesPart fs) cbs parts)
    (hc : WritesPart fs c p) : List.Forall₂ (WritesPart fs) (cbs ++ [c]) (parts ++ [p]) :=
  List.rel_append hw (List.Forall₂.cons hc List.Forall₂.nil)

theorem partSafe_append_one (b : Bytes) (parts : List DecodedPart) (p : DecodedPart)
    (hsafe : ∀ q ∈ parts, partSafe b q) (hp : partSafe b p) :
    ∀ q ∈ parts ++ [p], partSafe b q := by
  intro q hq
  rcases List.mem_append.1 hq with h | h
  · exact hsafe q h
  · simp at h
    rw [h]; exact hp

/-- C3, as amended. Let the writers already in the builder write parts that are
safe under the boundary. A part enqueued by `AddReader(fieldName, fileName,
reader)` for a reader that ends without error decodes, as the last part, to a
file part with field name `fieldName`, file name exactly `fileName` and content
equal to everything the reader yields; a part enqueued by `AddFile(fieldName,
filePath)` for a file that can be opened and read decodes, as the last part, to
a file part with field name `fieldName`, file name the base name of `filePath`
and content equal to the file. Both hold when the names written into the header
(`fieldName`, and `fileName` or the base name) are made of bytes that may stand
in a header value, and the content does not hold the dash boundary. -/
theorem AddReader_AddFile_decode (b : Builder) (parts : List DecodedPart)
    (fieldName fileName filePath data : Bytes) (rnd : Fin 30 → UInt8) (fs : FileSystem)
    (hw : List.Forall₂ (WritesPart fs) b.cbs parts)
    (hsafe : ∀ p ∈ parts, partSafe (randomBoundary rnd) p)
    (hfield : headerSafe fieldName)
    (hdata : ¬ (str "--" ++ randomBoundary rnd) <:+: data) :
    (headerSafe fileName →
      ((b.AddReader fieldName fileName { data := data, err := none }).Build rnd none
          fs).body.err = none ∧
      decode
          ((b.AddReader fieldName fileName { data := data, err := none }).Build rnd none
            fs).contentType
          ((b.AddReader fieldName fileName { data := data, err := none }).Build rnd none
            fs).body.data =
        some (parts ++ [{ name := fieldName, filename := some fileName, content := data }])) ∧
    (fs filePath = .ok { data := data, err := none } → headerSafe (filepathBase filePath) →
      ((b.AddFile fieldName filePath).Build rnd none fs).body.err = none ∧
      decode ((b.AddFile fieldName filePath).Build rnd none fs).contentType
          ((b.AddFile fieldName filePath).Build rnd none fs).body.data =
        some (parts ++
          [{ name := fieldName, filename := some (filepathBase filePath), content := data }])) := by
  constructor
  · intro hname
    have hw2 := forall₂_append_one fs _ _ _ _ hw (readerWriter_writesPart fs fieldName fileName data)
    have hs2 := partSafe_append_one _ parts
      { name := fieldName, filename := some fileName, content := data } hsafe
      ⟨hfield, fun g hg => (by cases hg; exact hname), hdata⟩
    obtain ⟨_, h2⟩ := Build_of_writesParts
      (b.AddReader fieldName fileName { data := data, err := none }) rnd fs _ hw2
    exact ⟨by rw [h2], decode_Build _ rnd fs _ hw2 hs2⟩
  · intro hfile hname
    have hw2 := forall₂_append_one fs _ _ _ _ hw
      (fileWriter_writesPart fs fieldName filePath data hfile)
    have hs2 := partSafe_append_one _ parts
      { name := fieldName, filename := some (filepathBase filePath), content := data } hsafe
      ⟨hfield, fun g hg => (by cases hg; exact hname), hdata⟩
    obtain ⟨_, h2⟩ := Build_of_writesParts (b.AddFile fieldName filePath) rnd fs _ hw2
    exact ⟨by rw [h2], decode_Build _ rnd fs _ hw2 hs2⟩

set_option maxRecDepth 1000000 in
/-- C3 as stated fails at a file name with a line feed: the body does not
decode to the file part of the call, the file name comes back with `%0A` in
place of the line feed. -/
theorem AddReader_filename_with_line_feed_changes :
    decode
        ((NewMultipartBuilder.AddReader (str "f") (str "a\nb")
          { data := str "x", err := none }).Build sampleRnd none noFiles).contentType
        ((NewMultipartBuilder.AddReader (str "f") (str "a\nb")
          { data := str "x", err := none }).Build sampleRnd none noFiles).body.data ≠
      some [{ name := str "f", filename := some (str "a\nb"), content := str "x" }] ∧
    decode
        ((NewMultipartBuilder.AddReader (str "f") (str "a\nb")
          { data := str "x", err := none }).Build sampleRnd none noFiles).contentType
        ((NewMultipartBuilder.AddReader (str "f") (str "a\nb")
          { data := str "x", err := none }).Build sampleRnd none noFiles).body.data =
      some [{ name := str "f", filename := some (str "a%0Ab"), content := str "x" }] := by
  decide

set_option maxRecDepth 1000000 in
/-- C3 at a concrete input: after a field `a=1`, a reader named `dir/x.txt`
yielding `hello`, and the file `/tmp/y.bin`. -/
theorem AddReader_AddFile_decode_witness :
    decode
        (((NewMultipartBuilder.AddField (str "a") (str "1")).AddReader (str "f") (str "dir/x.txt")
          { data := str "hello", err := none }).Build sampleRnd none oneFile).contentType
        (((NewMultipartBuilder.AddField (str "a") (str "1")).AddReader (str "f") (str "dir/x.txt")
          { data := str "hello", err := none }).Build sampleRnd none oneFile).body.data =
      some ([{ name := str "a", filename := none, content := str "1" }] ++
        [{ name := str "f", filename := some (str "dir/x.txt"), content := str "hello" }]) ∧
    decode
        (((NewMultipartBuilder.AddField (str "a") (str "1")).AddFile (str "f")
          (str "/tmp/y.bin")).Build sampleRnd none oneFile).contentType
        (((NewMultipartBuilder.AddField (str "a") (str "1")).AddFile (str "f")
          (str "/tmp/y.bin")).Build sampleRnd none oneFile).body.data =
      some ([{ name := str "a", filename := none, content := str "1" }] ++
        [{ name := str "f", filename := some (str "y.bin"), content := [0, 255, 13, 10] }]) := by
  have hw : List.Forall₂ (WritesPart oneFile)
      (NewMultipartBuilder.AddField (str "a") (str "1")).cbs
      [{ name := str "a", filename := none, content := str "1" }] :=
    List.Forall₂.cons (fieldWriter_writesPart oneFile (str "a") (str "1")) List.Forall₂.nil
  have hsafe : ∀ p ∈ [({ name := str "a", filename := none, content := str "1" } : DecodedPart)],
      partSafe (randomBoundary sampleRnd) p := by
    intro p hp
    simp at hp
    subst hp
    exact ⟨by decide, fun g hg => (by cases hg), by decide⟩
  have h1 := (AddReader_AddFile_decode (NewMultipartBuilder.AddField (str "a") (str "1")) _
    (str "f") (str "dir/x.txt") (str "/tmp/y.bin") (str "hello") sampleRnd oneFile hw hsafe
    (by decide) (by decide)).1 (by decide)
  have h2 := (AddReader_AddFile_decode (NewMultipartBuilder.AddField (str "a") (str "1")) _
    (str "f") (str "dir/x.txt") (str "/tmp/y.bin") [0, 255, 13, 10] sampleRnd oneFile hw hsafe
    (by decide) (by decide)).2 (by rfl) (by decide)
  exact ⟨h1.2, h2.2⟩

theorem not_infix_of_short (a b : Bytes) (h : b.length < a.length) : ¬ a <:+: b := by
  intro hi
  have := hi.length_le
  omega


/-! ## The JSON of plain strings -/

theorem jsonEscapeByte_plain (c : UInt8) (h : jsonPlain c) : jsonEscapeByte c = [c] := by
  have hc := byte_eq_ofNat c
  unfold jsonPlain at h
  simp only [byte_le_iff, byte_lt_iff] at h
  have e1 : (32 : UInt8).toNat = 32 := rfl
  have e2 : (128 : UInt8).toNat = 128 := rfl
  rw [e1, e2] at h
  generalize c.toNat = n at hc h
  subst hc
  obtain ⟨h1, h2, h3, h4, h5, h6, h7⟩ := h
  interval_cases n <;> first | decide | (exfalso; first | exact h3 rfl | exact h4 rfl | exact h5 rfl | exact h6 rfl | exact h7 rfl)

theorem jsonPlain_lt (c : UInt8) (h : jsonPlain c) : c < 0x80 := h.2.1

theorem jsonStringBody_plain :
    ∀ (s : Bytes) (fuel : Nat), s.length ≤ fuel → (∀ c ∈ s, jsonPlain c) →
      jsonStringBody fuel s = s := by
  intro s
  induction s with
  | nil => intro fuel _ _; cases fuel <;> rfl
  | cons c cs ih =>
    intro fuel hlen hp
    cases fuel with
    | zero => simp at hlen
    | succ f =>
      have hc := hp c (by simp)
      rw [jsonStringBody]
      rw [if_pos (jsonPlain_lt c hc), jsonEscapeByte_plain c hc,
        ih f (by simpa using hlen) (fun d hd => hp d (by simp [hd]))]
      rfl

theorem jsonString_plain (s : Bytes) (h : ∀ c ∈ s, jsonPlain c) :
    jsonString s = str "\"" ++ s ++ str "\"" := by
  rw [jsonString, jsonStringBody_plain s s.length (Nat.le_refl _) h]

theorem map_jsonString_plain (xs : List Bytes) (h : ∀ x ∈ xs, ∀ c ∈ x, jsonPlain c) :
    xs.map jsonString = xs.map (fun x => str "\"" ++ x ++ str "\"") := by
  apply List.map_congr_left
  intro x hx
  exact jsonString_plain x (h x hx)

/-- The JSON of an event descriptor with every member set and only plain bytes
in its strings, byte by byte. -/
theorem marshalEventBody_plain (eb : eventBody)
    (hid : eb.EventFuncID.ID ≠ []) (hparams : eb.EventFuncID.Params ≠ [])
    (hchecked : eb.Event.Checked = true) (hfrom : eb.Event.From ≠ []) (hto : eb.Event.To ≠ [])
    (hvalue : eb.Event.Value ≠ [])
    (pid : ∀ c ∈ eb.EventFuncID.ID, jsonPlain c)
    (pparams : ∀ x ∈ eb.EventFuncID.Params, ∀ c ∈ x, jsonPlain c)
    (pfrom : ∀ c ∈ eb.Event.From, jsonPlain c) (pto : ∀ c ∈ eb.Event.To, jsonPlain c)
    (pvalue : ∀ c ∈ eb.Event.Value, jsonPlain c) :
    marshalEventBody eb =
      str "\x7b\"eventFuncId\":\x7b\"id\":\"" ++ eb.EventFuncID.ID ++ str "\",\"params\":[" ++
        (str ",").intercalate (eb.EventFuncID.Params.map fun x => str "\"" ++ x ++ str "\"") ++
        str "]\x7d,\"event\":\x7b\"checked\":true,\"from\":\"" ++ eb.Event.From ++
        str "\",\"to\":\"" ++ eb.Event.To ++ str "\",\"value\":\"" ++ eb.Event.Value ++
        str "\"\x7d\x7d" := by
  simp only [marshalEventBody, marshalEventFuncID, marshalEvent, jsonObject, jsonStringArray,
    hid, hparams, hchecked, hfrom, hto, hvalue, if_true, if_false,
    jsonString_plain _ pid, jsonString_plain _ pfrom, jsonString_plain _ pto,
    jsonString_plain _ pvalue, map_jsonString_plain _ pparams]
  have e1 : str "\x7b\"eventFuncId\":\x7b\"id\":\"" =
      str "\x7b" ++ (str "\"eventFuncId\":" ++ (str "\x7b" ++ (str "\"id\":" ++ str "\""))) := by
    decide
  have e2 : str "\",\"params\":[" = str "\"" ++ (str "," ++ (str "\"params\":" ++ str "[")) := by
    decide
  have e3 : str "]\x7d,\"event\":\x7b\"checked\":true,\"from\":\"" =
      str "]" ++ (str "\x7d" ++ (str "," ++ (str "\"event\":" ++ (str "\x7b" ++
        (str "\"checked\":true" ++ (str "," ++ (str "\"from\":" ++ str "\""))))))) := by decide
  have e4 : str "\",\"to\":\"" = str "\"" ++ (str "," ++ (str "\"to\":" ++ str "\"")) := by decide
  have e5 : str "\",\"value\":\"" = str "\"" ++ (str "," ++ (str "\"value\":" ++ str "\"")) := by
    decide
  have e6 : str "\"\x7d\x7d" = str "\"" ++ (str "\x7d" ++ str "\x7d") := by decide
  rw [e1, e2, e3, e4, e5, e6]
  simp [List.intercalate, List.intersperse]

/-! ## What `BuildEventFuncRequest` adds -/

/-- C8. A call of `BuildEventFuncRequest` appends exactly one part writer to the
end of the writer list and leaves the earlier writers, the URL and the event
descriptor as they were: the writer of a text field named `__event_data__`
whose value is the JSON of the event descriptor at the moment of the call.
`Build` itself leaves the builder as it was. The body of the request that the
call returns (where the model of `httptest.NewRequest` follows the call) is the
stream of the writer list with the new writer at its end.
Hence, for a consumer that drains the body, when the caller's writers
succeed, the body of the request is everything
the caller's writers wrote, then the part `__event_data__` with that JSON, then
the terminating boundary. The request is returned when the URL is empty or
starts with a slash and holds no space, control byte, question mark or percent
sign and the identifier holds no space or control byte. The JSON is given byte
by byte for a descriptor with every member set and strings of plain bytes. -/
theorem BuildEventFuncRequest_appends_event_data (b : Builder) (rnd : Fin 30 → UInt8)
    (room : Option Nat) (fs : FileSystem) :
    (b.BuildEventFuncRequest rnd room fs).2.cbs =
        b.cbs ++ [fieldWriter (str "__event_data__") (marshalEventBody b.eb)] ∧
    (b.BuildEventFuncRequest rnd room fs).2.pageURL = b.pageURL ∧
    (b.BuildEventFuncRequest rnd room fs).2.eb = b.eb ∧
    (b.Build rnd room fs).builder = b ∧
    (∀ r : Request, (b.BuildEventFuncRequest rnd room fs).1 = .ok r →
      r.Body = buildStream fs
        (b.cbs ++ [fieldWriter (str "__event_data__") (marshalEventBody b.eb)])
        (NewWriter rnd (Pipe.new room))) ∧
    (∀ (r : Request) (mw : Writer), (b.BuildEventFuncRequest rnd none fs).1 = .ok r →
      runWriters fs b.cbs (NewWriter rnd (Pipe.new none)) = (mw, none) →
      r.Body =
        { data := mw.w.out ++
            (mw.delimiterLine ++ fieldHeader (str "__event_data__") ++ marshalEventBody b.eb) ++
            (str "\r\n--" ++ mw.boundary ++ str "--\r\n"),
          err := none }) ∧
    ((b.pageURL = [] ∨ b.pageURL.head? = some 47) →
      (∀ c ∈ b.pageURL, 32 < c ∧ c ≠ 127 ∧ c ≠ 63 ∧ c ≠ 37) →
      (∀ c ∈ b.eb.EventFuncID.ID, 32 < c ∧ c ≠ 127) →
      ∃ r : Request, (b.BuildEventFuncRequest rnd room fs).1 = .ok r) ∧
    (b.eb.EventFuncID.ID ≠ [] → b.eb.EventFuncID.Params ≠ [] → b.eb.Event.Checked = true →
      b.eb.Event.From ≠ [] → b.eb.Event.To ≠ [] → b.eb.Event.Value ≠ [] →
      (∀ c ∈ b.eb.EventFuncID.ID, jsonPlain c) →
      (∀ x ∈ b.eb.EventFuncID.Params, ∀ c ∈ x, jsonPlain c) →
      (∀ c ∈ b.eb.Event.From, jsonPlain c) → (∀ c ∈ b.eb.Event.To, jsonPlain c) →
      (∀ c ∈ b.eb.Event.Value, jsonPlain c) →
      marshalEventBody b.eb =
        str "\x7b\"eventFuncId\":\x7b\"id\":\"" ++ b.eb.EventFuncID.ID ++
          str "\",\"params\":[" ++
          (str ",").intercalate (b.eb.EventFuncID.Params.map fun x => str "\"" ++ x ++ str "\"") ++
          str "]\x7d,\"event\":\x7b\"checked\":true,\"from\":\"" ++ b.eb.Event.From ++
          str "\",\"to\":\"" ++ b.eb.Event.To ++ str "\",\"value\":\"" ++ b.eb.Event.Value ++
          str "\"\x7d\x7d") := by
  have hb : ∀ room, (b.BuildEventFuncRequest rnd room fs).2 =
      b.AddField (str "__event_data__") (marshalEventBody b.eb) := by
    intro room
    rw [BuildEventFuncRequest_eq]
  refine ⟨by rw [hb]; rfl, by rw [hb]; rfl, by rw [hb]; rfl, rfl, ?_, ?_, ?_,
    marshalEventBody_plain b.eb⟩
  · intro r hr
    obtain ⟨u, _, rfl⟩ := BuildEventFuncRequest_eq_ok b rnd room fs r hr
    rfl
  · intro r mw hr hrun
    have hgood : mw.healthy := by
      have h := runWriters_healthy fs b.cbs _ (NewWriter_healthy rnd)
      rw [hrun] at h
      exact h
    obtain ⟨u, _, rfl⟩ := BuildEventFuncRequest_eq_ok b rnd none fs r hr
    have h1 := runWriters_append fs b.cbs
      [fieldWriter (str "__event_data__") (marshalEventBody b.eb)] _ mw hrun
    simp only [runWriters, fieldWriter_healthy _ _ fs mw hgood] at h1
    simp [Builder.Build, Builder.AddField, buildStream, h1, Writer.Close_afterPart,
      Pipe.CloseWithError]
  · intro hhead hurl hid
    have hp := target_origin_form b.pageURL b.eb.EventFuncID.ID hhead hurl hid
    exact ⟨_, BuildEventFuncRequest_of_origin_form b rnd room fs _
      (target_gt_space _ _ (fun c hc => (hurl c hc).1) (fun c hc => (hid c hc).1)) hp⟩

set_option maxRecDepth 1000000 in
/-- C8 at a concrete input: one field, the URL `/page`, event function `save`
with two parameters and an event with every member set. The request is
returned and its body is the part of the field, then the part `__event_data__`
with the JSON of the descriptor, then the terminating boundary. For a
descriptor of plain strings the JSON is the text of the formula. With only the
identifier and the member `To` set, the JSON in the body holds these two
members and no other. -/
theorem BuildEventFuncRequest_appends_event_data_witness :
    (∃ r : Request,
      (((((NewMultipartBuilder.AddField (str "a") (str "1")).PageURL (str "/page")).EventFunc
          (str "save") [str "x", str "y"]).Event
          { Checked := true, From := str "f", To := str "t", Value := str "a<b\"c" }
        ).BuildEventFuncRequest sampleRnd none noFiles).1 = .ok r ∧
      r.Body =
        { data := str ("--000102030405060708090a0b0c0d0e0f101112131415161718191a1b1c1d\r\n" ++
            "Content-Disposition: form-data; name=\"a\"\r\n\r\n1" ++
            "\r\n--000102030405060708090a0b0c0d0e0f101112131415161718191a1b1c1d\r\n" ++
            "Content-Disposition: form-data; name=\"__event_data__\"\r\n\r\n" ++
            "\x7b\"eventFuncId\":\x7b\"id\":\"save\",\"params\":[\"x\",\"y\"]\x7d," ++
            "\"event\":\x7b\"checked\":true,\"from\":\"f\",\"to\":\"t\"," ++
            "\"value\":\"a\\u003cb\\\"c\"\x7d\x7d" ++
            "\r\n--000102030405060708090a0b0c0d0e0f101112131415161718191a1b1c1d--\r\n"),
          err := none }) ∧
    marshalEventBody ((NewMultipartBuilder.EventFunc (str "save") [str "x", str "y"]).Event
        { Checked := true, From := str "f", To := str "t", Value := str "v" }).eb =
      str ("\x7b\"eventFuncId\":\x7b\"id\":\"save\",\"params\":[\"x\",\"y\"]\x7d," ++
        "\"event\":\x7b\"checked\":true,\"from\":\"f\",\"to\":\"t\",\"value\":\"v\"\x7d\x7d") ∧
    (∃ r : Request,
      (((NewMultipartBuilder.EventFunc (str "e") []).Event
          { Checked := false, From := [], To := str "t", Value := [] }
        ).BuildEventFuncRequest sampleRnd none noFiles).1 = .ok r ∧
      r.Body =
        { data := str ("--000102030405060708090a0b0c0d0e0f101112131415161718191a1b1c1d\r\n" ++
            "Content-Disposition: form-data; name=\"__event_data__\"\r\n\r\n" ++
            "\x7b\"eventFuncId\":\x7b\"id\":\"e\"\x7d,\"event\":\x7b\"to\":\"t\"\x7d\x7d" ++
            "\r\n--000102030405060708090a0b0c0d0e0f101112131415161718191a1b1c1d--\r\n"),
          err := none }) := by
  refine ⟨?_, ?_, ?_⟩
  case refine_3 =>
    have hr := BuildEventFuncRequest_of_origin_form
      ((NewMultipartBuilder.EventFunc (str "e") []).Event
        { Checked := false, From := [], To := str "t", Value := [] })
      sampleRnd none noFiles
      { Scheme := [], Opaque := [], Path := str "/", ForceQuery := false,
        RawQuery := str "__execute_event__=e" } (by decide) (by decide)
    refine ⟨_, hr, ?_⟩
    have h := (BuildEventFuncRequest_appends_event_data
      ((NewMultipartBuilder.EventFunc (str "e") []).Event
        { Checked := false, From := [], To := str "t", Value := [] })
      sampleRnd none noFiles).2.2.2.2.2.1 _ (NewWriter sampleRnd (Pipe.new none)) hr (by rfl)
    rw [h]
    decide
  case refine_2 =>
    rw [(BuildEventFuncRequest_appends_event_data
      ((NewMultipartBuilder.EventFunc (str "save") [str "x", str "y"]).Event
        { Checked := true, From := str "f", To := str "t", Value := str "v" })
      sampleRnd none noFiles).2.2.2.2.2.2.2 (by decide) (by decide) (by decide) (by decide)
      (by decide) (by decide) (by decide) (by decide) (by decide) (by decide) (by decide)]
    decide
  have hr := BuildEventFuncRequest_of_origin_form
    ((((NewMultipartBuilder.AddField (str "a") (str "1")).PageURL (str "/page")).EventFunc
      (str "save") [str "x", str "y"]).Event
      { Checked := true, From := str "f", To := str "t", Value := str "a<b\"c" })
    sampleRnd none noFiles
    { Scheme := [], Opaque := [], Path := str "/page", ForceQuery := false,
      RawQuery := str "__execute_event__=save" } (by decide) (by decide)
  refine ⟨_, hr, ?_⟩
  have h := (BuildEventFuncRequest_appends_event_data
    ((((NewMultipartBuilder.AddField (str "a") (str "1")).PageURL (str "/page")).EventFunc
      (str "save") [str "x", str "y"]).Event
      { Checked := true, From := str "f", To := str "t", Value := str "a<b\"c" })
    sampleRnd none noFiles).2.2.2.2.2.1 _
    (runWriters noFiles (NewMultipartBuilder.AddField (str "a") (str "1")).cbs
      (NewWriter sampleRnd (Pipe.new none))).1 hr (by rfl)
  rw [h]
  decide

/-! ## The event descriptor in the body -/

/-- C9, as amended. Let neither `EventFunc` nor `Event` have been called on a
builder (its descriptor is the one of a new builder), and let its writers write
parts that are safe under the boundary. `Build` adds nothing: its body decodes
to exactly these parts. A call of `BuildEventFuncRequest` still adds the field
`__event_data__`: the body of the request it returns ends without error and
decodes to these parts followed by one part named `__event_data__`, whose value
is the JSON of the unset descriptor. The request is returned when the URL is
empty or starts with a slash and holds no space, control byte, question mark or
percent sign. -/
theorem event_data_present_without_descriptor (b : Builder) (parts : List DecodedPart)
    (rnd : Fin 30 → UInt8) (fs : FileSystem)
    (heb : b.eb = NewMultipartBuilder.eb)
    (hw : List.Forall₂ (WritesPart fs) b.cbs parts)
    (hsafe : ∀ p ∈ parts, partSafe (randomBoundary rnd) p) :
    decode (b.Build rnd none fs).contentType (b.Build rnd none fs).body.data = some parts ∧
    (∀ r : Request, (b.BuildEventFuncRequest rnd none fs).1 = .ok r →
      r.Body.err = none ∧
      decode (valuesGet r.Header (str "Content-Type")) r.Body.data =
        some (parts ++
          [{ name := str "__event_data__", filename := none,
             content := marshalEventBody NewMultipartBuilder.eb }])) ∧
    ((b.pageURL = [] ∨ b.pageURL.head? = some 47) →
      (∀ c ∈ b.pageURL, 32 < c ∧ c ≠ 127 ∧ c ≠ 63 ∧ c ≠ 37) →
      ∃ r : Request, (b.BuildEventFuncRequest rnd none fs).1 = .ok r) := by
  refine ⟨decode_Build b rnd fs parts hw hsafe, ?_, ?_⟩
  · intro r hr
    obtain ⟨u, _, rfl⟩ := BuildEventFuncRequest_eq_ok b rnd none fs r hr
    have hw2 : List.Forall₂ (WritesPart fs)
        (b.AddField (str "__event_data__") (marshalEventBody b.eb)).cbs
        (parts ++ [{ name := str "__event_data__", filename := none,
                     content := marshalEventBody b.eb }]) :=
      List.rel_append hw (List.Forall₂.cons (fieldWriter_writesPart fs _ _) List.Forall₂.nil)
    have hs2 : ∀ p ∈ parts ++ [DecodedPart.mk (str "__event_data__") none (marshalEventBody b.eb)],
        partSafe (randomBoundary rnd) p := by
      intro q hq
      rcases List.mem_append.1 hq with h | h
      · exact hsafe q h
      · simp at h
        rw [h]
        have hname : headerSafe (str "__event_data__") := by decide
        refine ⟨hname, fun g hg => (by cases hg), ?_⟩
        apply not_infix_of_short
        rw [heb]
        have h1 : (marshalEventBody NewMultipartBuilder.eb).length = 29 := by decide
        have h2 : (str "--").length = 2 := by decide
        simp only [h1, List.length_append, h2, randomBoundary_length]
        omega
    have hdec := decode_Build _ rnd fs _ hw2 hs2
    obtain ⟨hct, hbody⟩ := Build_of_writesParts _ rnd fs _ hw2
    refine ⟨by simp only [hbody], ?_⟩
    have hv : valuesGet [(str "Content-Type",
        ((b.AddField (str "__event_data__") (marshalEventBody b.eb)).Build rnd none
          fs).contentType)] (str "Content-Type") =
        ((b.AddField (str "__event_data__") (marshalEventBody b.eb)).Build rnd none
          fs).contentType := by
      simp [valuesGet]
    simp only [hv]
    rw [hdec, heb]
  · intro hhead hurl
    have hid : b.eb.EventFuncID.ID = [] := by rw [heb]; rfl
    have hp := target_origin_form b.pageURL b.eb.EventFuncID.ID hhead hurl
      (fun c hc => by rw [hid] at hc; cases hc)
    exact ⟨_, BuildEventFuncRequest_of_origin_form b rnd none fs _
      (target_gt_space _ _ (fun c hc => (hurl c hc).1)
        (fun c hc => by rw [hid] at hc; cases hc)) hp⟩

set_option maxRecDepth 1000000 in
/-- C9 as stated fails at a new builder: `BuildEventFuncRequest` returns a
request whose body decodes to one part, named `__event_data__`. -/
theorem new_builder_request_carries_event_data :
    ∃ r : Request,
      (NewMultipartBuilder.BuildEventFuncRequest sampleRnd none noFiles).1 = .ok r ∧
      (decode (valuesGet r.Header (str "Content-Type")) r.Body.data).map
          (List.map DecodedPart.name) =
        some [str "__event_data__"] := by
  refine ⟨_, BuildEventFuncRequest_of_origin_form NewMultipartBuilder sampleRnd none noFiles
    { Scheme := [], Opaque := [], Path := str "/", ForceQuery := false,
      RawQuery := str "__execute_event__=" } (by decide) (by decide), ?_⟩
  decide

set_option maxRecDepth 1000000 in
/-- C9 at a concrete input: a builder with the one field `a=1` and the URL
`/page`, no descriptor set. `Build` gives the one part; the request of
`BuildEventFuncRequest` is returned and its body holds the part of the field
and then the part `__event_data__`. -/
theorem event_data_present_without_descriptor_witness :
    decode (((NewMultipartBuilder.AddField (str "a") (str "1")).PageURL (str "/page")).Build
          sampleRnd none noFiles).contentType
        (((NewMultipartBuilder.AddField (str "a") (str "1")).PageURL (str "/page")).Build
          sampleRnd none noFiles).body.data =
      some [{ name := str "a", filename := none, content := str "1" }] ∧
    ∃ r : Request,
      (((NewMultipartBuilder.AddField (str "a") (str "1")).PageURL
        (str "/page")).BuildEventFuncRequest sampleRnd none noFiles).1 = .ok r ∧
      r.Body.err = none ∧
      decode (valuesGet r.Header (str "Content-Type")) r.Body.data =
        some [{ name := str "a", filename := none, content := str "1" },
              { name := str "__event_data__", filename := none,
                content := marshalEventBody NewMultipartBuilder.eb }] := by
  have h := event_data_present_without_descriptor
    ((NewMultipartBuilder.AddField (str "a") (str "1")).PageURL (str "/page"))
    [{ name := str "a", filename := none, content := str "1" }] sampleRnd noFiles rfl
    (List.Forall₂.cons (fieldWriter_writesPart noFiles (str "a") (str "1")) List.Forall₂.nil)
    (by
      intro p hp
      simp at hp
      subst hp
      exact ⟨by decide, fun g hg => (by cases hg), by decide⟩)
  obtain ⟨r, hr⟩ := h.2.2 (by decide) (by decide)
  obtain ⟨he, hd⟩ := h.2.1 r hr
  refine ⟨h.1, r, hr, he, ?_⟩
  rw [hd]
  rfl

end Multipartestutils
